import Mathlib

/-!
# Ring synchronisation of the e1000 netmap adapter

A shallow embedding of `sys/dev/netmap/if_em_netmap.h`: the transmit
reconciler `em_netmap_txsync`, the receive reconciler `em_netmap_rxsync`, and
the routines `em_netmap_block_tasks` and `em_netmap_unblock_tasks`. The packet
generator `examples/pkt-gen-pcap.c` follows in the namespace `PktGen`.

Conventions of the embedding.

* The C routines compute with `int` variables (`j`, `k`, `n`, `lim`, `delta`);
  the ring fields they read and write are held as integers with the value the
  routine sees in those variables. A `cur` field whose stored value reads into
  `int k` as a negative number is the integer `k` itself.
* `ring->slot`, `txr->tx_base` and `rxr->rx_base` are lists; an access outside
  the list is the outcome `fault`.
* Locks, device registers and DMA calls are recorded, oldest first, in a trace.
  The debug message `D("TDH wrap")` is not recorded.
* The two `while` loops and the `for` loop take a fuel argument counting loop
  iterations; `out_of_fuel` means the loop was still running when the fuel
  ended.
* Constants and helpers of `netmap.h`, `netmap_kern.h` and the e1000 headers
  are the fields of `Env`. The byte-order conversions `htole32`, `htole64` and
  `le16toh` keep the value.
* Calls on task queues are recorded, oldest first, in a log of their own.
-/

namespace EmNetmap

/-- Constants, macros and helpers declared in headers outside this file
(`netmap.h`, `netmap_kern.h`, `e1000_hw.h`), taken as parameters. `NMB`
maps a buffer handle to its address, `netmap_buffer_base` being the address
returned for a handle that is not mapped. -/
structure Env where
  NS_REPORT : Nat
  NS_BUF_CHANGED : Nat
  NR_REINIT : Nat
  E1000_TXD_CMD_RS : Nat
  E1000_TXD_CMD_EOP : Nat
  E1000_RXD_STAT_DD : Nat
  NETMAP_BUF_SIZE : Int
  netmap_buffer_base : Nat
  NMB : Nat → Nat
  vtophys : Nat → Nat
  txd_cmd : Nat

/-- One entry of `ring->slot`. -/
structure netmap_slot where
  buf_idx : Nat
  len : Nat
  flags : Nat
deriving DecidableEq, Repr

/-- One transmit descriptor of `txr->tx_base`. -/
structure e1000_tx_desc where
  buffer_addr : Nat
  lower_data : Nat
  upper_data : Nat
deriving DecidableEq, Repr

/-- One receive descriptor of `rxr->rx_base`. -/
structure e1000_rx_desc where
  buffer_addr : Nat
  length : Nat
  status : Nat
deriving DecidableEq, Repr

/-- Calls made by the sync routines on locks, device registers and DMA maps. -/
inductive Event where
  | EM_TX_LOCK
  | EM_TX_UNLOCK
  | EM_RX_LOCK
  | EM_RX_UNLOCK
  | E1000_READ_REG_TDH (ring_nr : Nat)
  | E1000_WRITE_REG_TDT (me : Nat) (v : Int)
  | E1000_WRITE_REG_RDT (me : Nat) (v : Int)
  | bus_dmamap_sync_ring
  | bus_dmamap_sync_buf (j : Int)
  | netmap_reload_map (j : Int) (addr : Nat)
deriving DecidableEq, Repr

/-- What a sync routine does: `ok` is `return 0`; `ring_reinit s` is
`return netmap_ring_reinit(kring)` entered in state `s`. -/
inductive Outcome (σ : Type) where
  | ok : σ → Outcome σ
  | ring_reinit : σ → Outcome σ
  | fault : Outcome σ
  | out_of_fuel : Outcome σ
deriving DecidableEq, Repr

/-- State reached by `em_netmap_txsync`: the fields of `struct netmap_kring`
(`nkr_num_slots`, `nr_kflags`, `nr_hwcur`, `nr_hwavail`), of its
`struct netmap_ring` (`cur`, `avail`, `slot`), of `struct tx_ring` (`me`,
`next_to_clean`, `tx_base`), and the trace. -/
structure TxState where
  nkr_num_slots : Int
  nr_kflags : Nat
  nr_hwcur : Int
  nr_hwavail : Int
  cur : Int
  avail : Int
  slot : List netmap_slot
  me : Nat
  next_to_clean : Int
  tx_base : List e1000_tx_desc
  trace : List Event
deriving DecidableEq, Repr

/-- State reached by `em_netmap_rxsync`, as `TxState` with the fields of
`struct rx_ring` (`me`, `next_to_check`, `rx_base`). -/
structure RxState where
  nkr_num_slots : Int
  nr_kflags : Nat
  nr_hwcur : Int
  nr_hwavail : Int
  cur : Int
  avail : Int
  slot : List netmap_slot
  me : Nat
  next_to_check : Int
  rx_base : List e1000_rx_desc
  trace : List Event
deriving DecidableEq, Repr

/-- Read of `xs[j]` with a C `int` index. -/
def at? {α : Type} (xs : List α) (j : Int) : Option α :=
  if 0 ≤ j then xs[j.toNat]? else none

/-- Write of `xs[j]` with a C `int` index. -/
def put {α : Type} (xs : List α) (j : Int) (v : α) : List α :=
  xs.set j.toNat v

/-- C `x & ~m` on an unsigned field: the bits of `m` are cleared in `x`. -/
def and_not (x m : Nat) : Nat := x ^^^ (x &&& m)

/-- The ring increment `j = (j == lim) ? 0 : j + 1`. -/
def ring_next (lim j : Int) : Int := if j = lim then 0 else j + 1

/-- The ring decrement `j = (j == 0) ? lim : j - 1`. -/
def ring_prev (lim j : Int) : Int := if j = 0 then lim else j - 1

/-- The slot test of the transmit loop: `addr == netmap_buffer_base ||
len > NETMAP_BUF_SIZE`. -/
def tx_slot_bad (env : Env) (slot : netmap_slot) : Prop :=
  env.NMB slot.buf_idx = env.netmap_buffer_base ∨ (slot.len : Int) > env.NETMAP_BUF_SIZE

instance (env : Env) (slot : netmap_slot) : Decidable (tx_slot_bad env slot) := by
  unfold tx_slot_bad; exact inferInstance

/-- The slot test of the receive loop: `addr == netmap_buffer_base`. -/
def rx_slot_bad (env : Env) (slot : netmap_slot) : Prop :=
  env.NMB slot.buf_idx = env.netmap_buffer_base

instance (env : Env) (slot : netmap_slot) : Decidable (rx_slot_bad env slot) := by
  unfold rx_slot_bad; exact inferInstance

/-- The `flags` value of the transmit loop: `E1000_TXD_CMD_RS` when the slot
has `NS_REPORT`, or `j` is `0` or `report_frequency`. -/
def tx_report_flags (env : Env) (report_frequency j : Int) (slot : netmap_slot) : Nat :=
  if slot.flags &&& env.NS_REPORT ≠ 0 ∨ j = 0 ∨ j = report_frequency
  then env.E1000_TXD_CMD_RS else 0

/-- Slot `j` after one pass of the transmit loop body: `NS_REPORT` cleared,
and `NS_BUF_CHANGED` cleared when it was set. -/
def tx_slot_after (env : Env) (slot : netmap_slot) : netmap_slot :=
  let slot1 := { slot with flags := and_not slot.flags env.NS_REPORT }
  if slot1.flags &&& env.NS_BUF_CHANGED ≠ 0
  then { slot1 with flags := and_not slot1.flags env.NS_BUF_CHANGED }
  else slot1

/-- Descriptor `j` after one pass of the transmit loop body. -/
def tx_desc_after (env : Env) (report_frequency j : Int) (slot : netmap_slot)
    (curr : e1000_tx_desc) : e1000_tx_desc :=
  let curr1 := { curr with
    upper_data := 0
    lower_data := env.txd_cmd |||
      (env.E1000_TXD_CMD_EOP ||| tx_report_flags env report_frequency j slot) ||| slot.len }
  if and_not slot.flags env.NS_REPORT &&& env.NS_BUF_CHANGED ≠ 0
  then { curr1 with buffer_addr := env.vtophys (env.NMB slot.buf_idx) }
  else curr1

/-- DMA calls of one pass of the transmit loop body. -/
def tx_slot_events (env : Env) (j : Int) (slot : netmap_slot) : List Event :=
  (if and_not slot.flags env.NS_REPORT &&& env.NS_BUF_CHANGED ≠ 0
   then [Event.netmap_reload_map j (env.NMB slot.buf_idx)] else [])
  ++ [Event.bus_dmamap_sync_buf j]

/-- Body of the transmit loop (lines 218-250) for a slot that passed the test. -/
def tx_body (env : Env) (report_frequency j : Int) (slot : netmap_slot)
    (curr : e1000_tx_desc) (s : TxState) : TxState :=
  { s with
    slot := put s.slot j (tx_slot_after env slot)
    tx_base := put s.tx_base j (tx_desc_after env report_frequency j slot curr)
    trace := s.trace ++ tx_slot_events env j slot }

/-- The publish loop `while (j != k)` of `em_netmap_txsync` (lines 217-251),
returning the state and the counter `n`. A bad slot unlocks and leaves
through `netmap_ring_reinit`. -/
def tx_publish (env : Env) (lim k report_frequency : Int) (do_lock : Bool) :
    Nat → Int → Int → TxState → Outcome (TxState × Int)
  | fuel, j, n, s =>
    if j = k then Outcome.ok (s, n)
    else match fuel with
      | 0 => Outcome.out_of_fuel
      | fuel + 1 =>
        match at? s.slot j, at? s.tx_base j with
        | some slot, some curr =>
          if tx_slot_bad env slot then
            Outcome.ring_reinit
              ({ s with trace := s.trace ++ (if do_lock then [Event.EM_TX_UNLOCK] else []) }, n)
          else
            tx_publish env lim k report_frequency do_lock fuel (ring_next lim j) (n + 1)
              (tx_body env report_frequency j slot curr s)
        | _, _ => Outcome.fault

/-- The reclaim phase of `em_netmap_txsync` (lines 196-212); `tdh` is the
value read from the `TDH` register. -/
def tx_reclaim (ring_nr : Nat) (tdh : Int) (s : TxState) : TxState :=
  let j0 := tdh
  let j := if j0 ≥ s.nkr_num_slots then j0 - s.nkr_num_slots else j0
  let delta := j - s.next_to_clean
  let delta1 := if delta < 0 then delta + s.nkr_num_slots else delta
  let hwavail := if delta ≠ 0 then s.nr_hwavail + delta1 else s.nr_hwavail
  { s with
    next_to_clean := if delta ≠ 0 then j else s.next_to_clean
    nr_hwavail := hwavail
    avail := hwavail
    trace := s.trace ++ [Event.E1000_READ_REG_TDH ring_nr] }

/-- The part of `em_netmap_txsync` after the reclaim phase (lines 214-266). -/
def tx_publish_phase (env : Env) (fuel : Nat) (do_lock : Bool) (s2 : TxState) :
    Outcome TxState :=
  let lim := s2.nkr_num_slots - 1
  let report_frequency := s2.nkr_num_slots >>> 1
  let k := s2.cur
  let j := s2.nr_hwcur
  if j ≠ k then
    match tx_publish env lim k report_frequency do_lock fuel j 0 s2 with
    | Outcome.ok (s3, n) =>
      Outcome.ok { s3 with
        nr_hwcur := s3.cur
        avail := s3.avail - n
        nr_hwavail := s3.avail - n
        trace := s3.trace ++ [Event.bus_dmamap_sync_ring, Event.E1000_WRITE_REG_TDT s3.me s3.cur]
                   ++ (if do_lock then [Event.EM_TX_UNLOCK] else []) }
    | Outcome.ring_reinit (s3, _) => Outcome.ring_reinit s3
    | Outcome.fault => Outcome.fault
    | Outcome.out_of_fuel => Outcome.out_of_fuel
  else
    Outcome.ok { s2 with trace := s2.trace ++ (if do_lock then [Event.EM_TX_UNLOCK] else []) }

/-- The routine `em_netmap_txsync(a, ring_nr, do_lock)`; `tdh` is the value the
device returns for the read of `TDH`. -/
def em_netmap_txsync (env : Env) (fuel : Nat) (ring_nr : Nat) (do_lock : Bool) (tdh : Int)
    (s : TxState) : Outcome TxState :=
  let lim := s.nkr_num_slots - 1
  let k := s.cur
  if s.nr_kflags &&& env.NR_REINIT ≠ 0 ∨ k > lim then Outcome.ring_reinit s
  else
    let s1 := { s with trace := s.trace ++ (if do_lock then [Event.EM_TX_LOCK] else [])
                         ++ [Event.bus_dmamap_sync_ring] }
    tx_publish_phase env fuel do_lock (tx_reclaim ring_nr tdh s1)

/-- The ingest loop `for (n = 0; ; n++)` of `em_netmap_rxsync` (lines 294-303),
returning the state and the final `j` and `n`. Each unit of fuel is one
descriptor examined. -/
def rx_ingest_loop (env : Env) (lim : Int) :
    Nat → Int → Int → RxState → Outcome (RxState × Int × Int)
  | 0, _, _, _ => Outcome.out_of_fuel
  | fuel + 1, j, n, s =>
    match at? s.rx_base j with
    | none => Outcome.fault
    | some curr =>
      if curr.status &&& env.E1000_RXD_STAT_DD = 0 then Outcome.ok (s, j, n)
      else
        match at? s.slot j with
        | none => Outcome.fault
        | some slot =>
          rx_ingest_loop env lim fuel (ring_next lim j) (n + 1)
            { s with
              slot := put s.slot j { slot with len := curr.length }
              trace := s.trace ++ [Event.bus_dmamap_sync_buf j] }

/-- The ingest phase of `em_netmap_rxsync` (lines 292-307). -/
def rx_ingest (env : Env) (fuel : Nat) (s : RxState) : Outcome RxState :=
  match rx_ingest_loop env (s.nkr_num_slots - 1) fuel s.next_to_check 0 s with
  | Outcome.ok (s1, j, n) =>
    Outcome.ok (if n ≠ 0 then { s1 with next_to_check := j, nr_hwavail := s1.nr_hwavail + n }
                else s1)
  | Outcome.ring_reinit (s1, _, _) => Outcome.ring_reinit s1
  | Outcome.fault => Outcome.fault
  | Outcome.out_of_fuel => Outcome.out_of_fuel

/-- Slot `j` after one pass of the recycle loop body: `NS_BUF_CHANGED` cleared
when it was set. -/
def rx_slot_after (env : Env) (slot : netmap_slot) : netmap_slot :=
  if slot.flags &&& env.NS_BUF_CHANGED ≠ 0
  then { slot with flags := and_not slot.flags env.NS_BUF_CHANGED }
  else slot

/-- Descriptor `j` after one pass of the recycle loop body: `status = 0`. -/
def rx_desc_after (env : Env) (slot : netmap_slot) (curr : e1000_rx_desc) : e1000_rx_desc :=
  let curr1 := { curr with status := 0 }
  if slot.flags &&& env.NS_BUF_CHANGED ≠ 0
  then { curr1 with buffer_addr := env.vtophys (env.NMB slot.buf_idx) }
  else curr1

/-- DMA calls of one pass of the recycle loop body. -/
def rx_slot_events (env : Env) (j : Int) (slot : netmap_slot) : List Event :=
  (if slot.flags &&& env.NS_BUF_CHANGED ≠ 0
   then [Event.netmap_reload_map j (env.NMB slot.buf_idx)] else [])
  ++ [Event.bus_dmamap_sync_buf j]

/-- Body of the recycle loop (lines 319-343) for a slot that passed the test. -/
def rx_body (env : Env) (j : Int) (slot : netmap_slot) (curr : e1000_rx_desc)
    (s : RxState) : RxState :=
  { s with
    slot := put s.slot j (rx_slot_after env slot)
    rx_base := put s.rx_base j (rx_desc_after env slot curr)
    trace := s.trace ++ rx_slot_events env j slot }

/-- The recycle loop `while (j != k)` of `em_netmap_rxsync` (lines 318-344),
returning the state and the counter `n`; the loop leaves with `j = k`. A bad
slot unlocks and leaves through `netmap_ring_reinit`. -/
def rx_recycle (env : Env) (lim k : Int) (do_lock : Bool) :
    Nat → Int → Int → RxState → Outcome (RxState × Int)
  | fuel, j, n, s =>
    if j = k then Outcome.ok (s, n)
    else match fuel with
      | 0 => Outcome.out_of_fuel
      | fuel + 1 =>
        match at? s.slot j, at? s.rx_base j with
        | some slot, some curr =>
          if rx_slot_bad env slot then
            Outcome.ring_reinit
              ({ s with trace := s.trace ++ (if do_lock then [Event.EM_RX_UNLOCK] else []) }, n)
          else
            rx_recycle env lim k do_lock fuel (ring_next lim j) (n + 1)
              (rx_body env j slot curr s)
        | _, _ => Outcome.fault

/-- The part of `em_netmap_rxsync` after the ingest phase (lines 315-360). -/
def rx_recycle_phase (env : Env) (fuel : Nat) (do_lock : Bool) (s2 : RxState) :
    Outcome RxState :=
  let lim := s2.nkr_num_slots - 1
  let k := s2.cur
  let j := s2.nr_hwcur
  if j ≠ k then
    match rx_recycle env lim k do_lock fuel j 0 s2 with
    | Outcome.ok (s3, n) =>
      Outcome.ok { s3 with
        nr_hwavail := s3.nr_hwavail - n
        nr_hwcur := s3.cur
        avail := s3.nr_hwavail - n
        trace := s3.trace ++ [Event.bus_dmamap_sync_ring,
                              Event.E1000_WRITE_REG_RDT s3.me (ring_prev lim k)]
                   ++ (if do_lock then [Event.EM_RX_UNLOCK] else []) }
    | Outcome.ring_reinit (s3, _) => Outcome.ring_reinit s3
    | Outcome.fault => Outcome.fault
    | Outcome.out_of_fuel => Outcome.out_of_fuel
  else
    Outcome.ok { s2 with
      avail := s2.nr_hwavail
      trace := s2.trace ++ (if do_lock then [Event.EM_RX_UNLOCK] else []) }

/-- Entry of `em_netmap_rxsync` after the guard (lines 286-290): the lock
when `do_lock`, then the sync of the descriptor area. -/
def rx_enter (do_lock : Bool) (s : RxState) : RxState :=
  { s with trace := s.trace ++ (if do_lock then [Event.EM_RX_LOCK] else [])
                      ++ [Event.bus_dmamap_sync_ring] }

/-- The routine `em_netmap_rxsync(a, ring_nr, do_lock)`. -/
def em_netmap_rxsync (env : Env) (fuel : Nat) (do_lock : Bool) (s : RxState) :
    Outcome RxState :=
  let lim := s.nkr_num_slots - 1
  let k := s.cur
  if s.nr_kflags &&& env.NR_REINIT ≠ 0 ∨ k > lim then Outcome.ring_reinit s
  else
    match rx_ingest env fuel (rx_enter do_lock s) with
    | Outcome.ok s2 => rx_recycle_phase env fuel do_lock s2
    | Outcome.ring_reinit s2 => Outcome.ring_reinit s2
    | Outcome.fault => Outcome.fault
    | Outcome.out_of_fuel => Outcome.out_of_fuel

/-- The indices visited by `d` ring increments from `j`: `j, j+1, ...`,
wrapping after `lim`. -/
def span (lim : Int) : Int → Nat → List Int
  | _, 0 => []
  | j, d + 1 => j :: span lim (ring_next lim j) d

/-- Constants of `netmap.h` and `e1000_hw.h` used for the concrete examples;
handles `0` and `1` are not mapped, buffers are 2048 bytes. -/
def env0 : Env where
  NS_REPORT := 2
  NS_BUF_CHANGED := 1
  NR_REINIT := 1
  E1000_TXD_CMD_RS := 0x08000000
  E1000_TXD_CMD_EOP := 0x01000000
  E1000_RXD_STAT_DD := 1
  NETMAP_BUF_SIZE := 2048
  netmap_buffer_base := 0
  NMB := fun i => if i < 2 then 0 else 2048 * i
  vtophys := fun a => a
  txd_cmd := 0

/-- One pass of the transmit loop body at index `j`, as a function of the
state alone (nothing happens when `j` is outside the arrays). -/
def tx_step (env : Env) (report_frequency : Int) (s : TxState) (j : Int) : TxState :=
  match at? s.slot j, at? s.tx_base j with
  | some slot, some curr => tx_body env report_frequency j slot curr s
  | _, _ => s

/-- One pass of the recycle loop body at index `j`, as a function of the state
alone (nothing happens when `j` is outside the arrays). -/
def rx_step (env : Env) (s : RxState) (j : Int) : RxState :=
  match at? s.slot j, at? s.rx_base j with
  | some slot, some curr => rx_body env j slot curr s
  | _, _ => s

/-- Per-buffer DMA calls, the only calls made inside the loop bodies. -/
def Event.is_buf_dma : Event → Bool
  | Event.bus_dmamap_sync_buf _ => true
  | Event.netmap_reload_map _ _ => true
  | _ => false

/-- Number of slots the consumer asks to publish (transmit) or to recycle
(receive): `(k - h) mod N` for `k = cur`, `h = nr_hwcur`, `N = nkr_num_slots`. -/
def pending (N h k : Int) : Int := (k - h) % N

/-- The span of a transmit ring: the indices `h, h+1, ..., k-1`, wrapping at
`N`, in the order the loop visits them. -/
def tx_span (s : TxState) : List Int :=
  span (s.nkr_num_slots - 1) s.nr_hwcur (pending s.nkr_num_slots s.nr_hwcur s.cur).toNat

/-- The span of a receive ring: the indices `h, h+1, ..., k-1`, wrapping at
`N`, in the order the loop visits them. -/
def rx_span (s : RxState) : List Int :=
  span (s.nkr_num_slots - 1) s.nr_hwcur (pending s.nkr_num_slots s.nr_hwcur s.cur).toNat

/-- Every slot at the indices `js` passes the test of the transmit loop. -/
def tx_slots_ok (env : Env) (slots : List netmap_slot) (js : List Int) : Prop :=
  ∀ i ∈ js, ∀ x ∈ at? slots i, ¬ tx_slot_bad env x

instance (env : Env) (slots : List netmap_slot) (js : List Int) :
    Decidable (tx_slots_ok env slots js) := by
  unfold tx_slots_ok; exact inferInstance

/-- Every slot at the indices `js` passes the test of the receive loop. -/
def rx_slots_ok (env : Env) (slots : List netmap_slot) (js : List Int) : Prop :=
  ∀ i ∈ js, ∀ x ∈ at? slots i, ¬ rx_slot_bad env x

instance (env : Env) (slots : List netmap_slot) (js : List Int) :
    Decidable (rx_slots_ok env slots js) := by
  unfold rx_slots_ok; exact inferInstance

/-- A transmit ring of capacity 8 with all 7 usable slots available, the
consumer having advanced its cursor by 3. -/
def tx8 : TxState where
  nkr_num_slots := 8
  nr_kflags := 0
  nr_hwcur := 0
  nr_hwavail := 7
  cur := 3
  avail := 7
  slot := List.replicate 8 { buf_idx := 2, len := 60, flags := 3 }
  me := 0
  next_to_clean := 0
  tx_base := List.replicate 8 { buffer_addr := 0, lower_data := 0, upper_data := 0 }
  trace := []

/-- The ring `tx8` after its three slots were published: `nr_hwcur = 3`,
`avail = 4`, nothing completed yet. -/
def tx8_sent : TxState :=
  { tx8 with nr_hwcur := 3, nr_hwavail := 4, avail := 4 }

/-- One round on a transmit ring: the consumer stores `cur` and the slots and
calls `em_netmap_txsync`, during which the device reports `tdh`. -/
structure TxOp where
  cur : Int
  slot : List netmap_slot
  tdh : Int

/-- A transmit ring of capacity `N` as created: cursors 0 and `N - 1` slots
available. -/
def tx_init (N : Int) (slot : List netmap_slot) (tx_base : List e1000_tx_desc) : TxState where
  nkr_num_slots := N
  nr_kflags := 0
  nr_hwcur := 0
  nr_hwavail := N - 1
  cur := 0
  avail := N - 1
  slot := slot
  me := 0
  next_to_clean := 0
  tx_base := tx_base
  trace := []

/-- Runs the rounds `ops` in order from `s`; every round has to be accepted by
`guard` and its `em_netmap_txsync` call has to return success, otherwise the
run is `none`. -/
def tx_run (env : Env) (fuel ring_nr : Nat) (do_lock : Bool) (guard : TxState → TxOp → Bool) :
    TxState → List TxOp → Option TxState
  | s, [] => some s
  | s, op :: ops =>
    if guard s op then
      match em_netmap_txsync env fuel ring_nr do_lock op.tdh
          { s with cur := op.cur, slot := op.slot } with
      | Outcome.ok s' => tx_run env fuel ring_nr do_lock guard s' ops
      | _ => none
    else none

/-- The consumer cursor of the round is a valid index. -/
def tx_cur_in_range (s : TxState) (op : TxOp) : Prop :=
  0 ≤ op.cur ∧ op.cur ≤ s.nkr_num_slots - 1

instance (s : TxState) (op : TxOp) : Decidable (tx_cur_in_range s op) := by
  unfold tx_cur_in_range; exact inferInstance

/-- The consumer cursor of the round is a valid index and advances over no more
slots than are available after the reclaim; the device index is in
`[0, 2N-1]` and reports as completed only slots that are in flight. -/
def tx_admissible (s : TxState) (op : TxOp) : Prop :=
  0 ≤ op.cur ∧ op.cur ≤ s.nkr_num_slots - 1 ∧
  0 ≤ op.tdh ∧ op.tdh ≤ 2 * s.nkr_num_slots - 1 ∧
  (op.tdh - s.next_to_clean) % s.nkr_num_slots
    ≤ (s.nr_hwcur - s.next_to_clean) % s.nkr_num_slots ∧
  (op.cur - s.nr_hwcur) % s.nkr_num_slots
    ≤ s.nr_hwavail + (op.tdh - s.next_to_clean) % s.nkr_num_slots

instance (s : TxState) (op : TxOp) : Decidable (tx_admissible s op) := by
  unfold tx_admissible; exact inferInstance

/-- The count invariant of a transmit ring: cursors in range and
`nr_hwavail = N - 1 - ((nr_hwcur - next_to_clean) mod N)`. -/
def tx_inv (s : TxState) : Prop :=
  0 ≤ s.nr_hwcur ∧ s.nr_hwcur ≤ s.nkr_num_slots - 1 ∧
  0 ≤ s.next_to_clean ∧ s.next_to_clean ≤ s.nkr_num_slots - 1 ∧
  s.nr_hwavail = s.nkr_num_slots - 1 - (s.nr_hwcur - s.next_to_clean) % s.nkr_num_slots

/-- Eight slots with mapped buffers of 60 bytes. -/
def slots8 : List netmap_slot := List.replicate 8 { buf_idx := 2, len := 60, flags := 0 }

/-- Eight cleared transmit descriptors. -/
def descs8 : List e1000_tx_desc :=
  List.replicate 8 { buffer_addr := 0, lower_data := 0, upper_data := 0 }

/-- Four slots with mapped buffers of 60 bytes. -/
def slots4 : List netmap_slot := List.replicate 4 { buf_idx := 2, len := 60, flags := 0 }

/-- Four cleared transmit descriptors. -/
def descs4 : List e1000_tx_desc :=
  List.replicate 4 { buffer_addr := 0, lower_data := 0, upper_data := 0 }

/-- The ring of capacity 8 after one call in which the device reported index 3
with nothing in flight. -/
def tx8_over : TxState :=
  { nkr_num_slots := 8, nr_kflags := 0, nr_hwcur := 0, nr_hwavail := 10, cur := 0, avail := 10,
    slot := slots8, me := 0, next_to_clean := 3, tx_base := descs8,
    trace := [Event.EM_TX_LOCK, Event.bus_dmamap_sync_ring, Event.E1000_READ_REG_TDH 0,
      Event.EM_TX_UNLOCK] }

/-- The ring of capacity 4 after the consumer published 3 slots and then 2 more
with none completed. -/
def tx4_neg : TxState :=
  { nkr_num_slots := 4, nr_kflags := 0, nr_hwcur := 1, nr_hwavail := -2, cur := 1, avail := -2,
    slot := slots4, me := 0, next_to_clean := 0,
    tx_base := [⟨0, 150995004, 0⟩, ⟨0, 16777276, 0⟩, ⟨0, 150995004, 0⟩, ⟨0, 16777276, 0⟩],
    trace := [Event.bus_dmamap_sync_ring, Event.E1000_READ_REG_TDH 0,
      Event.bus_dmamap_sync_buf 0, Event.bus_dmamap_sync_buf 1, Event.bus_dmamap_sync_buf 2,
      Event.bus_dmamap_sync_ring, Event.E1000_WRITE_REG_TDT 0 3,
      Event.bus_dmamap_sync_ring, Event.E1000_READ_REG_TDH 0,
      Event.bus_dmamap_sync_buf 3, Event.bus_dmamap_sync_buf 0,
      Event.bus_dmamap_sync_ring, Event.E1000_WRITE_REG_TDT 0 1] }

/-- The ring of capacity 8 after 3 slots were published and then reported
complete. -/
def tx8_done : TxState :=
  { nkr_num_slots := 8, nr_kflags := 0, nr_hwcur := 3, nr_hwavail := 7, cur := 3, avail := 7,
    slot := slots8, me := 0, next_to_clean := 3,
    tx_base := [⟨0, 150995004, 0⟩, ⟨0, 16777276, 0⟩, ⟨0, 16777276, 0⟩, ⟨0, 0, 0⟩, ⟨0, 0, 0⟩,
      ⟨0, 0, 0⟩, ⟨0, 0, 0⟩, ⟨0, 0, 0⟩],
    trace := [Event.bus_dmamap_sync_ring, Event.E1000_READ_REG_TDH 0,
      Event.bus_dmamap_sync_buf 0, Event.bus_dmamap_sync_buf 1, Event.bus_dmamap_sync_buf 2,
      Event.bus_dmamap_sync_ring, Event.E1000_WRITE_REG_TDT 0 3,
      Event.bus_dmamap_sync_ring, Event.E1000_READ_REG_TDH 0] }

/-- Modelled from the spec: the per-ring state machine of section 4.3
(`INACTIVE`, `ACTIVE`, `NEEDS_REINIT`). The body of `netmap_ring_reinit` is
not part of these sources; by the spec a validation failure takes the ring
from `ACTIVE` to `NEEDS_REINIT`. -/
inductive RingMode where
  | INACTIVE
  | ACTIVE
  | NEEDS_REINIT
deriving DecidableEq, Repr

/-- Modelled from the spec: the mode in which a sync call on an `ACTIVE` ring
leaves it, `NEEDS_REINIT` when the call left through `netmap_ring_reinit`
(the spec's `ReinitRequired`) and `ACTIVE` when it returned 0. -/
def Outcome.mode {σ : Type} : Outcome σ → Option RingMode
  | Outcome.ok _ => some RingMode.ACTIVE
  | Outcome.ring_reinit _ => some RingMode.NEEDS_REINIT
  | Outcome.fault => none
  | Outcome.out_of_fuel => none

/-- A transmit ring of capacity 8 whose `cur` field holds `0xFFFFFFFF`, read
into the `int k` as `-1`; slot 0 is mapped, slot 1 is not. -/
def tx8_neg_cur : TxState where
  nkr_num_slots := 8
  nr_kflags := 0
  nr_hwcur := 0
  nr_hwavail := 7
  cur := -1
  avail := 7
  slot := [⟨2, 60, 0⟩, ⟨0, 60, 0⟩, ⟨2, 60, 0⟩, ⟨2, 60, 0⟩, ⟨2, 60, 0⟩, ⟨2, 60, 0⟩, ⟨2, 60, 0⟩,
    ⟨2, 60, 0⟩]
  me := 0
  next_to_clean := 0
  tx_base := descs8
  trace := []

/-- The ring `tx8`, all of whose slots are mapped, with a `cur` field that
reads into the `int k` as `-1`. -/
def tx8_neg_cur_valid : TxState :=
  { tx8 with cur := -1 }

/-- The ring `tx8_neg_cur` when `em_netmap_txsync` leaves: descriptor 0 has
been written under the lock. -/
def tx8_neg_cur_after : TxState :=
  { tx8_neg_cur with
    tx_base := [⟨0, 150995004, 0⟩, ⟨0, 0, 0⟩, ⟨0, 0, 0⟩, ⟨0, 0, 0⟩, ⟨0, 0, 0⟩, ⟨0, 0, 0⟩,
      ⟨0, 0, 0⟩, ⟨0, 0, 0⟩]
    trace := [Event.EM_TX_LOCK, Event.bus_dmamap_sync_ring, Event.E1000_READ_REG_TDH 0,
      Event.bus_dmamap_sync_buf 0, Event.EM_TX_UNLOCK] }

/-- A receive ring of capacity 4 whose `cur` field holds `0xFFFFFFFF`, read
into the `int k` as `-1`; no descriptor is done, slot 0 is mapped, slot 1 is
not. -/
def rx4_neg_cur : RxState where
  nkr_num_slots := 4
  nr_kflags := 0
  nr_hwcur := 0
  nr_hwavail := 0
  cur := -1
  avail := 0
  slot := [⟨2, 0, 0⟩, ⟨0, 0, 0⟩, ⟨2, 0, 0⟩, ⟨2, 0, 0⟩]
  me := 0
  next_to_check := 0
  rx_base := [⟨0, 0, 8⟩, ⟨0, 0, 0⟩, ⟨0, 0, 0⟩, ⟨0, 0, 0⟩]
  trace := []

/-- The ring `rx4_neg_cur` when `em_netmap_rxsync` leaves: the status of
descriptor 0 has been cleared under the lock. -/
def rx4_neg_cur_after : RxState :=
  { rx4_neg_cur with
    rx_base := [⟨0, 0, 0⟩, ⟨0, 0, 0⟩, ⟨0, 0, 0⟩, ⟨0, 0, 0⟩]
    trace := [Event.EM_RX_LOCK, Event.bus_dmamap_sync_ring, Event.bus_dmamap_sync_buf 0,
      Event.EM_RX_UNLOCK] }

/-- A transmit ring of capacity 8 with a span of 5 slots (`nr_hwcur = 0`,
`cur = 5`) whose third slot, index 2, is not mapped. -/
def tx8_bad3 : TxState where
  nkr_num_slots := 8
  nr_kflags := 0
  nr_hwcur := 0
  nr_hwavail := 7
  cur := 5
  avail := 7
  slot := [⟨2, 60, 0⟩, ⟨3, 60, 0⟩, ⟨0, 60, 0⟩, ⟨4, 60, 0⟩, ⟨5, 60, 0⟩, ⟨6, 60, 0⟩, ⟨7, 60, 0⟩,
    ⟨8, 60, 0⟩]
  me := 0
  next_to_clean := 0
  tx_base := descs8
  trace := []

/-- One pass of the ingest loop body at index `j`, as a function of the state
alone: the slot takes the length the descriptor reports. -/
def rx_ingest_step (s : RxState) (j : Int) : RxState :=
  match at? s.rx_base j, at? s.slot j with
  | some curr, some slot =>
    { s with
      slot := put s.slot j { slot with len := curr.length }
      trace := s.trace ++ [Event.bus_dmamap_sync_buf j] }
  | _, _ => s

/-- Descriptor `i` exists and has `E1000_RXD_STAT_DD` set. -/
def rx_desc_done (env : Env) (rx_base : List e1000_rx_desc) (i : Int) : Prop :=
  ∃ c ∈ at? rx_base i, c.status &&& env.E1000_RXD_STAT_DD ≠ 0

instance (env : Env) (rx_base : List e1000_rx_desc) (i : Int) :
    Decidable (rx_desc_done env rx_base i) := by
  unfold rx_desc_done; exact inferInstance

/-- A receive ring of capacity 4 on which the device has completed
descriptors 0 and 1 (lengths 64 and 65). -/
def rx4 : RxState where
  nkr_num_slots := 4
  nr_kflags := 0
  nr_hwcur := 0
  nr_hwavail := 0
  cur := 0
  avail := 0
  slot := [⟨2, 0, 0⟩, ⟨3, 0, 0⟩, ⟨4, 0, 0⟩, ⟨5, 0, 0⟩]
  me := 0
  next_to_check := 0
  rx_base := [⟨0, 64, 1⟩, ⟨0, 65, 1⟩, ⟨0, 0, 0⟩, ⟨0, 0, 0⟩]
  trace := []

/-- The ring `rx4` with every one of its 4 descriptors marked done. -/
def rx4_all_done : RxState :=
  { rx4 with rx_base := [⟨0, 64, 1⟩, ⟨0, 65, 1⟩, ⟨0, 66, 1⟩, ⟨0, 67, 1⟩] }

/-- The ring `rx4` after the consumer has read its two packets and moved `cur`
to 2: descriptors 0 and 1 are to be recycled. -/
def rx4_read : RxState :=
  { rx4 with cur := 2, nr_hwavail := 2, avail := 2, next_to_check := 2 }

/-- The ring `rx4_read` with the buffer of slot 1 not mapped. -/
def rx4_read_bad : RxState :=
  { rx4_read with slot := [⟨2, 0, 0⟩, ⟨0, 0, 0⟩, ⟨4, 0, 0⟩, ⟨5, 0, 0⟩] }

/-- The ring `rx4_read` with every one of its 4 descriptors marked done. -/
def rx4_read_all_done : RxState :=
  { rx4_read with rx_base := [⟨0, 64, 1⟩, ⟨0, 65, 1⟩, ⟨0, 66, 1⟩, ⟨0, 67, 1⟩] }

/-- The ring `rx4_read_bad` with every one of its 4 descriptors marked done. -/
def rx4_read_bad_all_done : RxState :=
  { rx4_read_bad with rx_base := [⟨0, 64, 1⟩, ⟨0, 65, 1⟩, ⟨0, 66, 1⟩, ⟨0, 67, 1⟩] }

/-- The ring `tx8` after the call that publishes its slots 0, 1, 2 (without
the lock). -/
def tx8_published : TxState :=
  { tx8 with
    nr_hwcur := 3
    nr_hwavail := 4
    avail := 4
    slot := [⟨2, 60, 0⟩, ⟨2, 60, 0⟩, ⟨2, 60, 0⟩, ⟨2, 60, 3⟩, ⟨2, 60, 3⟩, ⟨2, 60, 3⟩, ⟨2, 60, 3⟩,
      ⟨2, 60, 3⟩]
    tx_base := [⟨4096, 150995004, 0⟩, ⟨4096, 150995004, 0⟩, ⟨4096, 150995004, 0⟩, ⟨0, 0, 0⟩,
      ⟨0, 0, 0⟩, ⟨0, 0, 0⟩, ⟨0, 0, 0⟩, ⟨0, 0, 0⟩]
    trace := [Event.bus_dmamap_sync_ring, Event.E1000_READ_REG_TDH 0,
      Event.netmap_reload_map 0 4096, Event.bus_dmamap_sync_buf 0,
      Event.netmap_reload_map 1 4096, Event.bus_dmamap_sync_buf 1,
      Event.netmap_reload_map 2 4096, Event.bus_dmamap_sync_buf 2,
      Event.bus_dmamap_sync_ring, Event.E1000_WRITE_REG_TDT 0 3] }

/-- The ring `tx8_published` after a further call in which the device reports
index 3. -/
def tx8_reclaimed : TxState :=
  { tx8_published with
    nr_hwavail := 7
    avail := 7
    next_to_clean := 3
    trace := tx8_published.trace ++ [Event.bus_dmamap_sync_ring, Event.E1000_READ_REG_TDH 0] }


/-- Calls on the ring locks: `EM_TX_LOCK`, `EM_TX_UNLOCK`, `EM_RX_LOCK`,
`EM_RX_UNLOCK`. -/
def Event.is_lock : Event → Bool
  | Event.EM_TX_LOCK => true
  | Event.EM_TX_UNLOCK => true
  | Event.EM_RX_LOCK => true
  | Event.EM_RX_UNLOCK => true
  | _ => false

/-- The lock calls of a log, in the order they were made. -/
def lock_ops (t : List Event) : List Event := t.filter Event.is_lock

/-- The state in which a sync routine leaves: at `return 0`, or at the call
`return netmap_ring_reinit(kring)`; none when the run did not get that far. -/
def Outcome.state? {σ : Type} : Outcome σ → Option σ
  | Outcome.ok s => some s
  | Outcome.ring_reinit s => some s
  | Outcome.fault => none
  | Outcome.out_of_fuel => none

/-- The fields of `struct tx_ring` read by `em_netmap_block_tasks` and
`em_netmap_unblock_tasks`: the handle of its task queue and its task. -/
structure tx_ring where
  tq : Nat
  tx_task : Nat
deriving DecidableEq, Repr

/-- The fields of `struct rx_ring` read by `em_netmap_block_tasks` and
`em_netmap_unblock_tasks`: the handle of its task queue and its task. -/
structure rx_ring where
  tq : Nat
  rx_task : Nat
deriving DecidableEq, Repr

/-- The fields of `struct adapter` read by `em_netmap_block_tasks` and
`em_netmap_unblock_tasks`. -/
structure adapter where
  msix : Int
  num_queues : Int
  tx_rings : List tx_ring
  rx_rings : List rx_ring
  tq : Nat
  link_task : Nat
  que_task : Nat
deriving DecidableEq, Repr

/-- Calls made on task queues, each with the handle of the queue. -/
inductive TaskEvent where
  | taskqueue_block (tq : Nat)
  | taskqueue_drain (tq : Nat) (task : Nat)
  | taskqueue_unblock (tq : Nat)
deriving DecidableEq, Repr

/-- The MSIX loop of `em_netmap_block_tasks` (line 90),
`for (i = 0; i < num_queues; i++, txr++, rxr++)`: the first argument is the
number of passes left, `txr` and `rxr` are the positions of the two pointers
in `tx_rings` and `rx_rings`; a pointer past its array gives `none`. -/
def block_loop (a : adapter) : Nat → Nat → Nat → List TaskEvent → Option (List TaskEvent)
  | 0, _, _, log => some log
  | n + 1, txr, rxr, log =>
    match a.tx_rings[txr]?, a.rx_rings[rxr]? with
    | some t, some r =>
      block_loop a n (txr + 1) (rxr + 1)
        (log ++ [TaskEvent.taskqueue_block t.tq, TaskEvent.taskqueue_drain t.tq t.tx_task,
          TaskEvent.taskqueue_block r.tq, TaskEvent.taskqueue_drain r.tq r.rx_task])
    | _, _ => none

/-- The routine `em_netmap_block_tasks(adapter)` (lines 81-100), appending its
calls to the log. -/
def em_netmap_block_tasks (a : adapter) (log : List TaskEvent) : Option (List TaskEvent) :=
  if a.msix > 1 then block_loop a a.num_queues.toNat 0 0 log
  else some (log ++ [TaskEvent.taskqueue_block a.tq,
    TaskEvent.taskqueue_drain a.tq a.link_task, TaskEvent.taskqueue_drain a.tq a.que_task])

/-- The MSIX loop of `em_netmap_unblock_tasks` (line 111),
`for (i = 0; i < num_queues; i++)`: the first argument is the number of passes
left; the increment is `i++` alone, so `txr` and `rxr` stay where they are. -/
def unblock_loop (a : adapter) : Nat → Nat → Nat → List TaskEvent → Option (List TaskEvent)
  | 0, _, _, log => some log
  | n + 1, txr, rxr, log =>
    match a.tx_rings[txr]?, a.rx_rings[rxr]? with
    | some t, some r =>
      unblock_loop a n txr rxr
        (log ++ [TaskEvent.taskqueue_unblock t.tq, TaskEvent.taskqueue_unblock r.tq])
    | _, _ => none

/-- The routine `em_netmap_unblock_tasks(adapter)` (lines 103-118), appending
its calls to the log. -/
def em_netmap_unblock_tasks (a : adapter) (log : List TaskEvent) : Option (List TaskEvent) :=
  if a.msix > 1 then unblock_loop a a.num_queues.toNat 0 0 log
  else some (log ++ [TaskEvent.taskqueue_unblock a.tq])

/-- Number of `taskqueue_block` calls minus number of `taskqueue_unblock` calls
made on the queue `tq` in a log. -/
def block_count (log : List TaskEvent) (tq : Nat) : Int :=
  (log.count (TaskEvent.taskqueue_block tq) : Int) - log.count (TaskEvent.taskqueue_unblock tq)

/-- An adapter in MSIX mode with two queues, the four task queues having the
handles 10, 11 (transmit) and 20, 21 (receive). -/
def adapter2 : adapter where
  msix := 3
  num_queues := 2
  tx_rings := [⟨10, 100⟩, ⟨11, 101⟩]
  rx_rings := [⟨20, 200⟩, ⟨21, 201⟩]
  tq := 30
  link_task := 300
  que_task := 301

/-- The adapter `adapter2` with a single queue. -/
def adapter1 : adapter :=
  { adapter2 with num_queues := 1, tx_rings := [⟨10, 100⟩], rx_rings := [⟨20, 200⟩] }
end EmNetmap

/-!
# The packet generator `examples/pkt-gen-pcap.c`

The parts of `initialize_packet` that fill the packet body and set the
addresses, and `send_packets`. The C library functions `inet_aton`, `index`
and `atoi` are the fields of `Libc`; the result of `pcap_inject` is given by
an argument. The debug messages `D(...)` are not recorded.
-/

namespace PktGen

/-- The payload text copied into every packet (line 45). -/
def default_payload : String :=
  "netmap pkt-gen Luigi Rizzo and Matteo Landi\nhttp://info.iet.unipi.it/~luigi/netmap/ "

/-- The function `min` of line 79, on C `int`. -/
def min (a b : Int) : Int := if a < b then a else b

/-- The constant `NM_BUF_SIZE`, the size of `body` in `struct pkt`. -/
def NM_BUF_SIZE : Int := 2048

/-- The value of `sizeof(struct ether_header)`. -/
def sizeof_ether_header : Int := 14

/-- The value of `sizeof(struct ip)`. -/
def sizeof_ip : Int := 20

/-- The initial value of `paylen` in `initialize_packet` (line 277):
`pkt_size - sizeof(*eh) - sizeof(*ip)` stored in a `uint16_t`. -/
def paylen (pkt_size : Int) : Int := (pkt_size - sizeof_ether_header - sizeof_ip) % 2 ^ 16

/-- The loop `for (i = 0; i < paylen;)` of `initialize_packet` (lines 281-285).
Every `bcopy(default_payload, pkt->body + i, l)` is recorded as the pair
`(i, l)`: it writes the bytes `body[i], ..., body[i + l - 1]`. The result is
the final `i` and the record of the copies; each unit of fuel is one pass. -/
def fill_body (l0 paylen : Int) :
    Nat → Int → List (Int × Int) → Option (Int × List (Int × Int))
  | fuel, i, copies =>
    if i < paylen then
      match fuel with
      | 0 => none
      | fuel + 1 =>
        let l := min l0 (paylen - i)
        fill_body l0 paylen fuel (i + l) (copies ++ [(i, l)])
    else some (i, copies)

/-- The writes of `initialize_packet` into `pkt->body`: the copies of the loop
and the index of the terminator write `pkt->body[i-1] = 0`. -/
structure BodyWrites where
  copies : List (Int × Int)
  terminator : Int
deriving DecidableEq, Repr

/-- The part of `initialize_packet` that fills the body (lines 277-286), for
the packet size `targ->g->pkt_size`. -/
def initialize_packet_body (fuel : Nat) (pkt_size : Int) : Option BodyWrites :=
  let paylen := paylen pkt_size
  let l0 : Int := default_payload.length
  match fill_body l0 paylen fuel 0 [] with
  | some (i, copies) => some { copies := copies, terminator := i - 1 }
  | none => none

/-- The test of `main` on the packet size (lines 654-657): sizes below 16 or
above 1536 end the program in `usage`. -/
def pkt_size_accepted (pkt_size : Int) : Prop := ¬ (pkt_size < 16 ∨ pkt_size > 1536)

instance (pkt_size : Int) : Decidable (pkt_size_accepted pkt_size) := by
  unfold pkt_size_accepted; exact inferInstance

/-- Every byte written lies in `body`: each copy within `[0, NM_BUF_SIZE)` and
the terminator index in `[0, NM_BUF_SIZE)`. -/
def BodyWrites.in_body (w : BodyWrites) : Prop :=
  (∀ c ∈ w.copies, 0 ≤ c.1 ∧ c.1 + c.2 ≤ NM_BUF_SIZE) ∧
  0 ≤ w.terminator ∧ w.terminator < NM_BUF_SIZE

instance (w : BodyWrites) : Decidable w.in_body := by
  unfold BodyWrites.in_body; exact inferInstance

/-- The fields of `struct glob_arg` read by `initialize_packet` and by the
call of `send_packets`. -/
structure glob_arg where
  src_ip : String
  dst_ip : String
  pkt_size : Int
deriving DecidableEq, Repr

/-- The address fields of `struct pkt`: `ip.ip_src.s_addr` and
`ip.ip_dst.s_addr`. -/
structure pkt where
  ip_src : Nat
  ip_dst : Nat
deriving DecidableEq, Repr

/-- The address fields of `struct targ` and its packet. -/
structure targ where
  dst_ip : Nat
  src_ip : Nat
  dst_ip_range : Nat
  src_ip_range : Nat
  pkt : pkt
deriving DecidableEq, Repr

/-- The C library functions called on the address arguments. `inet_aton cp`
is `some a` when the call stores the address `a`, and `none` when it fails
and stores nothing; `index s c` is the text from the first `c` on, `none`
for `NULL`; `atoi` is the value read. -/
structure Libc where
  inet_aton : String → Option Nat
  index : String → Char → Option String
  atoi : String → Int

/-- The text at `p + 1` for a pointer `p` into a string. -/
def str_next (p : String) : String := String.mk p.data.tail

/-- The part of `initialize_packet` that sets the addresses (lines 304-312):
both arguments go through `inet_aton`, the results are copied to
`targ->dst_ip` and `targ->src_ip`, and `targ->dst_ip_range` (a `u_int`) is set
from the text after the first `-` found by `index(targ->g->src_ip, 0x2d)`. -/
def initialize_packet_addr (libc : Libc) (g : glob_arg) (t : targ) : targ :=
  let ip_src := match libc.inet_aton g.src_ip with
    | some a => a
    | none => t.pkt.ip_src
  let ip_dst := match libc.inet_aton g.dst_ip with
    | some a => a
    | none => t.pkt.ip_dst
  let t1 := { t with pkt := { ip_src := ip_src, ip_dst := ip_dst }, dst_ip := ip_dst,
                     src_ip := ip_src }
  match libc.index g.src_ip '-' with
  | some p => { t1 with dst_ip_range := (libc.atoi (str_next p) % 2 ^ 32).toNat }
  | none => t1

/-- The parts of a text between its dots. -/
def split_dots : List Char → List Char → List (List Char)
  | [], cur => [cur]
  | x :: xs, cur => if x = '.' then cur :: split_dots xs [] else split_dots xs (cur ++ [x])

/-- The value of a text of decimal digits. -/
def decimal_value (p : List Char) : Nat := p.foldl (fun v c => v * 10 + (c.toNat - 48)) 0

/-- One part of a dotted quad: a decimal number of at most 255 written with
digits only and without a leading zero. -/
def decimal_octet (p : List Char) : Option Nat :=
  if p ≠ [] ∧ p.all Char.isDigit = true ∧ (p.head? ≠ some '0' ∨ p.length = 1)
      ∧ decimal_value p ≤ 255
  then some (decimal_value p) else none

/-- The value of the decimal digits at the start of a text. -/
def leading_digits : List Char → Nat → Nat
  | [], acc => acc
  | x :: xs, acc => if x.isDigit then leading_digits xs (acc * 10 + (x.toNat - 48)) else acc

/-- The characters of a text from the first `c` on. -/
def index_chars : List Char → Char → Option (List Char)
  | [], _ => none
  | x :: xs, c => if x = c then some (x :: xs) else index_chars xs c

/-- An instance of the C library functions. `inet_aton` accepts a text that
consists of four decimal numbers up to 255 separated by dots and stores the
address with the first number in the lowest byte; it rejects every other text,
in particular one in which the last number is followed by further characters
such as `-50`, as the C function does. The forms with fewer than four parts,
with octal or hexadecimal numbers or with trailing white space, which the C
function also accepts, do not occur below and are rejected here. `index` is
the C function; `atoi` reads an optional sign and the decimal digits after
it. -/
def libc0 : Libc where
  inet_aton := fun s =>
    match (split_dots s.data []).map decimal_octet with
    | [some a, some b, some c, some d] => some (a + 256 * b + 65536 * c + 16777216 * d)
    | _ => none
  index := fun s c => (index_chars s.data c).map String.mk
  atoi := fun s =>
    match s.data with
    | '-' :: xs => - (leading_digits xs 0 : Int)
    | '+' :: xs => (leading_digits xs 0 : Int)
    | xs => (leading_digits xs 0 : Int)

end PktGen

namespace EmNetmap

/-! ## Lists indexed by C integers -/

theorem at?_bounds {α : Type} {xs : List α} {j : Int} {x : α} (h : at? xs j = some x) :
    0 ≤ j ∧ j < xs.length := by
  unfold at? at h
  split at h
  · rename_i h0
    have := List.getElem?_eq_some.mp h
    obtain ⟨hlt, _⟩ := this
    constructor
    · exact h0
    · omega
  · cases h

theorem at?_of_bounds {α : Type} (xs : List α) {j : Int} (h0 : 0 ≤ j) (h1 : j < xs.length) :
    ∃ x, at? xs j = some x := by
  unfold at?
  rw [if_pos h0]
  have : j.toNat < xs.length := by omega
  exact ⟨xs[j.toNat], List.getElem?_eq_getElem this⟩

theorem length_put {α : Type} (xs : List α) (j : Int) (v : α) :
    (put xs j v).length = xs.length := by
  simp [put]

theorem at?_put {α : Type} (xs : List α) (i j : Int) (v : α) (hj : 0 ≤ j) :
    at? (put xs j v) i = if i = j then (if j < xs.length then some v else none) else at? xs i := by
  unfold at? put
  by_cases hij : i = j
  · subst hij
    simp only [if_pos hj, if_true]
    rw [List.getElem?_set]
    simp only [if_true]
    by_cases h : i < xs.length
    · have h2 : i.toNat < xs.length := by omega
      simp [h, h2]
    · have h2 : ¬ i.toNat < xs.length := by omega
      simp [h, h2]
  · simp only [if_neg hij]
    by_cases h0 : 0 ≤ i
    · simp only [if_pos h0]
      rw [List.getElem?_set]
      have : j.toNat ≠ i.toNat := by omega
      simp [this]
    · simp [h0]

theorem ring_dist (N a b : Int) (ha : 0 ≤ a) (haN : a < N) (hb : 0 ≤ b) (hbN : b < N) :
    (b - a) % N = if a ≤ b then b - a else b - a + N := by
  split
  · exact Int.emod_eq_of_lt (by omega) (by omega)
  · rw [← Int.add_emod_self]
    exact Int.emod_eq_of_lt (by omega) (by omega)

/-! ## Ring arithmetic -/

theorem ring_add (N j t : Int) (hj : 0 ≤ j) (hjN : j < N) (ht : 0 ≤ t) (htN : t < N) :
    (j + t) % N = if j + t < N then j + t else j + t - N := by
  split
  · exact Int.emod_eq_of_lt (by omega) (by omega)
  · have : (j + t) % N = (j + t - N + N) % N := by congr 1; omega
    rw [this, Int.add_emod_self]
    exact Int.emod_eq_of_lt (by omega) (by omega)

theorem span_length (lim : Int) : ∀ (d : Nat) (j : Int), (span lim j d).length = d
  | 0, _ => rfl
  | d + 1, j => by simp [span, span_length lim d]

theorem span_eq_map (lim : Int) : ∀ (d : Nat) (j : Int), 0 ≤ j → j ≤ lim →
    span lim j d = (List.range d).map (fun t : Nat => (j + (t : Int)) % (lim + 1))
  | 0, _, _, _ => rfl
  | d + 1, j, h0, h1 => by
    have hn0 : 0 ≤ ring_next lim j := by unfold ring_next; split <;> omega
    have hn1 : ring_next lim j ≤ lim := by unfold ring_next; split <;> omega
    rw [span, span_eq_map lim d _ hn0 hn1, List.range_succ_eq_map]
    simp only [List.map_cons, List.map_map]
    congr 1
    · simp
      exact (Int.emod_eq_of_lt h0 (by omega)).symm
    · apply List.map_congr_left
      intro t _
      simp only [Function.comp]
      unfold ring_next
      split
      · rename_i h
        subst h
        have : j + ((t + 1 : Nat) : Int) = (t : Int) + (j + 1) := by push_cast; omega
        rw [this, Int.add_emod_self]
        simp
      · congr 1
        push_cast
        omega

theorem span_mem_bounds (lim : Int) : ∀ (d : Nat) (j : Int), 0 ≤ j → j ≤ lim →
    ∀ i ∈ span lim j d, 0 ≤ i ∧ i ≤ lim
  | 0, _, _, _ => by simp [span]
  | d + 1, j, h0, h1 => by
    have hn0 : 0 ≤ ring_next lim j := by unfold ring_next; split <;> omega
    have hn1 : ring_next lim j ≤ lim := by unfold ring_next; split <;> omega
    intro i hi
    simp only [span, List.mem_cons] at hi
    rcases hi with rfl | hi
    · exact ⟨h0, h1⟩
    · exact span_mem_bounds lim d _ hn0 hn1 i hi

theorem mem_span_iff (lim : Int) (d : Nat) (j i : Int) (h0 : 0 ≤ j) (h1 : j ≤ lim)
    (hd : (d : Int) ≤ lim + 1) :
    i ∈ span lim j d ↔ 0 ≤ i ∧ i ≤ lim ∧ (i - j) % (lim + 1) < d := by
  rw [span_eq_map lim d j h0 h1]
  simp only [List.mem_map, List.mem_range]
  constructor
  · rintro ⟨t, ht, rfl⟩
    rw [ring_add (lim + 1) j t h0 (by omega) (by omega) (by omega)]
    split
    · refine ⟨by omega, by omega, ?_⟩
      rw [ring_dist (lim + 1) j (j + t) h0 (by omega) (by omega) (by omega)]
      simp
      omega
    · refine ⟨by omega, by omega, ?_⟩
      rw [ring_dist (lim + 1) j (j + t - (lim + 1)) h0 (by omega) (by omega) (by omega)]
      split <;> omega
  · rintro ⟨hi0, hi1, hlt⟩
    rw [ring_dist (lim + 1) j i h0 (by omega) hi0 (by omega)] at hlt
    split at hlt
    · refine ⟨(i - j).toNat, by omega, ?_⟩
      rw [ring_add (lim + 1) j _ h0 (by omega) (by omega) (by omega)]
      split <;> omega
    · refine ⟨(i - j + (lim + 1)).toNat, by omega, ?_⟩
      rw [ring_add (lim + 1) j _ h0 (by omega) (by omega) (by omega)]
      split <;> omega

theorem span_nodup (lim : Int) : ∀ (d : Nat) (j : Int), 0 ≤ j → j ≤ lim →
    (d : Int) ≤ lim + 1 → (span lim j d).Nodup
  | 0, _, _, _, _ => by simp [span]
  | d + 1, j, h0, h1, hd => by
    have hn0 : 0 ≤ ring_next lim j := by unfold ring_next; split <;> omega
    have hn1 : ring_next lim j ≤ lim := by unfold ring_next; split <;> omega
    rw [span, List.nodup_cons]
    refine ⟨?_, span_nodup lim d _ hn0 hn1 (by push_cast at hd; omega)⟩
    rw [mem_span_iff lim d _ j hn0 hn1 (by push_cast at hd; omega)]
    rintro ⟨_, _, hlt⟩
    rw [ring_dist (lim + 1) _ j hn0 (by omega) h0 (by omega)] at hlt
    unfold ring_next at hlt
    push_cast at hd
    split at hlt <;> omega

/-! ## The transmit loop as a fold of its body -/

theorem tx_step_eq (env : Env) (rf : Int) (s : TxState) (j : Int) (x : netmap_slot)
    (c : e1000_tx_desc) (hx : at? s.slot j = some x) (hc : at? s.tx_base j = some c) :
    tx_step env rf s j = tx_body env rf j x c s := by
  simp [tx_step, hx, hc]

theorem tx_step_frame (env : Env) (rf : Int) (s : TxState) (j : Int) :
    (tx_step env rf s j).nkr_num_slots = s.nkr_num_slots ∧
    (tx_step env rf s j).nr_kflags = s.nr_kflags ∧
    (tx_step env rf s j).nr_hwcur = s.nr_hwcur ∧
    (tx_step env rf s j).nr_hwavail = s.nr_hwavail ∧
    (tx_step env rf s j).cur = s.cur ∧
    (tx_step env rf s j).avail = s.avail ∧
    (tx_step env rf s j).me = s.me ∧
    (tx_step env rf s j).next_to_clean = s.next_to_clean ∧
    (tx_step env rf s j).slot.length = s.slot.length ∧
    (tx_step env rf s j).tx_base.length = s.tx_base.length := by
  unfold tx_step
  split <;> simp [tx_body, length_put]

theorem tx_fold_frame (env : Env) (rf : Int) : ∀ (js : List Int) (s : TxState),
    (js.foldl (tx_step env rf) s).nkr_num_slots = s.nkr_num_slots ∧
    (js.foldl (tx_step env rf) s).nr_kflags = s.nr_kflags ∧
    (js.foldl (tx_step env rf) s).nr_hwcur = s.nr_hwcur ∧
    (js.foldl (tx_step env rf) s).nr_hwavail = s.nr_hwavail ∧
    (js.foldl (tx_step env rf) s).cur = s.cur ∧
    (js.foldl (tx_step env rf) s).avail = s.avail ∧
    (js.foldl (tx_step env rf) s).me = s.me ∧
    (js.foldl (tx_step env rf) s).next_to_clean = s.next_to_clean ∧
    (js.foldl (tx_step env rf) s).slot.length = s.slot.length ∧
    (js.foldl (tx_step env rf) s).tx_base.length = s.tx_base.length
  | [], s => by simp
  | j :: js, s => by
    have h1 := tx_fold_frame env rf js (tx_step env rf s j)
    have h2 := tx_step_frame env rf s j
    simp only [List.foldl_cons]
    obtain ⟨a1, a2, a3, a4, a5, a6, a7, a8, a9, a10⟩ := h1
    obtain ⟨b1, b2, b3, b4, b5, b6, b7, b8, b9, b10⟩ := h2
    exact ⟨a1.trans b1, a2.trans b2, a3.trans b3, a4.trans b4, a5.trans b5, a6.trans b6,
      a7.trans b7, a8.trans b8, a9.trans b9, a10.trans b10⟩

theorem tx_fold_slot (env : Env) (rf : Int) : ∀ (js : List Int) (s : TxState),
    js.Nodup → (∀ j ∈ js, 0 ≤ j ∧ j < s.slot.length ∧ j < s.tx_base.length) →
    ∀ i, at? (js.foldl (tx_step env rf) s).slot i =
      (at? s.slot i).map (fun x => if i ∈ js then tx_slot_after env x else x)
  | [], s, _, _, i => by simp
  | j :: js, s, hnd, hin, i => by
    obtain ⟨hj0, hj1, hj2⟩ := hin j (List.mem_cons_self _ _)
    obtain ⟨x, hx⟩ := at?_of_bounds _ hj0 hj1
    obtain ⟨c, hc⟩ := at?_of_bounds _ hj0 hj2
    have hnd2 := List.nodup_cons.mp hnd
    have hfr := tx_step_frame env rf s j
    have hin2 : ∀ j2 ∈ js, 0 ≤ j2 ∧ j2 < (tx_step env rf s j).slot.length ∧
        j2 < (tx_step env rf s j).tx_base.length := by
      intro j2 hj2
      have := hin j2 (List.mem_cons_of_mem _ hj2)
      rw [hfr.2.2.2.2.2.2.2.2.1, hfr.2.2.2.2.2.2.2.2.2]
      exact this
    rw [List.foldl_cons, tx_fold_slot env rf js _ hnd2.2 hin2 i]
    rw [tx_step_eq env rf s j x c hx hc]
    simp only [tx_body]
    rw [at?_put _ _ _ _ hj0]
    by_cases hij : i = j
    · subst hij
      simp [hj1, hx, hnd2.1]
    · simp [hij]

theorem tx_fold_desc (env : Env) (rf : Int) : ∀ (js : List Int) (s : TxState),
    js.Nodup → (∀ j ∈ js, 0 ≤ j ∧ j < s.slot.length ∧ j < s.tx_base.length) →
    ∀ i, at? (js.foldl (tx_step env rf) s).tx_base i =
      if i ∈ js then
        (at? s.slot i).bind (fun x => (at? s.tx_base i).map (tx_desc_after env rf i x))
      else at? s.tx_base i
  | [], s, _, _, i => by simp
  | j :: js, s, hnd, hin, i => by
    obtain ⟨hj0, hj1, hj2⟩ := hin j (List.mem_cons_self _ _)
    obtain ⟨x, hx⟩ := at?_of_bounds _ hj0 hj1
    obtain ⟨c, hc⟩ := at?_of_bounds _ hj0 hj2
    have hnd2 := List.nodup_cons.mp hnd
    have hfr := tx_step_frame env rf s j
    have hin2 : ∀ j2 ∈ js, 0 ≤ j2 ∧ j2 < (tx_step env rf s j).slot.length ∧
        j2 < (tx_step env rf s j).tx_base.length := by
      intro j2 hj2
      have := hin j2 (List.mem_cons_of_mem _ hj2)
      rw [hfr.2.2.2.2.2.2.2.2.1, hfr.2.2.2.2.2.2.2.2.2]
      exact this
    rw [List.foldl_cons, tx_fold_desc env rf js _ hnd2.2 hin2 i]
    rw [tx_step_eq env rf s j x c hx hc]
    simp only [tx_body]
    rw [at?_put _ _ _ _ hj0, at?_put _ _ _ _ hj0]
    by_cases hij : i = j
    · subst hij
      simp [hj2, hx, hc, hnd2.1]
    · simp [hij]

theorem tx_fold_trace (env : Env) (rf : Int) : ∀ (js : List Int) (s : TxState),
    ∃ t, (js.foldl (tx_step env rf) s).trace = s.trace ++ t ∧ ∀ e ∈ t, e.is_buf_dma = true
  | [], s => ⟨[], by simp⟩
  | j :: js, s => by
    obtain ⟨t, ht, hdma⟩ := tx_fold_trace env rf js (tx_step env rf s j)
    have : ∃ t0, (tx_step env rf s j).trace = s.trace ++ t0 ∧ ∀ e ∈ t0, e.is_buf_dma = true := by
      unfold tx_step
      split
      · refine ⟨tx_slot_events env j _, rfl, ?_⟩
        intro e he
        unfold tx_slot_events at he
        split at he <;> simp at he <;> rcases he with rfl | rfl <;> rfl
      · exact ⟨[], by simp⟩
    obtain ⟨t0, ht0, hdma0⟩ := this
    refine ⟨t0 ++ t, ?_, ?_⟩
    · rw [List.foldl_cons, ht, ht0, List.append_assoc]
    · intro e he
      rcases List.mem_append.mp he with h | h
      · exact hdma0 e h
      · exact hdma e h

theorem tx_slot_after_fields (env : Env) (x : netmap_slot) :
    (tx_slot_after env x).buf_idx = x.buf_idx ∧ (tx_slot_after env x).len = x.len := by
  unfold tx_slot_after
  dsimp only
  split <;> simp

theorem tx_slot_after_bad (env : Env) (x : netmap_slot) :
    tx_slot_bad env (tx_slot_after env x) ↔ tx_slot_bad env x := by
  unfold tx_slot_bad
  rw [(tx_slot_after_fields env x).1, (tx_slot_after_fields env x).2]

theorem tx_body_slot_bad (env : Env) (rf j : Int) (x : netmap_slot) (c : e1000_tx_desc)
    (s : TxState) (hx : at? s.slot j = some x) (i : Int) (y : netmap_slot)
    (hy : at? (tx_body env rf j x c s).slot i = some y) :
    ∃ z, at? s.slot i = some z ∧ (tx_slot_bad env y ↔ tx_slot_bad env z) := by
  have hj := at?_bounds hx
  simp only [tx_body] at hy
  rw [at?_put _ _ _ _ hj.1] at hy
  by_cases hij : i = j
  · subst hij
    simp [hj.2] at hy
    subst hy
    exact ⟨x, hx, tx_slot_after_bad env x⟩
  · simp [hij] at hy
    exact ⟨y, hy, Iff.rfl⟩

theorem ring_next_bounds (lim j : Int) (h0 : 0 ≤ j) (h1 : j ≤ lim) :
    0 ≤ ring_next lim j ∧ ring_next lim j ≤ lim := by
  unfold ring_next; split <;> omega

theorem ring_next_dist (lim j k : Int) (h0 : 0 ≤ j) (h1 : j ≤ lim) (hk0 : 0 ≤ k) (hk1 : k ≤ lim)
    (hjk : j ≠ k) : (k - j) % (lim + 1) = (k - ring_next lim j) % (lim + 1) + 1 := by
  have hn := ring_next_bounds lim j h0 h1
  rw [ring_dist (lim + 1) j k h0 (by omega) hk0 (by omega),
    ring_dist (lim + 1) _ k hn.1 (by omega) hk0 (by omega)]
  unfold ring_next
  split_ifs <;> omega

theorem ring_dist_zero (lim j k : Int) (h0 : 0 ≤ j) (h1 : j ≤ lim) (hk0 : 0 ≤ k) (hk1 : k ≤ lim)
    (h : (k - j) % (lim + 1) = 0) : j = k := by
  rw [ring_dist (lim + 1) j k h0 (by omega) hk0 (by omega)] at h
  split at h <;> omega

/-- With every slot of the span passing the test, the publish loop runs its
body on exactly the span and returns the counter raised by its length. -/
theorem tx_publish_ok (env : Env) (lim k rf : Int) (do_lock : Bool) :
    ∀ (d fuel : Nat) (j n : Int) (s : TxState),
    0 ≤ j → j ≤ lim → 0 ≤ k → k ≤ lim → (k - j) % (lim + 1) = d → d ≤ fuel →
    (s.slot.length : Int) = lim + 1 → (s.tx_base.length : Int) = lim + 1 →
    (∀ i ∈ span lim j d, ∀ x, at? s.slot i = some x → ¬ tx_slot_bad env x) →
    tx_publish env lim k rf do_lock fuel j n s =
      Outcome.ok ((span lim j d).foldl (tx_step env rf) s, n + d)
  | 0, fuel, j, n, s, h0, h1, hk0, hk1, hd, _, _, _, _ => by
    have hjk : j = k := ring_dist_zero lim j k h0 h1 hk0 hk1 (by simpa using hd)
    unfold tx_publish
    simp [hjk, span]
  | d + 1, 0, j, n, s, _, _, _, _, _, hf, _, _, _ => by omega
  | d + 1, fuel + 1, j, n, s, h0, h1, hk0, hk1, hd, hf, hs, hb, hv => by
    have hjk : j ≠ k := by
      intro h; subst h; simp at hd; omega
    have hn := ring_next_bounds lim j h0 h1
    have hd2 : (k - ring_next lim j) % (lim + 1) = d := by
      have := ring_next_dist lim j k h0 h1 hk0 hk1 hjk
      push_cast at hd; omega
    obtain ⟨x, hx⟩ := at?_of_bounds s.slot h0 (by omega)
    obtain ⟨c, hc⟩ := at?_of_bounds s.tx_base h0 (by omega)
    have hgood : ¬ tx_slot_bad env x := hv j (by simp [span]) x hx
    have hv2 : ∀ i ∈ span lim (ring_next lim j) d, ∀ y,
        at? (tx_body env rf j x c s).slot i = some y → ¬ tx_slot_bad env y := by
      intro i hi y hy
      obtain ⟨z, hz, hiff⟩ := tx_body_slot_bad env rf j x c s hx i y hy
      rw [hiff]
      exact hv i (by simp [span, hi]) z hz
    have ih := tx_publish_ok env lim k rf do_lock d fuel (ring_next lim j) (n + 1)
      (tx_body env rf j x c s) hn.1 hn.2 hk0 hk1 hd2 (by omega)
      (by simp [tx_body, length_put, hs]) (by simp [tx_body, length_put, hb]) hv2
    unfold tx_publish
    simp only [if_neg hjk, hx, hc, if_neg hgood]
    rw [ih]
    simp only [span, List.foldl_cons, tx_step_eq env rf s j x c hx hc]
    congr 2
    push_cast
    omega

/-- With the first `p` slots of the span passing the test and the next one
failing it, the publish loop runs its body on exactly those `p` slots,
unlocks, and leaves through `netmap_ring_reinit`. -/
theorem tx_publish_bad (env : Env) (lim k rf : Int) (do_lock : Bool) :
    ∀ (p fuel : Nat) (j n : Int) (s : TxState),
    0 ≤ j → j ≤ lim → 0 ≤ k → k ≤ lim → (p : Int) < (k - j) % (lim + 1) → p < fuel →
    (s.slot.length : Int) = lim + 1 → (s.tx_base.length : Int) = lim + 1 →
    (∀ i ∈ span lim j p, ∀ x, at? s.slot i = some x → ¬ tx_slot_bad env x) →
    (∀ x, at? s.slot ((j + p) % (lim + 1)) = some x → tx_slot_bad env x) →
    tx_publish env lim k rf do_lock fuel j n s =
      Outcome.ring_reinit
        ({ (span lim j p).foldl (tx_step env rf) s with
            trace := ((span lim j p).foldl (tx_step env rf) s).trace
              ++ (if do_lock then [Event.EM_TX_UNLOCK] else []) }, n + p)
  | p, 0, j, n, s, _, _, _, _, _, hf, _, _, _, _ => by omega
  | 0, fuel + 1, j, n, s, h0, h1, hk0, hk1, hd, _, hs, hb, _, hbad => by
    have hjk : j ≠ k := by
      intro h; subst h; simp at hd
    obtain ⟨x, hx⟩ := at?_of_bounds s.slot h0 (by omega)
    obtain ⟨c, hc⟩ := at?_of_bounds s.tx_base h0 (by omega)
    have hjj : (j + ((0 : Nat) : Int)) % (lim + 1) = j := by
      simp; exact Int.emod_eq_of_lt h0 (by omega)
    rw [hjj] at hbad
    have hb2 := hbad x hx
    unfold tx_publish
    simp [if_neg hjk, hx, hc, if_pos hb2, span]
  | p + 1, fuel + 1, j, n, s, h0, h1, hk0, hk1, hd, hf, hs, hb, hv, hbad => by
    have hjk : j ≠ k := by
      intro h; subst h; simp at hd; omega
    have hn := ring_next_bounds lim j h0 h1
    have hd2 : (p : Int) < (k - ring_next lim j) % (lim + 1) := by
      have := ring_next_dist lim j k h0 h1 hk0 hk1 hjk
      push_cast at hd; omega
    obtain ⟨x, hx⟩ := at?_of_bounds s.slot h0 (by omega)
    obtain ⟨c, hc⟩ := at?_of_bounds s.tx_base h0 (by omega)
    have hgood : ¬ tx_slot_bad env x := hv j (by simp [span]) x hx
    have hv2 : ∀ i ∈ span lim (ring_next lim j) p, ∀ y,
        at? (tx_body env rf j x c s).slot i = some y → ¬ tx_slot_bad env y := by
      intro i hi y hy
      obtain ⟨z, hz, hiff⟩ := tx_body_slot_bad env rf j x c s hx i y hy
      rw [hiff]
      exact hv i (by simp [span, hi]) z hz
    have hidx : (ring_next lim j + (p : Int)) % (lim + 1) = (j + ((p + 1 : Nat) : Int)) % (lim + 1) := by
      unfold ring_next
      split
      · rename_i h
        have : j + ((p + 1 : Nat) : Int) = (p : Int) + (lim + 1) := by push_cast; omega
        rw [this, Int.add_emod_self]; simp
      · congr 1; push_cast; omega
    have hbad2 : ∀ y, at? (tx_body env rf j x c s).slot
        ((ring_next lim j + (p : Int)) % (lim + 1)) = some y → tx_slot_bad env y := by
      intro y hy
      obtain ⟨z, hz, hiff⟩ := tx_body_slot_bad env rf j x c s hx _ y hy
      rw [hiff]
      rw [hidx] at hz
      exact hbad z hz
    have ih := tx_publish_bad env lim k rf do_lock p fuel (ring_next lim j) (n + 1)
      (tx_body env rf j x c s) hn.1 hn.2 hk0 hk1 hd2 (by omega)
      (by simp [tx_body, length_put, hs]) (by simp [tx_body, length_put, hb]) hv2 hbad2
    unfold tx_publish
    simp only [if_neg hjk, hx, hc, if_neg hgood]
    rw [ih]
    simp only [span, List.foldl_cons, tx_step_eq env rf s j x c hx hc]
    congr 2
    push_cast
    omega

/-! ## Transmit: publish -/

/-- The publish phase on a ring whose span passes the test: success, with the
loop body run on exactly the span. -/
theorem tx_publish_phase_ok (env : Env) (fuel : Nat) (do_lock : Bool) (s : TxState)
    (hslots : (s.slot.length : Int) = s.nkr_num_slots)
    (hdescs : (s.tx_base.length : Int) = s.nkr_num_slots)
    (hh : 0 ≤ s.nr_hwcur ∧ s.nr_hwcur ≤ s.nkr_num_slots - 1)
    (hk : 0 ≤ s.cur ∧ s.cur ≤ s.nkr_num_slots - 1)
    (hvalid : tx_slots_ok env s.slot (tx_span s))
    (hav : s.avail = s.nr_hwavail)
    (hfuel : pending s.nkr_num_slots s.nr_hwcur s.cur ≤ fuel) :
    tx_publish_phase env fuel do_lock s =
      Outcome.ok { (tx_span s).foldl (tx_step env (s.nkr_num_slots >>> 1)) s with
        nr_hwcur := s.cur
        avail := s.avail - pending s.nkr_num_slots s.nr_hwcur s.cur
        nr_hwavail := s.avail - pending s.nkr_num_slots s.nr_hwcur s.cur
        trace := ((tx_span s).foldl (tx_step env (s.nkr_num_slots >>> 1)) s).trace
          ++ (if s.cur ≠ s.nr_hwcur
              then [Event.bus_dmamap_sync_ring, Event.E1000_WRITE_REG_TDT s.me s.cur] else [])
          ++ (if do_lock then [Event.EM_TX_UNLOCK] else []) } := by
  have hN1 : s.nkr_num_slots - 1 + 1 = s.nkr_num_slots := by omega
  have hpend := ring_dist s.nkr_num_slots s.nr_hwcur s.cur hh.1 (by omega) hk.1 (by omega)
  have hp0 : 0 ≤ pending s.nkr_num_slots s.nr_hwcur s.cur := by
    unfold pending; rw [hpend]; split <;> omega
  unfold tx_publish_phase
  by_cases hjk : s.nr_hwcur = s.cur
  · have hzero : pending s.nkr_num_slots s.nr_hwcur s.cur = 0 := by
      unfold pending; rw [hpend]; simp [hjk]
    have hsp : tx_span s = [] := by unfold tx_span; rw [hzero]; rfl
    rw [hsp, hzero]
    simp [hjk, hav]
  · have hne : s.cur ≠ s.nr_hwcur := fun h => hjk h.symm
    have hloop := tx_publish_ok env (s.nkr_num_slots - 1) s.cur (s.nkr_num_slots >>> 1) do_lock
      (pending s.nkr_num_slots s.nr_hwcur s.cur).toNat fuel s.nr_hwcur 0 s
      hh.1 hh.2 hk.1 hk.2 (by rw [hN1]; unfold pending; omega) (by omega)
      (by omega) (by omega)
      (by intro i hi x hx; exact hvalid i hi x hx)
    have hfr := tx_fold_frame env (s.nkr_num_slots >>> 1) (tx_span s) s
    simp only [ne_eq, hjk, not_false_eq_true, if_true, hloop]
    unfold tx_span at hfr ⊢
    simp only [hfr.2.2.2.2.1, hfr.2.2.2.2.2.1, hfr.2.2.2.2.2.2.1, hne, not_false_eq_true, if_true]
    have : (0 : Int) + ((pending s.nkr_num_slots s.nr_hwcur s.cur).toNat : Int)
        = pending s.nkr_num_slots s.nr_hwcur s.cur := by omega
    rw [this]

/-- C1. On a transmit ring of `N` slots with no reinit flag, `nr_hwcur = h` and
`cur = k` both in `[0, N-1]`, and every slot of the span passing the test,
`em_netmap_txsync` returns success (given fuel for `n = (k - h) mod N` loop
passes): the descriptors written are exactly those at the `n` indices
`h, h+1, ..., k-1` (wrapping at `N`), `nr_hwcur` becomes `k`, `nr_hwavail` and
`avail` become the value after the reclaim phase minus `n`, and `k` is
written to `TDT` exactly when `n > 0`; with `k = h` no descriptor is written. -/
theorem txsync_publishes_span (env : Env) (ring_nr : Nat) (do_lock : Bool) (tdh : Int)
    (s : TxState) (N : Int) (fuel : Nat)
    (hN : s.nkr_num_slots = N)
    (hslots : (s.slot.length : Int) = N) (hdescs : (s.tx_base.length : Int) = N)
    (hflag : s.nr_kflags &&& env.NR_REINIT = 0)
    (hh : 0 ≤ s.nr_hwcur ∧ s.nr_hwcur ≤ N - 1)
    (hk : 0 ≤ s.cur ∧ s.cur ≤ N - 1)
    (hvalid : tx_slots_ok env s.slot (tx_span s))
    (hfuel : pending N s.nr_hwcur s.cur ≤ fuel) :
    ∃ s', em_netmap_txsync env fuel ring_nr do_lock tdh s = Outcome.ok s' ∧
      tx_span s = (List.range (pending N s.nr_hwcur s.cur).toNat).map
        (fun t : Nat => (s.nr_hwcur + (t : Int)) % N) ∧
      ((tx_span s).length : Int) = pending N s.nr_hwcur s.cur ∧
      (∀ i, at? s'.tx_base i =
        if i ∈ tx_span s then
          (at? s.slot i).bind (fun x => (at? s.tx_base i).map (tx_desc_after env (N >>> 1) i x))
        else at? s.tx_base i) ∧
      s'.nr_hwcur = s.cur ∧
      s'.nr_hwavail = (tx_reclaim ring_nr tdh s).nr_hwavail - pending N s.nr_hwcur s.cur ∧
      s'.avail = (tx_reclaim ring_nr tdh s).nr_hwavail - pending N s.nr_hwcur s.cur ∧
      ∃ t, (∀ e ∈ t, e.is_buf_dma = true) ∧
        s'.trace = s.trace ++ (if do_lock then [Event.EM_TX_LOCK] else [])
          ++ [Event.bus_dmamap_sync_ring, Event.E1000_READ_REG_TDH ring_nr] ++ t
          ++ (if 0 < pending N s.nr_hwcur s.cur
              then [Event.bus_dmamap_sync_ring, Event.E1000_WRITE_REG_TDT s.me s.cur] else [])
          ++ (if do_lock then [Event.EM_TX_UNLOCK] else []) := by
  subst hN
  have hN1 : s.nkr_num_slots - 1 + 1 = s.nkr_num_slots := by omega
  have hspan : tx_span s = (List.range (pending s.nkr_num_slots s.nr_hwcur s.cur).toNat).map
        (fun t : Nat => (s.nr_hwcur + (t : Int)) % s.nkr_num_slots) := by
    unfold tx_span
    rw [span_eq_map _ _ _ hh.1 hh.2, hN1]
  have hpend := ring_dist s.nkr_num_slots s.nr_hwcur s.cur hh.1 (by omega) hk.1 (by omega)
  have hp0 : 0 ≤ pending s.nkr_num_slots s.nr_hwcur s.cur ∧
      pending s.nkr_num_slots s.nr_hwcur s.cur < s.nkr_num_slots ∧
      (0 < pending s.nkr_num_slots s.nr_hwcur s.cur ↔ s.cur ≠ s.nr_hwcur) := by
    unfold pending; rw [hpend]; split <;> omega
  have hguard : ¬ (s.nr_kflags &&& env.NR_REINIT ≠ 0 ∨ s.cur > s.nkr_num_slots - 1) := by
    rw [hflag]; simp; omega
  have hnd : (tx_span s).Nodup := by
    unfold tx_span
    exact span_nodup _ _ _ hh.1 hh.2 (by omega)
  have hin : ∀ j ∈ tx_span s, 0 ≤ j ∧ j < (s.slot.length : Int) ∧ j < (s.tx_base.length : Int) := by
    intro j hj
    have := span_mem_bounds _ _ _ hh.1 hh.2 j hj
    omega
  have hlen : ((tx_span s).length : Int) = pending s.nkr_num_slots s.nr_hwcur s.cur := by
    unfold tx_span; rw [span_length]; omega
  obtain ⟨s2, hs2⟩ : ∃ s2, s2 = tx_reclaim ring_nr tdh { s with trace := s.trace
        ++ (if do_lock then [Event.EM_TX_LOCK] else []) ++ [Event.bus_dmamap_sync_ring] } :=
    ⟨_, rfl⟩
  have eN : s2.nkr_num_slots = s.nkr_num_slots := by rw [hs2]; rfl
  have eslot : s2.slot = s.slot := by rw [hs2]; rfl
  have ebase : s2.tx_base = s.tx_base := by rw [hs2]; rfl
  have ecur : s2.cur = s.cur := by rw [hs2]; rfl
  have ehw : s2.nr_hwcur = s.nr_hwcur := by rw [hs2]; rfl
  have eme : s2.me = s.me := by rw [hs2]; rfl
  have eav : s2.avail = s2.nr_hwavail := by rw [hs2]; rfl
  have eav2 : s2.avail = (tx_reclaim ring_nr tdh s).nr_hwavail := by rw [hs2]; rfl
  have etr : s2.trace = s.trace ++ (if do_lock then [Event.EM_TX_LOCK] else [])
      ++ [Event.bus_dmamap_sync_ring, Event.E1000_READ_REG_TDH ring_nr] := by
    rw [hs2]; simp [tx_reclaim]
  have espan : tx_span s2 = tx_span s := by unfold tx_span; rw [eN, ehw, ecur]
  have hphase := tx_publish_phase_ok env fuel do_lock s2
    (by rw [eslot, eN]; exact hslots) (by rw [ebase, eN]; exact hdescs)
    (by rw [ehw, eN]; exact hh) (by rw [ecur, eN]; exact hk)
    (by rw [eslot, espan]; exact hvalid) eav (by rw [eN, ehw, ecur]; exact hfuel)
  obtain ⟨t, ht, hdma⟩ := tx_fold_trace env (s2.nkr_num_slots >>> 1) (tx_span s2) s2
  have hdesc := tx_fold_desc env (s2.nkr_num_slots >>> 1) (tx_span s2) s2
    (by rw [espan]; exact hnd) (by rw [espan, eslot, ebase]; exact hin)
  unfold em_netmap_txsync
  simp only [if_neg hguard]
  rw [← hs2, hphase]
  refine ⟨_, rfl, hspan, hlen, ?_, ?_, ?_, ?_, t, hdma, ?_⟩
  · intro i
    dsimp only
    rw [hdesc i, espan, eslot, ebase, eN]
  · dsimp only
    exact ecur
  · dsimp only
    rw [eav2, eN, ehw, ecur]
  · dsimp only
    rw [eav2, eN, ehw, ecur]
  · dsimp only
    rw [ht, etr, ecur, ehw, eme]
    by_cases hc : s.cur = s.nr_hwcur
    · have : ¬ 0 < pending s.nkr_num_slots s.nr_hwcur s.cur := by
        rw [hp0.2.2]; simp [hc]
      rw [if_neg this, if_neg (not_not.mpr hc)]
    · have : 0 < pending s.nkr_num_slots s.nr_hwcur s.cur := hp0.2.2.mpr hc
      rw [if_pos this, if_pos hc]

/-- C1 at the ring of capacity 8 with `avail = 7` and the cursor advanced by 3:
three descriptors (indices 0, 1, 2), `nr_hwcur = 3`, `avail = 4`. -/
theorem txsync_publishes_span_witness :
    ∃ s', em_netmap_txsync env0 3 0 true 0 tx8 = Outcome.ok s' ∧
      tx_span tx8 = [0, 1, 2] ∧ s'.nr_hwcur = 3 ∧ s'.nr_hwavail = 4 ∧ s'.avail = 4 := by
  obtain ⟨s', h1, _, _, _, h5, h6, h7, _⟩ :=
    txsync_publishes_span env0 0 true 0 tx8 8 3 rfl rfl rfl (by decide) (by decide) (by decide)
      (by decide) (by decide)
  exact ⟨s', h1, by decide, h5, h6.trans (by decide), h7.trans (by decide)⟩

/-- Whenever the publish loop leaves normally it has run its body on exactly
the span from `j` to `k`. -/
theorem tx_publish_ok_inv (env : Env) (lim k rf : Int) (do_lock : Bool) :
    ∀ (fuel : Nat) (j n : Int) (s : TxState) (r : TxState × Int),
    0 ≤ j → j ≤ lim → 0 ≤ k → k ≤ lim →
    tx_publish env lim k rf do_lock fuel j n s = Outcome.ok r →
    r = ((span lim j ((k - j) % (lim + 1)).toNat).foldl (tx_step env rf) s,
          n + (k - j) % (lim + 1)) := by
  intro fuel
  induction fuel with
  | zero =>
    intro j n s r h0 h1 hk0 hk1 h
    unfold tx_publish at h
    by_cases hjk : j = k
    · subst hjk
      simp at h
      simp [span, ← h]
    · simp [hjk] at h
  | succ fuel ih =>
    intro j n s r h0 h1 hk0 hk1 h
    unfold tx_publish at h
    by_cases hjk : j = k
    · subst hjk
      simp at h
      simp [span, ← h]
    · simp only [if_neg hjk] at h
      have hn := ring_next_bounds lim j h0 h1
      have hd := ring_next_dist lim j k h0 h1 hk0 hk1 hjk
      have hd0 : 0 ≤ (k - ring_next lim j) % (lim + 1) := Int.emod_nonneg _ (by omega)
      split at h
      · rename_i x c hx hc
        split at h
        · cases h
        · have := ih _ _ _ r hn.1 hn.2 hk0 hk1 h
          rw [this, hd]
          have e : ((k - ring_next lim j) % (lim + 1) + 1).toNat
              = ((k - ring_next lim j) % (lim + 1)).toNat + 1 := by omega
          rw [e]
          simp only [span, List.foldl_cons, tx_step_eq env rf s j x c hx hc]
          congr 1
          omega
      · cases h

/-- Whenever the publish phase returns success, the result is the loop body
run on exactly the span, followed by the cursor and count updates. -/
theorem tx_publish_phase_ok_inv (env : Env) (fuel : Nat) (do_lock : Bool) (s s' : TxState)
    (hh : 0 ≤ s.nr_hwcur ∧ s.nr_hwcur ≤ s.nkr_num_slots - 1)
    (hk : 0 ≤ s.cur ∧ s.cur ≤ s.nkr_num_slots - 1)
    (hav : s.avail = s.nr_hwavail)
    (h : tx_publish_phase env fuel do_lock s = Outcome.ok s') :
    s' = { (tx_span s).foldl (tx_step env (s.nkr_num_slots >>> 1)) s with
        nr_hwcur := s.cur
        avail := s.avail - pending s.nkr_num_slots s.nr_hwcur s.cur
        nr_hwavail := s.avail - pending s.nkr_num_slots s.nr_hwcur s.cur
        trace := ((tx_span s).foldl (tx_step env (s.nkr_num_slots >>> 1)) s).trace
          ++ (if s.cur ≠ s.nr_hwcur
              then [Event.bus_dmamap_sync_ring, Event.E1000_WRITE_REG_TDT s.me s.cur] else [])
          ++ (if do_lock then [Event.EM_TX_UNLOCK] else []) } := by
  have hN1 : s.nkr_num_slots - 1 + 1 = s.nkr_num_slots := by omega
  have hpend := ring_dist s.nkr_num_slots s.nr_hwcur s.cur hh.1 (by omega) hk.1 (by omega)
  have hp0 : 0 ≤ pending s.nkr_num_slots s.nr_hwcur s.cur := by
    unfold pending; rw [hpend]; split <;> omega
  unfold tx_publish_phase at h
  by_cases hjk : s.nr_hwcur = s.cur
  · have hzero : pending s.nkr_num_slots s.nr_hwcur s.cur = 0 := by
      unfold pending; rw [hpend]; simp [hjk]
    have hsp : tx_span s = [] := by unfold tx_span; rw [hzero]; rfl
    rw [hsp, hzero]
    simp [hjk] at h
    rw [← h]
    simp [hjk, hav]
  · have hne : s.cur ≠ s.nr_hwcur := fun h => hjk h.symm
    simp only [ne_eq, hjk, not_false_eq_true, if_true] at h
    generalize hr : tx_publish env (s.nkr_num_slots - 1) s.cur (s.nkr_num_slots >>> 1) do_lock
      fuel s.nr_hwcur 0 s = r at h
    cases r with
    | ok p =>
      have hp := tx_publish_ok_inv env _ _ _ do_lock fuel _ _ s p hh.1 hh.2 hk.1 hk.2 hr
      rw [hN1] at hp
      have hfr := tx_fold_frame env (s.nkr_num_slots >>> 1) (tx_span s) s
      subst hp
      simp only [Outcome.ok.injEq] at h
      rw [← h]
      unfold tx_span pending at hfr ⊢
      simp only [hfr.2.2.2.2.1, hfr.2.2.2.2.2.1, hfr.2.2.2.2.2.2.1, zero_add]
      rw [if_pos hne]
    | ring_reinit p => simp at h
    | fault => simp at h
    | out_of_fuel => simp at h

/-! ## Transmit: reclaim -/

theorem ring_dist2 (N c d : Int) (hc : 0 ≤ c) (hcN : c < N) (hd : 0 ≤ d) (hdN : d < 2 * N) :
    (d - c) % N = if d - c < 0 then d - c + N else if d - c < N then d - c else d - c - N := by
  split_ifs with h1 h2
  · rw [← Int.add_emod_self]
    exact Int.emod_eq_of_lt (by omega) (by omega)
  · exact Int.emod_eq_of_lt (by omega) (by omega)
  · have : (d - c) % N = (d - c - N + N) % N := by congr 1; omega
    rw [this, Int.add_emod_self]
    exact Int.emod_eq_of_lt (by omega) (by omega)

theorem ring_mod2 (N d : Int) (hd : 0 ≤ d) (hdN : d < 2 * N) :
    d % N = if d < N then d else d - N := by
  split_ifs with h1
  · exact Int.emod_eq_of_lt (by omega) (by omega)
  · have : d % N = (d - N + N) % N := by congr 1; omega
    rw [this, Int.add_emod_self]
    exact Int.emod_eq_of_lt (by omega) (by omega)

/-- The reclaim phase in closed form, for a device index in `[0, 2N-1]`. -/
theorem tx_reclaim_eq (ring_nr : Nat) (d : Int) (s : TxState) (N : Int)
    (hN : s.nkr_num_slots = N)
    (hc : 0 ≤ s.next_to_clean ∧ s.next_to_clean ≤ N - 1)
    (hd : 0 ≤ d ∧ d ≤ 2 * N - 1) :
    tx_reclaim ring_nr d s =
      { s with
        nr_hwavail := s.nr_hwavail + (d - s.next_to_clean) % N
        next_to_clean := d % N
        avail := s.nr_hwavail + (d - s.next_to_clean) % N
        trace := s.trace ++ [Event.E1000_READ_REG_TDH ring_nr] } := by
  subst hN
  have h1 := ring_dist2 s.nkr_num_slots s.next_to_clean d hc.1 (by omega) hd.1 (by omega)
  have h2 := ring_mod2 s.nkr_num_slots d hd.1 (by omega)
  unfold tx_reclaim
  rw [h1, h2]
  by_cases hge : d ≥ s.nkr_num_slots
  · have hlt : ¬ d < s.nkr_num_slots := by omega
    simp only [if_pos hge, if_neg hlt]
    split_ifs <;> first | rfl | omega | (congr 1 <;> omega)
  · have hlt : d < s.nkr_num_slots := by omega
    simp only [if_neg hge, if_pos hlt]
    split_ifs <;> first | rfl | omega | (congr 1 <;> omega)

/-- C5. On a ring of `N` slots with `next_to_clean = c` in `[0, N-1]` and a
device index `d` in `[0, 2N-1]` (a value in `[N, 2N-1]` being reduced by `N`),
the reclaim phase raises `nr_hwavail` by exactly `(d - c) mod N`, sets
`next_to_clean` to `d mod N`, which is `d - N` for `d` in `[N, 2N-1]`, and stores
the new count in `avail`. -/
theorem tx_reclaim_delta (ring_nr : Nat) (d : Int) (s : TxState) (N : Int)
    (hN : s.nkr_num_slots = N)
    (hc : 0 ≤ s.next_to_clean ∧ s.next_to_clean ≤ N - 1)
    (hd : 0 ≤ d ∧ d ≤ 2 * N - 1) :
    (tx_reclaim ring_nr d s).nr_hwavail = s.nr_hwavail + (d - s.next_to_clean) % N ∧
      (tx_reclaim ring_nr d s).next_to_clean = d % N ∧
      (N ≤ d → (tx_reclaim ring_nr d s).next_to_clean = d - N) ∧
      (tx_reclaim ring_nr d s).avail = (tx_reclaim ring_nr d s).nr_hwavail := by
  rw [tx_reclaim_eq ring_nr d s N hN hc hd]
  refine ⟨rfl, rfl, ?_, rfl⟩
  intro hNd
  have := ring_mod2 N d hd.1 (by omega)
  dsimp only
  rw [this, if_neg (by omega)]

/-- C5 at `N = 8`, `nr_hwavail = 4`, `next_to_clean = 0`, device index 3:
the count returns to 7. -/
theorem tx_reclaim_delta_witness :
    (tx_reclaim 0 3 tx8_sent).nr_hwavail = 7 ∧ (tx_reclaim 0 3 tx8_sent).next_to_clean = 3 ∧
      (tx_reclaim 0 3 tx8_sent).avail = 7 := by
  obtain ⟨h1, h2, _, h4⟩ := tx_reclaim_delta 0 3 tx8_sent 8 rfl (by decide) (by decide)
  exact ⟨h1.trans (by decide), h2.trans (by decide), h4.trans (h1.trans (by decide))⟩

/-! ## Transmit: the count invariant -/

/-- The cursors and counts after a successful call with a device index in
`[0, 2N-1]`. -/
theorem txsync_ok_scalars (env : Env) (fuel ring_nr : Nat) (do_lock : Bool) (tdh : Int)
    (s s' : TxState)
    (hh : 0 ≤ s.nr_hwcur ∧ s.nr_hwcur ≤ s.nkr_num_slots - 1)
    (hc : 0 ≤ s.next_to_clean ∧ s.next_to_clean ≤ s.nkr_num_slots - 1)
    (hk0 : 0 ≤ s.cur)
    (hd : 0 ≤ tdh ∧ tdh ≤ 2 * s.nkr_num_slots - 1)
    (h : em_netmap_txsync env fuel ring_nr do_lock tdh s = Outcome.ok s') :
    s'.nkr_num_slots = s.nkr_num_slots ∧ s'.nr_hwcur = s.cur ∧
      s'.next_to_clean = tdh % s.nkr_num_slots ∧
      s'.nr_hwavail = s.nr_hwavail + (tdh - s.next_to_clean) % s.nkr_num_slots
        - (s.cur - s.nr_hwcur) % s.nkr_num_slots ∧
      s'.avail = s'.nr_hwavail := by
  unfold em_netmap_txsync at h
  dsimp only at h
  split at h
  · cases h
  · rename_i hguard
    have hk1 : s.cur ≤ s.nkr_num_slots - 1 := by
      by_contra hcon
      exact hguard (Or.inr (by omega))
    obtain ⟨s1, hs1⟩ : ∃ s1 : TxState, s1 = { s with trace := s.trace
        ++ (if do_lock then [Event.EM_TX_LOCK] else []) ++ [Event.bus_dmamap_sync_ring] } :=
      ⟨_, rfl⟩
    rw [← hs1] at h
    have hrec := tx_reclaim_eq ring_nr tdh s1 s.nkr_num_slots (by rw [hs1])
      (by rw [hs1]; exact hc) hd
    obtain ⟨s2, hs2⟩ : ∃ s2 : TxState, s2 = tx_reclaim ring_nr tdh s1 := ⟨_, rfl⟩
    rw [← hs2] at h hrec
    have eN : s2.nkr_num_slots = s.nkr_num_slots := by rw [hrec, hs1]
    have ecur : s2.cur = s.cur := by rw [hrec, hs1]
    have ehw : s2.nr_hwcur = s.nr_hwcur := by rw [hrec, hs1]
    have eav : s2.avail = s2.nr_hwavail := by rw [hrec]
    have eav2 : s2.avail = s.nr_hwavail + (tdh - s.next_to_clean) % s.nkr_num_slots := by
      rw [hrec, hs1]
    have entc : s2.next_to_clean = tdh % s.nkr_num_slots := by rw [hrec]
    have hfin := tx_publish_phase_ok_inv env fuel do_lock s2 s'
      (by rw [ehw, eN]; exact hh) (by rw [ecur, eN]; exact ⟨hk0, hk1⟩) eav h
    have hfr := tx_fold_frame env (s2.nkr_num_slots >>> 1) (tx_span s2) s2
    rw [hfin]
    dsimp only
    refine ⟨hfr.1.trans eN, ecur, hfr.2.2.2.2.2.2.2.1.trans entc, ?_, rfl⟩
    rw [eav2, eN, ehw, ecur]
    rfl

/-- One successful call from a state satisfying the invariant, in an
admissible round, gives a state satisfying the invariant. -/
theorem tx_inv_step (env : Env) (fuel ring_nr : Nat) (do_lock : Bool) (s s' : TxState)
    (op : TxOp) (hinv : tx_inv s) (hadm : tx_admissible s op)
    (h : em_netmap_txsync env fuel ring_nr do_lock op.tdh
      { s with cur := op.cur, slot := op.slot } = Outcome.ok s') :
    tx_inv s' ∧ s'.nkr_num_slots = s.nkr_num_slots := by
  obtain ⟨hh0, hh1, hc0, hc1, hav⟩ := hinv
  obtain ⟨hk0, hk1, hd0, hd1, hfl, hadv⟩ := hadm
  obtain ⟨e1, e2, e3, e4, _⟩ := txsync_ok_scalars env fuel ring_nr do_lock op.tdh
    { s with cur := op.cur, slot := op.slot } s' ⟨hh0, hh1⟩ ⟨hc0, hc1⟩ hk0 ⟨hd0, hd1⟩ h
  dsimp only at e1 e2 e3 e4
  refine ⟨?_, e1⟩
  unfold tx_inv
  rw [e1, e2, e3, e4]
  have m1 := ring_dist s.nkr_num_slots s.next_to_clean s.nr_hwcur hc0 (by omega) hh0 (by omega)
  have m2 := ring_dist2 s.nkr_num_slots s.next_to_clean op.tdh hc0 (by omega) hd0 (by omega)
  have m3 := ring_dist s.nkr_num_slots s.nr_hwcur op.cur hh0 (by omega) hk0 (by omega)
  have m4 := ring_mod2 s.nkr_num_slots op.tdh hd0 (by omega)
  have hj : 0 ≤ op.tdh % s.nkr_num_slots ∧ op.tdh % s.nkr_num_slots < s.nkr_num_slots := by
    rw [m4]; split <;> omega
  have m5 := ring_dist s.nkr_num_slots (op.tdh % s.nkr_num_slots) op.cur hj.1 hj.2 hk0 (by omega)
  rw [m1] at hav hfl
  rw [m2] at hfl hadv
  rw [m3] at hadv
  rw [m5, m2, m3]
  rw [m4] at hj ⊢
  refine ⟨hk0, hk1, ?_, ?_, ?_⟩
  · split_ifs <;> omega
  · split_ifs <;> omega
  · split_ifs at * <;> omega

theorem tx_run_inv (env : Env) (fuel ring_nr : Nat) (do_lock : Bool) :
    ∀ (ops : List TxOp) (s0 s : TxState), tx_inv s0 →
    tx_run env fuel ring_nr do_lock (fun s op => decide (tx_admissible s op)) s0 ops = some s →
    tx_inv s ∧ s.nkr_num_slots = s0.nkr_num_slots
  | [], s0, s, hinv, h => by
    simp only [tx_run, Option.some.injEq] at h
    subst h
    exact ⟨hinv, rfl⟩
  | op :: ops, s0, s, hinv, h => by
    unfold tx_run at h
    split at h
    · rename_i hg
      have hadm : tx_admissible s0 op := of_decide_eq_true hg
      split at h
      · rename_i s1 hs1
        have hstep := tx_inv_step env fuel ring_nr do_lock s0 s1 op hinv hadm hs1
        have := tx_run_inv env fuel ring_nr do_lock ops s1 s hstep.1 h
        exact ⟨this.1, this.2.trans hstep.2⟩
      · cases h
    · cases h

/-- C2, as stated, fails: with in-range cursors, a device index that runs ahead
of the slots in flight takes the count out of `[0, N-1]` (10 on a ring of 8),
and a cursor advanced over more slots than are available makes it negative
(-2 on a ring of 4). -/
theorem tx_count_leaves_range :
    (tx_run env0 8 0 true (fun s op => decide (tx_cur_in_range s op))
        (tx_init 8 slots8 descs8) [{ cur := 0, slot := slots8, tdh := 3 }] = some tx8_over ∧
      tx8_over.nr_hwavail = 10 ∧ ¬ tx8_over.nr_hwavail ≤ 8 - 1) ∧
    (tx_run env0 4 0 false (fun s op => decide (tx_cur_in_range s op))
        (tx_init 4 slots4 descs4)
        [{ cur := 3, slot := slots4, tdh := 0 }, { cur := 1, slot := slots4, tdh := 0 }]
        = some tx4_neg ∧
      tx4_neg.nr_hwavail = -2 ∧ ¬ 0 ≤ tx4_neg.nr_hwavail) := by
  refine ⟨⟨rfl, by decide, by decide⟩, ⟨?_, by decide, by decide⟩⟩
  simp [tx_run, tx_cur_in_range, tx_init, em_netmap_txsync, tx_publish_phase, env0, tx_reclaim,
    tx_publish, at?, put, tx_slot_bad, tx_body, ring_next, slots4, descs4, tx4_neg,
    tx_slot_after, tx_desc_after, tx_slot_events, tx_report_flags, and_not, List.replicate]
  decide

/-- C2, amended. On a ring of capacity `N ≥ 1` started with cursors 0 and
`nr_hwavail = N - 1`, after every sequence of successful `em_netmap_txsync`
calls in which each cursor is in range and advances over no more slots than
are available after the reclaim, and each device index is in `[0, 2N-1]` and
reports only slots in flight, `nr_hwavail` is within `[0, N-1]` and equals
`N - 1 - ((nr_hwcur - next_to_clean) mod N)`. -/
theorem tx_count_invariant (env : Env) (fuel ring_nr : Nat) (do_lock : Bool) (N : Int)
    (slot : List netmap_slot) (tx_base : List e1000_tx_desc) (ops : List TxOp) (s : TxState)
    (hN : 1 ≤ N)
    (h : tx_run env fuel ring_nr do_lock (fun s op => decide (tx_admissible s op))
      (tx_init N slot tx_base) ops = some s) :
    0 ≤ s.nr_hwavail ∧ s.nr_hwavail ≤ N - 1 ∧
      s.nr_hwavail = N - 1 - (s.nr_hwcur - s.next_to_clean) % N := by
  have hinit : tx_inv (tx_init N slot tx_base) := by
    unfold tx_inv tx_init
    simp
    omega
  obtain ⟨⟨h0, h1, h2, h3, h4⟩, hNs⟩ := tx_run_inv env fuel ring_nr do_lock ops _ s hinit h
  have hNs2 : s.nkr_num_slots = N := hNs
  rw [hNs2] at h1 h3 h4
  have m := ring_dist N s.next_to_clean s.nr_hwcur h2 (by omega) h0 (by omega)
  refine ⟨?_, ?_, h4⟩
  · rw [h4, m]; split <;> omega
  · rw [h4, m]; split <;> omega

/-- C2 amended, at the ring of capacity 8: three slots published, then their
completion reported; the count is back at 7. -/
theorem tx_count_invariant_witness :
    tx_run env0 8 0 false (fun s op => decide (tx_admissible s op))
        (tx_init 8 slots8 descs8)
        [{ cur := 3, slot := slots8, tdh := 0 }, { cur := 3, slot := slots8, tdh := 3 }]
        = some tx8_done ∧
      0 ≤ tx8_done.nr_hwavail ∧ tx8_done.nr_hwavail ≤ 8 - 1 ∧
      tx8_done.nr_hwavail = 8 - 1 - (tx8_done.nr_hwcur - tx8_done.next_to_clean) % 8 := by
  have hrun : tx_run env0 8 0 false (fun s op => decide (tx_admissible s op))
        (tx_init 8 slots8 descs8)
        [{ cur := 3, slot := slots8, tdh := 0 }, { cur := 3, slot := slots8, tdh := 3 }]
        = some tx8_done := by
    simp [tx_run, tx_admissible, tx_init, em_netmap_txsync, tx_publish_phase, env0, tx_reclaim,
      tx_publish, at?, put, tx_slot_bad, tx_body, ring_next, slots8, descs8, tx8_done,
      tx_slot_after, tx_desc_after, tx_slot_events, tx_report_flags, and_not, List.replicate]
    decide
  exact ⟨hrun, tx_count_invariant env0 8 0 false 8 slots8 descs8 _ tx8_done (by decide) hrun⟩

/-! ## The validation guard -/

/-- With `NR_REINIT` set or `cur > lim`, both sync routines leave at once
through `netmap_ring_reinit`, the state and the trace untouched. -/
theorem sync_guard_rejects (env : Env) (fuel ring_nr : Nat) (do_lock : Bool) (tdh : Int) :
    (∀ s : TxState, s.nr_kflags &&& env.NR_REINIT ≠ 0 ∨ s.cur > s.nkr_num_slots - 1 →
      em_netmap_txsync env fuel ring_nr do_lock tdh s = Outcome.ring_reinit s) ∧
    (∀ s : RxState, s.nr_kflags &&& env.NR_REINIT ≠ 0 ∨ s.cur > s.nkr_num_slots - 1 →
      em_netmap_rxsync env fuel do_lock s = Outcome.ring_reinit s) := by
  constructor
  · intro s h
    unfold em_netmap_txsync
    simp only [if_pos h]
  · intro s h
    unfold em_netmap_rxsync
    simp only [if_pos h]

/-- With `k` outside `[0, lim]` and every slot passing the test, the publish
loop started inside the ring never reaches `k`. -/
theorem tx_publish_unreachable (env : Env) (lim k rf : Int) (do_lock : Bool)
    (hk : k < 0 ∨ lim < k) :
    ∀ (fuel : Nat) (j n : Int) (s : TxState),
    0 ≤ j → j ≤ lim → (s.slot.length : Int) = lim + 1 → (s.tx_base.length : Int) = lim + 1 →
    (∀ i x, at? s.slot i = some x → ¬ tx_slot_bad env x) →
    tx_publish env lim k rf do_lock fuel j n s = Outcome.out_of_fuel
  | 0, j, n, s, h0, h1, _, _, _ => by
    have hjk : j ≠ k := by omega
    unfold tx_publish
    simp [hjk]
  | fuel + 1, j, n, s, h0, h1, hs, hb, hv => by
    have hjk : j ≠ k := by omega
    have hn := ring_next_bounds lim j h0 h1
    obtain ⟨x, hx⟩ := at?_of_bounds s.slot h0 (by omega)
    obtain ⟨c, hc⟩ := at?_of_bounds s.tx_base h0 (by omega)
    have hgood : ¬ tx_slot_bad env x := hv j x hx
    have hv2 : ∀ i y, at? (tx_body env rf j x c s).slot i = some y → ¬ tx_slot_bad env y := by
      intro i y hy
      obtain ⟨z, hz, hiff⟩ := tx_body_slot_bad env rf j x c s hx i y hy
      rw [hiff]
      exact hv i z hz
    unfold tx_publish
    simp only [if_neg hjk, hx, hc, if_neg hgood]
    exact tx_publish_unreachable env lim k rf do_lock hk fuel _ _ _ hn.1 hn.2
      (by simp [tx_body, length_put, hs]) (by simp [tx_body, length_put, hb]) hv2

/-- On a ring without `NR_REINIT`, with `nr_hwcur` in range, every slot passing
the test and a cursor that reads as a negative `int`, `em_netmap_txsync` is not
stopped by its guard and never returns. -/
theorem txsync_negative_cursor_loops (env : Env) (fuel ring_nr : Nat) (do_lock : Bool)
    (tdh : Int) (s : TxState)
    (hflag : s.nr_kflags &&& env.NR_REINIT = 0)
    (hslots : (s.slot.length : Int) = s.nkr_num_slots)
    (hdescs : (s.tx_base.length : Int) = s.nkr_num_slots)
    (hh : 0 ≤ s.nr_hwcur ∧ s.nr_hwcur ≤ s.nkr_num_slots - 1)
    (hk : s.cur < 0)
    (hv : ∀ i x, at? s.slot i = some x → ¬ tx_slot_bad env x) :
    em_netmap_txsync env fuel ring_nr do_lock tdh s = Outcome.out_of_fuel := by
  have hguard : ¬ (s.nr_kflags &&& env.NR_REINIT ≠ 0 ∨ s.cur > s.nkr_num_slots - 1) := by
    rw [hflag]; simp; omega
  have hjk : s.nr_hwcur ≠ s.cur := by omega
  have hloop := tx_publish_unreachable env (s.nkr_num_slots - 1) s.cur (s.nkr_num_slots >>> 1)
    do_lock (Or.inl hk) fuel s.nr_hwcur 0
    (tx_reclaim ring_nr tdh { s with trace := s.trace
        ++ (if do_lock then [Event.EM_TX_LOCK] else []) ++ [Event.bus_dmamap_sync_ring] })
    hh.1 hh.2 (by show (s.slot.length : Int) = _; omega)
    (by show (s.tx_base.length : Int) = _; omega) hv
  unfold em_netmap_txsync
  simp only [if_neg hguard]
  unfold tx_publish_phase
  have e1 : (tx_reclaim ring_nr tdh { s with trace := s.trace
        ++ (if do_lock then [Event.EM_TX_LOCK] else []) ++ [Event.bus_dmamap_sync_ring] }).nr_hwcur
      = s.nr_hwcur := rfl
  have e2 : (tx_reclaim ring_nr tdh { s with trace := s.trace
        ++ (if do_lock then [Event.EM_TX_LOCK] else []) ++ [Event.bus_dmamap_sync_ring] }).cur
      = s.cur := rfl
  have e3 : (tx_reclaim ring_nr tdh { s with trace := s.trace
        ++ (if do_lock then [Event.EM_TX_LOCK] else []) ++ [Event.bus_dmamap_sync_ring] }).nkr_num_slots
      = s.nkr_num_slots := rfl
  simp only [e1, e2, e3, ne_eq, hjk, not_false_eq_true, if_true, hloop]

/-- C3 fails on the code: a cursor that is not a valid index because it reads
as a negative `int` (here `-1`) passes the guard `k > lim`. With every slot
mapped `em_netmap_txsync` then never returns; with slot 1 unmapped both
routines take the lock, touch the device and write descriptor 0 before they
leave through `netmap_ring_reinit`. -/
theorem sync_negative_cursor_not_rejected :
    ¬ (0 ≤ tx8_neg_cur_valid.cur ∧ tx8_neg_cur_valid.cur ≤ tx8_neg_cur_valid.nkr_num_slots - 1) ∧
    (∀ fuel : Nat, em_netmap_txsync env0 fuel 0 true 0 tx8_neg_cur_valid = Outcome.out_of_fuel) ∧
    ¬ (0 ≤ tx8_neg_cur.cur ∧ tx8_neg_cur.cur ≤ tx8_neg_cur.nkr_num_slots - 1) ∧
    em_netmap_txsync env0 8 0 true 0 tx8_neg_cur = Outcome.ring_reinit tx8_neg_cur_after ∧
    tx8_neg_cur_after ≠ tx8_neg_cur ∧
    ¬ (0 ≤ rx4_neg_cur.cur ∧ rx4_neg_cur.cur ≤ rx4_neg_cur.nkr_num_slots - 1) ∧
    em_netmap_rxsync env0 4 true rx4_neg_cur = Outcome.ring_reinit rx4_neg_cur_after ∧
    rx4_neg_cur_after ≠ rx4_neg_cur := by
  refine ⟨by decide, ?_, by decide, ?_, by decide, by decide, ?_, by decide⟩
  · intro fuel
    apply txsync_negative_cursor_loops env0 fuel 0 true 0 tx8_neg_cur_valid (by decide)
      (by decide) (by decide) (by decide) (by decide)
    intro i x hx
    have hb := at?_bounds hx
    have hb2 : i < 8 := hb.2
    have : i = 0 ∨ i = 1 ∨ i = 2 ∨ i = 3 ∨ i = 4 ∨ i = 5 ∨ i = 6 ∨ i = 7 := by omega
    rcases this with rfl | rfl | rfl | rfl | rfl | rfl | rfl | rfl <;>
      (simp [at?, tx8_neg_cur_valid, tx8] at hx; subst hx; decide)
  · simp [em_netmap_txsync, tx_publish_phase, env0, tx_reclaim, tx_publish, at?, put,
      tx_slot_bad, tx_body, ring_next, tx8_neg_cur, tx8_neg_cur_after, descs8,
      tx_slot_after, tx_desc_after, tx_slot_events, tx_report_flags, and_not, List.replicate]
  · simp [em_netmap_rxsync, rx_enter, rx_recycle_phase, rx_ingest, rx_ingest_loop, env0,
      rx_recycle, at?, put, rx_slot_bad, rx_body, ring_next, rx4_neg_cur, rx4_neg_cur_after,
      rx_slot_after, rx_desc_after, rx_slot_events, and_not]

/-! ## Transmit: a bad slot in the span -/

/-- The publish phase on a span whose slot at position `p` fails the test,
the `p` slots before it passing: the loop body runs on those `p` slots only
and the routine leaves through `netmap_ring_reinit`. -/
theorem tx_publish_phase_bad (env : Env) (fuel : Nat) (do_lock : Bool) (s : TxState) (p : Nat)
    (hslots : (s.slot.length : Int) = s.nkr_num_slots)
    (hdescs : (s.tx_base.length : Int) = s.nkr_num_slots)
    (hh : 0 ≤ s.nr_hwcur ∧ s.nr_hwcur ≤ s.nkr_num_slots - 1)
    (hk : 0 ≤ s.cur ∧ s.cur ≤ s.nkr_num_slots - 1)
    (hp : (p : Int) < pending s.nkr_num_slots s.nr_hwcur s.cur)
    (hvalid : tx_slots_ok env s.slot (span (s.nkr_num_slots - 1) s.nr_hwcur p))
    (hbad : ∀ x ∈ at? s.slot ((s.nr_hwcur + (p : Int)) % s.nkr_num_slots), tx_slot_bad env x)
    (hfuel : p < fuel) :
    tx_publish_phase env fuel do_lock s =
      Outcome.ring_reinit
        { (span (s.nkr_num_slots - 1) s.nr_hwcur p).foldl (tx_step env (s.nkr_num_slots >>> 1)) s
          with trace := ((span (s.nkr_num_slots - 1) s.nr_hwcur p).foldl
              (tx_step env (s.nkr_num_slots >>> 1)) s).trace
            ++ (if do_lock then [Event.EM_TX_UNLOCK] else []) } := by
  have hN1 : s.nkr_num_slots - 1 + 1 = s.nkr_num_slots := by omega
  have hjk : s.nr_hwcur ≠ s.cur := by
    intro h
    unfold pending at hp
    rw [h] at hp
    simp at hp
    omega
  have hloop := tx_publish_bad env (s.nkr_num_slots - 1) s.cur (s.nkr_num_slots >>> 1) do_lock
    p fuel s.nr_hwcur 0 s hh.1 hh.2 hk.1 hk.2 (by rw [hN1]; exact hp) hfuel
    (by omega) (by omega) (by intro i hi x hx; exact hvalid i hi x hx)
    (by rw [hN1]; intro x hx; exact hbad x hx)
  unfold tx_publish_phase
  simp only [ne_eq, hjk, not_false_eq_true, if_true, hloop]

/-- C4. On a transmit ring of `N` slots whose span has its first failing slot
(buffer not mapped, or length above the buffer size) at position `p`, after
`p` passing slots, `em_netmap_txsync` writes exactly the `p` descriptors at
`h, ..., h+p-1` (wrapping at `N`) and no other, leaves through
`netmap_ring_reinit` with `nr_hwcur` still `h`, `nr_hwavail` and `avail` at
their value after the reclaim phase, no write to `TDT`, and the ring in
`NEEDS_REINIT`. -/
theorem txsync_bad_slot (env : Env) (ring_nr : Nat) (do_lock : Bool) (tdh : Int)
    (s : TxState) (N : Int) (fuel p : Nat)
    (hN : s.nkr_num_slots = N)
    (hslots : (s.slot.length : Int) = N) (hdescs : (s.tx_base.length : Int) = N)
    (hflag : s.nr_kflags &&& env.NR_REINIT = 0)
    (hh : 0 ≤ s.nr_hwcur ∧ s.nr_hwcur ≤ N - 1)
    (hk : 0 ≤ s.cur ∧ s.cur ≤ N - 1)
    (hp : (p : Int) < pending N s.nr_hwcur s.cur)
    (hvalid : tx_slots_ok env s.slot (span (N - 1) s.nr_hwcur p))
    (hbad : ∀ x ∈ at? s.slot ((s.nr_hwcur + (p : Int)) % N), tx_slot_bad env x)
    (hfuel : p < fuel) :
    ∃ s', em_netmap_txsync env fuel ring_nr do_lock tdh s = Outcome.ring_reinit s' ∧
      (em_netmap_txsync env fuel ring_nr do_lock tdh s).mode = some RingMode.NEEDS_REINIT ∧
      span (N - 1) s.nr_hwcur p
        = (List.range p).map (fun t : Nat => (s.nr_hwcur + (t : Int)) % N) ∧
      (∀ i, at? s'.tx_base i =
        if i ∈ span (N - 1) s.nr_hwcur p then
          (at? s.slot i).bind (fun x => (at? s.tx_base i).map (tx_desc_after env (N >>> 1) i x))
        else at? s.tx_base i) ∧
      s'.nr_hwcur = s.nr_hwcur ∧
      s'.nr_hwavail = (tx_reclaim ring_nr tdh s).nr_hwavail ∧
      s'.avail = (tx_reclaim ring_nr tdh s).nr_hwavail ∧
      ∃ t, (∀ e ∈ t, e.is_buf_dma = true) ∧
        s'.trace = s.trace ++ (if do_lock then [Event.EM_TX_LOCK] else [])
          ++ [Event.bus_dmamap_sync_ring, Event.E1000_READ_REG_TDH ring_nr] ++ t
          ++ (if do_lock then [Event.EM_TX_UNLOCK] else []) := by
  subst hN
  have hN1 : s.nkr_num_slots - 1 + 1 = s.nkr_num_slots := by omega
  have hspan : span (s.nkr_num_slots - 1) s.nr_hwcur p
      = (List.range p).map (fun t : Nat => (s.nr_hwcur + (t : Int)) % s.nkr_num_slots) := by
    rw [span_eq_map _ _ _ hh.1 hh.2, hN1]
  have hpend := ring_dist s.nkr_num_slots s.nr_hwcur s.cur hh.1 (by omega) hk.1 (by omega)
  have hpN : (p : Int) < s.nkr_num_slots := by
    unfold pending at hp; rw [hpend] at hp; split at hp <;> omega
  have hguard : ¬ (s.nr_kflags &&& env.NR_REINIT ≠ 0 ∨ s.cur > s.nkr_num_slots - 1) := by
    rw [hflag]; simp; omega
  have hnd : (span (s.nkr_num_slots - 1) s.nr_hwcur p).Nodup :=
    span_nodup _ _ _ hh.1 hh.2 (by omega)
  have hin : ∀ j ∈ span (s.nkr_num_slots - 1) s.nr_hwcur p,
      0 ≤ j ∧ j < (s.slot.length : Int) ∧ j < (s.tx_base.length : Int) := by
    intro j hj
    have := span_mem_bounds _ _ _ hh.1 hh.2 j hj
    omega
  obtain ⟨s2, hs2⟩ : ∃ s2, s2 = tx_reclaim ring_nr tdh { s with trace := s.trace
        ++ (if do_lock then [Event.EM_TX_LOCK] else []) ++ [Event.bus_dmamap_sync_ring] } :=
    ⟨_, rfl⟩
  have eN : s2.nkr_num_slots = s.nkr_num_slots := by rw [hs2]; rfl
  have eslot : s2.slot = s.slot := by rw [hs2]; rfl
  have ebase : s2.tx_base = s.tx_base := by rw [hs2]; rfl
  have ecur : s2.cur = s.cur := by rw [hs2]; rfl
  have ehw : s2.nr_hwcur = s.nr_hwcur := by rw [hs2]; rfl
  have eav : s2.avail = (tx_reclaim ring_nr tdh s).nr_hwavail := by rw [hs2]; rfl
  have ehav : s2.nr_hwavail = (tx_reclaim ring_nr tdh s).nr_hwavail := by rw [hs2]; rfl
  have etr : s2.trace = s.trace ++ (if do_lock then [Event.EM_TX_LOCK] else [])
      ++ [Event.bus_dmamap_sync_ring, Event.E1000_READ_REG_TDH ring_nr] := by
    rw [hs2]; simp [tx_reclaim]
  have hphase := tx_publish_phase_bad env fuel do_lock s2 p
    (by rw [eslot, eN]; exact hslots) (by rw [ebase, eN]; exact hdescs)
    (by rw [ehw, eN]; exact hh) (by rw [ecur, eN]; exact hk)
    (by rw [eN, ehw, ecur]; exact hp)
    (by rw [eslot, eN, ehw]; exact hvalid) (by rw [eslot, eN, ehw]; exact hbad) hfuel
  rw [eN, ehw] at hphase
  obtain ⟨t, ht, hdma⟩ := tx_fold_trace env (s.nkr_num_slots >>> 1)
    (span (s.nkr_num_slots - 1) s.nr_hwcur p) s2
  have hdesc := tx_fold_desc env (s.nkr_num_slots >>> 1)
    (span (s.nkr_num_slots - 1) s.nr_hwcur p) s2 hnd (by rw [eslot, ebase]; exact hin)
  have hfr := tx_fold_frame env (s.nkr_num_slots >>> 1)
    (span (s.nkr_num_slots - 1) s.nr_hwcur p) s2
  have hcall : em_netmap_txsync env fuel ring_nr do_lock tdh s
      = tx_publish_phase env fuel do_lock s2 := by
    unfold em_netmap_txsync
    simp only [if_neg hguard]
    rw [← hs2]
  rw [hcall, hphase]
  refine ⟨_, rfl, rfl, hspan, ?_, ?_, ?_, ?_, t, hdma, ?_⟩
  · intro i
    dsimp only
    rw [hdesc i, eslot, ebase]
  · dsimp only
    exact hfr.2.2.1.trans ehw
  · dsimp only
    exact hfr.2.2.2.1.trans ehav
  · dsimp only
    exact hfr.2.2.2.2.2.1.trans eav
  · dsimp only
    rw [ht, etr]

/-- C4 at a span of 5 slots with the third not mapped: 2 descriptors (indices
0 and 1) are written, descriptor 2 is not, and the call leaves through
`netmap_ring_reinit`. -/
theorem txsync_bad_slot_witness :
    ∃ s', em_netmap_txsync env0 8 0 true 0 tx8_bad3 = Outcome.ring_reinit s' ∧
      (em_netmap_txsync env0 8 0 true 0 tx8_bad3).mode = some RingMode.NEEDS_REINIT ∧
      pending 8 tx8_bad3.nr_hwcur tx8_bad3.cur = 5 ∧
      span 7 0 2 = [0, 1] ∧
      at? s'.tx_base 0 = some ⟨0, 150995004, 0⟩ ∧
      at? s'.tx_base 1 = some ⟨0, 16777276, 0⟩ ∧
      at? s'.tx_base 2 = at? tx8_bad3.tx_base 2 ∧
      s'.nr_hwcur = 0 ∧ s'.nr_hwavail = 7 ∧ s'.avail = 7 := by
  obtain ⟨s', h1, h2, _, h4, h5, h6, h7, _⟩ :=
    txsync_bad_slot env0 0 true 0 tx8_bad3 8 8 2 rfl rfl rfl (by decide) (by decide) (by decide)
      (by decide) (by decide) (by decide) (by decide)
  exact ⟨s', h1, h2, by decide, by decide, (h4 0).trans (by decide), (h4 1).trans (by decide),
    (h4 2).trans (by decide), h5, h6.trans (by decide), h7.trans (by decide)⟩

/-! ## Receive: the ingest loop -/

theorem rx_ingest_step_eq (s : RxState) (j : Int) (c : e1000_rx_desc) (x : netmap_slot)
    (hc : at? s.rx_base j = some c) (hx : at? s.slot j = some x) :
    rx_ingest_step s j = { s with
      slot := put s.slot j { x with len := c.length }
      trace := s.trace ++ [Event.bus_dmamap_sync_buf j] } := by
  simp [rx_ingest_step, hx, hc]

theorem rx_ingest_step_frame (s : RxState) (j : Int) :
    (rx_ingest_step s j).nkr_num_slots = s.nkr_num_slots ∧
    (rx_ingest_step s j).nr_kflags = s.nr_kflags ∧
    (rx_ingest_step s j).nr_hwcur = s.nr_hwcur ∧
    (rx_ingest_step s j).nr_hwavail = s.nr_hwavail ∧
    (rx_ingest_step s j).cur = s.cur ∧
    (rx_ingest_step s j).avail = s.avail ∧
    (rx_ingest_step s j).me = s.me ∧
    (rx_ingest_step s j).next_to_check = s.next_to_check ∧
    (rx_ingest_step s j).slot.length = s.slot.length ∧
    (rx_ingest_step s j).rx_base = s.rx_base := by
  unfold rx_ingest_step
  split <;> simp [length_put]

theorem rx_ingest_fold_frame : ∀ (js : List Int) (s : RxState),
    (js.foldl rx_ingest_step s).nkr_num_slots = s.nkr_num_slots ∧
    (js.foldl rx_ingest_step s).nr_kflags = s.nr_kflags ∧
    (js.foldl rx_ingest_step s).nr_hwcur = s.nr_hwcur ∧
    (js.foldl rx_ingest_step s).nr_hwavail = s.nr_hwavail ∧
    (js.foldl rx_ingest_step s).cur = s.cur ∧
    (js.foldl rx_ingest_step s).avail = s.avail ∧
    (js.foldl rx_ingest_step s).me = s.me ∧
    (js.foldl rx_ingest_step s).next_to_check = s.next_to_check ∧
    (js.foldl rx_ingest_step s).slot.length = s.slot.length ∧
    (js.foldl rx_ingest_step s).rx_base = s.rx_base
  | [], s => by simp
  | j :: js, s => by
    obtain ⟨a1, a2, a3, a4, a5, a6, a7, a8, a9, a10⟩ := rx_ingest_fold_frame js (rx_ingest_step s j)
    obtain ⟨b1, b2, b3, b4, b5, b6, b7, b8, b9, b10⟩ := rx_ingest_step_frame s j
    simp only [List.foldl_cons]
    exact ⟨a1.trans b1, a2.trans b2, a3.trans b3, a4.trans b4, a5.trans b5, a6.trans b6,
      a7.trans b7, a8.trans b8, a9.trans b9, a10.trans b10⟩

theorem rx_ingest_fold_slot : ∀ (js : List Int) (s : RxState),
    js.Nodup → (∀ j ∈ js, 0 ≤ j ∧ j < s.slot.length ∧ j < s.rx_base.length) →
    ∀ i, at? (js.foldl rx_ingest_step s).slot i =
      if i ∈ js then
        (at? s.slot i).bind (fun x => (at? s.rx_base i).map (fun c => { x with len := c.length }))
      else at? s.slot i
  | [], s, _, _, i => by simp
  | j :: js, s, hnd, hin, i => by
    obtain ⟨hj0, hj1, hj2⟩ := hin j (List.mem_cons_self _ _)
    obtain ⟨x, hx⟩ := at?_of_bounds _ hj0 hj1
    obtain ⟨c, hc⟩ := at?_of_bounds _ hj0 hj2
    have hnd2 := List.nodup_cons.mp hnd
    have hfr := rx_ingest_step_frame s j
    have hin2 : ∀ j2 ∈ js, 0 ≤ j2 ∧ j2 < (rx_ingest_step s j).slot.length ∧
        j2 < (rx_ingest_step s j).rx_base.length := by
      intro j2 hj2
      have := hin j2 (List.mem_cons_of_mem _ hj2)
      rw [hfr.2.2.2.2.2.2.2.2.1, hfr.2.2.2.2.2.2.2.2.2]
      exact this
    rw [List.foldl_cons, rx_ingest_fold_slot js _ hnd2.2 hin2 i, hfr.2.2.2.2.2.2.2.2.2]
    rw [rx_ingest_step_eq s j c x hc hx]
    simp only
    rw [at?_put _ _ _ _ hj0]
    by_cases hij : i = j
    · subst hij
      simp [hj1, hx, hc, hnd2.1]
    · simp [hij]

theorem rx_ingest_fold_trace : ∀ (js : List Int) (s : RxState),
    ∃ t, (js.foldl rx_ingest_step s).trace = s.trace ++ t ∧ ∀ e ∈ t, e.is_buf_dma = true
  | [], s => ⟨[], by simp⟩
  | j :: js, s => by
    obtain ⟨t, ht, hdma⟩ := rx_ingest_fold_trace js (rx_ingest_step s j)
    have : ∃ t0, (rx_ingest_step s j).trace = s.trace ++ t0 ∧ ∀ e ∈ t0, e.is_buf_dma = true := by
      unfold rx_ingest_step
      split
      · refine ⟨[Event.bus_dmamap_sync_buf j], rfl, ?_⟩
        intro e he
        simp at he
        subst he
        rfl
      · exact ⟨[], by simp⟩
    obtain ⟨t0, ht0, hdma0⟩ := this
    refine ⟨t0 ++ t, ?_, ?_⟩
    · rw [List.foldl_cons, ht, ht0, List.append_assoc]
    · intro e he
      rcases List.mem_append.mp he with h | h
      · exact hdma0 e h
      · exact hdma e h

theorem ring_next_add (lim j : Int) (t : Nat) :
    (ring_next lim j + (t : Int)) % (lim + 1) = (j + ((t + 1 : Nat) : Int)) % (lim + 1) := by
  unfold ring_next
  split
  · rename_i h
    have : j + ((t + 1 : Nat) : Int) = (t : Int) + (lim + 1) := by push_cast; omega
    rw [this, Int.add_emod_self]; simp
  · congr 1; push_cast; omega

/-- The ingest loop on a run of `m` done descriptors from `j` followed by one
that is not done: the body runs on exactly that run, `m + 1` descriptors are
examined, and the loop leaves with `n` raised by `m`. -/
theorem rx_ingest_loop_run (env : Env) (lim : Int) :
    ∀ (m fuel : Nat) (j n : Int) (s : RxState),
    0 ≤ j → j ≤ lim → (s.slot.length : Int) = lim + 1 → (s.rx_base.length : Int) = lim + 1 →
    (∀ t : Nat, t < m → rx_desc_done env s.rx_base ((j + (t : Int)) % (lim + 1))) →
    ¬ rx_desc_done env s.rx_base ((j + (m : Int)) % (lim + 1)) →
    (m < fuel → rx_ingest_loop env lim fuel j n s =
      Outcome.ok ((span lim j m).foldl rx_ingest_step s, (j + (m : Int)) % (lim + 1), n + m)) ∧
    (fuel ≤ m → rx_ingest_loop env lim fuel j n s = Outcome.out_of_fuel)
  | m, 0, j, n, s, _, _, _, _, _, _ => by
    constructor
    · intro h; omega
    · intro _; rfl
  | 0, fuel + 1, j, n, s, h0, h1, hs, hb, _, hnot => by
    have hjj : (j + ((0 : Nat) : Int)) % (lim + 1) = j := by
      simp; exact Int.emod_eq_of_lt h0 (by omega)
    rw [hjj] at hnot ⊢
    obtain ⟨c, hc⟩ := at?_of_bounds s.rx_base h0 (by omega)
    have hnd : c.status &&& env.E1000_RXD_STAT_DD = 0 := by
      by_contra hcon
      exact hnot ⟨c, hc, hcon⟩
    constructor
    · intro _
      unfold rx_ingest_loop
      simp [hc, hnd, span]
    · intro h; omega
  | m + 1, fuel + 1, j, n, s, h0, h1, hs, hb, hdone, hnot => by
    have hjj : (j + ((0 : Nat) : Int)) % (lim + 1) = j := by
      simp; exact Int.emod_eq_of_lt h0 (by omega)
    obtain ⟨c, hc⟩ := at?_of_bounds s.rx_base h0 (by omega)
    obtain ⟨x, hx⟩ := at?_of_bounds s.slot h0 (by omega)
    have hd0 := hdone 0 (by omega)
    rw [hjj] at hd0
    obtain ⟨c2, hc2, hdd⟩ := hd0
    have hcc : c2 = c := by
      have : at? s.rx_base j = some c2 := hc2
      rw [hc] at this
      exact (Option.some.inj this).symm
    subst hcc
    have hn := ring_next_bounds lim j h0 h1
    have ih := rx_ingest_loop_run env lim m fuel (ring_next lim j) (n + 1)
      { s with
        slot := put s.slot j { x with len := c2.length }
        trace := s.trace ++ [Event.bus_dmamap_sync_buf j] }
      hn.1 hn.2 (by simp [length_put, hs]) hb
      (by
        intro t ht
        rw [ring_next_add lim j t]
        exact hdone (t + 1) (by omega))
      (by
        rw [ring_next_add lim j m]
        exact hnot)
    have hstep : rx_ingest_loop env lim (fuel + 1) j n s =
        rx_ingest_loop env lim fuel (ring_next lim j) (n + 1)
          { s with
            slot := put s.slot j { x with len := c2.length }
            trace := s.trace ++ [Event.bus_dmamap_sync_buf j] } := by
      conv => lhs; unfold rx_ingest_loop
      simp [hc, hx, hdd]
    rw [hstep]
    constructor
    · intro hf
      rw [ih.1 (by omega), ring_next_add lim j m]
      simp only [span, List.foldl_cons, rx_ingest_step_eq s j c2 x hc hx]
      congr 2
      · congr 1
        push_cast
        omega
    · intro hf
      exact ih.2 (by omega)

/-- On a ring in which some descriptor is not done, the run of done
descriptors from `c` ends within the ring. -/
theorem done_run_exists (env : Env) (rx_base : List e1000_rx_desc) (N c : Int)
    (hc : 0 ≤ c ∧ c ≤ N - 1)
    (hnot : ∃ i, 0 ≤ i ∧ i < N ∧ ¬ rx_desc_done env rx_base i) :
    ∃ n : Nat, (n : Int) < N ∧
      (∀ t : Nat, t < n → rx_desc_done env rx_base ((c + (t : Int)) % N)) ∧
      ¬ rx_desc_done env rx_base ((c + (n : Int)) % N) := by
  classical
  obtain ⟨i, hi0, hi1, hi⟩ := hnot
  have hex : ∃ t : Nat, ¬ rx_desc_done env rx_base ((c + (t : Int)) % N) := by
    refine ⟨((i - c) % N).toNat, ?_⟩
    have hd := ring_dist N c i hc.1 (by omega) hi0 hi1
    have hnn : 0 ≤ (i - c) % N := by rw [hd]; split <;> omega
    have hlt : (i - c) % N < N := by rw [hd]; split <;> omega
    have e : (((i - c) % N).toNat : Int) = (i - c) % N := by omega
    rw [e, ring_add N c _ hc.1 (by omega) hnn hlt, hd]
    have : (if c + (if c ≤ i then i - c else i - c + N) < N
        then c + (if c ≤ i then i - c else i - c + N)
        else c + (if c ≤ i then i - c else i - c + N) - N) = i := by
      split_ifs <;> omega
    rw [this]
    exact hi
  refine ⟨Nat.find hex, ?_, ?_, Nat.find_spec hex⟩
  · have hd := ring_dist N c i hc.1 (by omega) hi0 hi1
    have hlt : (i - c) % N < N := by rw [hd]; split <;> omega
    have hnn : 0 ≤ (i - c) % N := by rw [hd]; split <;> omega
    have hle : Nat.find hex ≤ ((i - c) % N).toNat := by
      apply Nat.find_min'
      have e : (((i - c) % N).toNat : Int) = (i - c) % N := by omega
      rw [e, ring_add N c _ hc.1 (by omega) hnn hlt, hd]
      have : (if c + (if c ≤ i then i - c else i - c + N) < N
          then c + (if c ≤ i then i - c else i - c + N)
          else c + (if c ≤ i then i - c else i - c + N) - N) = i := by
        split_ifs <;> omega
      rw [this]
      exact hi
    omega
  · intro t ht
    by_contra hcon
    exact Nat.find_min hex ht hcon

/-- The ingest phase in closed form, for a run of `n` done descriptors from
`next_to_check` followed by one that is not done. -/
theorem rx_ingest_ok (env : Env) (fuel : Nat) (s : RxState) (n : Nat)
    (hslots : (s.slot.length : Int) = s.nkr_num_slots)
    (hdescs : (s.rx_base.length : Int) = s.nkr_num_slots)
    (hc : 0 ≤ s.next_to_check ∧ s.next_to_check ≤ s.nkr_num_slots - 1)
    (hdone : ∀ t : Nat, t < n →
      rx_desc_done env s.rx_base ((s.next_to_check + (t : Int)) % s.nkr_num_slots))
    (hnot : ¬ rx_desc_done env s.rx_base ((s.next_to_check + (n : Int)) % s.nkr_num_slots)) :
    (n < fuel → rx_ingest env fuel s = Outcome.ok
      { (span (s.nkr_num_slots - 1) s.next_to_check n).foldl rx_ingest_step s with
        next_to_check := (s.next_to_check + (n : Int)) % s.nkr_num_slots
        nr_hwavail := s.nr_hwavail + n }) ∧
    (fuel ≤ n → rx_ingest env fuel s = Outcome.out_of_fuel) := by
  have hN1 : s.nkr_num_slots - 1 + 1 = s.nkr_num_slots := by omega
  have hloop := rx_ingest_loop_run env (s.nkr_num_slots - 1) n fuel s.next_to_check 0 s
    hc.1 hc.2 (by omega) (by omega) (by rw [hN1]; exact hdone) (by rw [hN1]; exact hnot)
  rw [hN1] at hloop
  constructor
  · intro hf
    unfold rx_ingest
    rw [hloop.1 hf]
    have hfr := rx_ingest_fold_frame (span (s.nkr_num_slots - 1) s.next_to_check n) s
    by_cases hn : n = 0
    · subst hn
      have : s.next_to_check % s.nkr_num_slots = s.next_to_check :=
        Int.emod_eq_of_lt hc.1 (by omega)
      simp [span, this]
    · have : ¬ ((n : Int) = 0) := by omega
      simp only [ne_eq, hfr.2.2.2.1, zero_add]
      rw [if_pos this]
  · intro hf
    unfold rx_ingest
    rw [hloop.2 hf]

/-- C7. On a receive ring of `N` slots in which some descriptor is not done,
the ingest phase (given fuel for `n + 1` descriptors) processes exactly the
maximal run of `n` done descriptors from `c = next_to_check`, i.e. those at
`c, ..., c+n-1` (wrapping at `N`) with the one at `c+n` not done: each slot of
the run takes the length its descriptor reports, nothing else in any slot
changes, `next_to_check` becomes `(c + n) mod N` and `nr_hwavail` rises by
`n`; with `n = 0` the state is unchanged. -/
theorem rx_ingest_maximal_run (env : Env) (s : RxState) (N : Int)
    (hN : s.nkr_num_slots = N)
    (hslots : (s.slot.length : Int) = N) (hdescs : (s.rx_base.length : Int) = N)
    (hc : 0 ≤ s.next_to_check ∧ s.next_to_check ≤ N - 1)
    (hnot : ∃ i, 0 ≤ i ∧ i < N ∧ ¬ rx_desc_done env s.rx_base i) :
    ∃ n : Nat, (n : Int) < N ∧
      (∀ t : Nat, t < n → rx_desc_done env s.rx_base ((s.next_to_check + (t : Int)) % N)) ∧
      ¬ rx_desc_done env s.rx_base ((s.next_to_check + (n : Int)) % N) ∧
      span (N - 1) s.next_to_check n
        = (List.range n).map (fun t : Nat => (s.next_to_check + (t : Int)) % N) ∧
      ∀ fuel : Nat, n < fuel → ∃ s', rx_ingest env fuel s = Outcome.ok s' ∧
        (∀ i, at? s'.slot i =
          if i ∈ span (N - 1) s.next_to_check n then
            (at? s.slot i).bind
              (fun x => (at? s.rx_base i).map (fun d => { x with len := d.length }))
          else at? s.slot i) ∧
        s'.next_to_check = (s.next_to_check + (n : Int)) % N ∧
        s'.nr_hwavail = s.nr_hwavail + n ∧
        s'.rx_base = s.rx_base ∧ s'.nr_hwcur = s.nr_hwcur ∧ s'.cur = s.cur ∧
        s'.avail = s.avail ∧ s'.nr_kflags = s.nr_kflags ∧ s'.nkr_num_slots = N ∧
        (n = 0 → s' = s) := by
  subst hN
  have hN1 : s.nkr_num_slots - 1 + 1 = s.nkr_num_slots := by omega
  obtain ⟨n, hnN, hdone, hnd⟩ := done_run_exists env s.rx_base s.nkr_num_slots s.next_to_check
    hc hnot
  have hspan : span (s.nkr_num_slots - 1) s.next_to_check n
      = (List.range n).map (fun t : Nat => (s.next_to_check + (t : Int)) % s.nkr_num_slots) := by
    rw [span_eq_map _ _ _ hc.1 hc.2, hN1]
  refine ⟨n, hnN, hdone, hnd, hspan, ?_⟩
  intro fuel hf
  have hok := (rx_ingest_ok env fuel s n hslots hdescs hc hdone hnd).1 hf
  have hfr := rx_ingest_fold_frame (span (s.nkr_num_slots - 1) s.next_to_check n) s
  have hslot := rx_ingest_fold_slot (span (s.nkr_num_slots - 1) s.next_to_check n) s
    (span_nodup _ _ _ hc.1 hc.2 (by omega))
    (by
      intro j hj
      have := span_mem_bounds _ _ _ hc.1 hc.2 j hj
      omega)
  refine ⟨_, hok, hslot, rfl, rfl, hfr.2.2.2.2.2.2.2.2.2, hfr.2.2.1, hfr.2.2.2.2.1,
    hfr.2.2.2.2.2.1, hfr.2.1, hfr.1, ?_⟩
  intro h0
  subst h0
  have : s.next_to_check % s.nkr_num_slots = s.next_to_check :=
    Int.emod_eq_of_lt hc.1 (by omega)
  simp [span, this]

/-- C7 at the ring `rx4`, whose descriptors 2 and 3 are not done. -/
theorem rx_ingest_maximal_run_witness :
    ∃ n : Nat, (n : Int) < 4 ∧
      (∀ t : Nat, t < n → rx_desc_done env0 rx4.rx_base ((rx4.next_to_check + (t : Int)) % 4)) ∧
      ¬ rx_desc_done env0 rx4.rx_base ((rx4.next_to_check + (n : Int)) % 4) ∧
      span (4 - 1) rx4.next_to_check n
        = (List.range n).map (fun t : Nat => (rx4.next_to_check + (t : Int)) % 4) ∧
      ∀ fuel : Nat, n < fuel → ∃ s', rx_ingest env0 fuel rx4 = Outcome.ok s' ∧
        (∀ i, at? s'.slot i =
          if i ∈ span (4 - 1) rx4.next_to_check n then
            (at? rx4.slot i).bind
              (fun x => (at? rx4.rx_base i).map (fun d => { x with len := d.length }))
          else at? rx4.slot i) ∧
        s'.next_to_check = (rx4.next_to_check + (n : Int)) % 4 ∧
        s'.nr_hwavail = rx4.nr_hwavail + n ∧
        s'.rx_base = rx4.rx_base ∧ s'.nr_hwcur = rx4.nr_hwcur ∧ s'.cur = rx4.cur ∧
        s'.avail = rx4.avail ∧ s'.nr_kflags = rx4.nr_kflags ∧ s'.nkr_num_slots = 4 ∧
        (n = 0 → s' = rx4) :=
  rx_ingest_maximal_run env0 rx4 4 rfl rfl rfl (by decide) ⟨2, by decide, by decide, by decide⟩

/-! ## Receive: termination of the ingest scan -/

/-- On a ring all of whose descriptors are done the ingest loop never leaves. -/
theorem rx_ingest_loop_all_done (env : Env) (lim : Int) :
    ∀ (fuel : Nat) (j n : Int) (s : RxState),
    0 ≤ j → j ≤ lim → (s.slot.length : Int) = lim + 1 → (s.rx_base.length : Int) = lim + 1 →
    (∀ i, 0 ≤ i → i ≤ lim → rx_desc_done env s.rx_base i) →
    rx_ingest_loop env lim fuel j n s = Outcome.out_of_fuel
  | 0, _, _, _, _, _, _, _, _ => rfl
  | fuel + 1, j, n, s, h0, h1, hs, hb, hall => by
    obtain ⟨c, hc, hdd⟩ := hall j h0 h1
    have hc2 : at? s.rx_base j = some c := hc
    obtain ⟨x, hx⟩ := at?_of_bounds s.slot h0 (by omega)
    have hn := ring_next_bounds lim j h0 h1
    unfold rx_ingest_loop
    simp only [hc2, hx, hdd, if_false]
    exact rx_ingest_loop_all_done env lim fuel _ _ _ hn.1 hn.2 (by simp [length_put, hs]) hb hall

/-- C8, as stated, fails: on the ring of capacity 4 with all 4 descriptors
done the ingest scan is still running after any number of descriptors
examined. -/
theorem rx_ingest_all_done_diverges :
    (∀ i, 0 ≤ i → i ≤ 3 → rx_desc_done env0 rx4_all_done.rx_base i) ∧
    ∀ fuel : Nat, rx_ingest env0 fuel rx4_all_done = Outcome.out_of_fuel := by
  have hall : ∀ i, 0 ≤ i → i ≤ 3 → rx_desc_done env0 rx4_all_done.rx_base i := by
    intro i h0 h1
    have : i = 0 ∨ i = 1 ∨ i = 2 ∨ i = 3 := by omega
    rcases this with rfl | rfl | rfl | rfl <;> decide
  refine ⟨hall, ?_⟩
  intro fuel
  unfold rx_ingest
  have hlim : rx4_all_done.nkr_num_slots - 1 = 3 := by decide
  rw [hlim, rx_ingest_loop_all_done env0 3 fuel _ _ rx4_all_done
    (by decide) (by decide) (by decide) (by decide) hall]

/-- C8, amended. On a receive ring of capacity `N` in which at least one
descriptor is not done, the ingest scan terminates having examined exactly
`n + 1 ≤ N` descriptors and ingested `n ≤ N - 1` of them: it returns with any
fuel above `n`, in particular with fuel `N`, and with no less. -/
theorem rx_ingest_bounded (env : Env) (s : RxState) (N : Int)
    (hN : s.nkr_num_slots = N)
    (hslots : (s.slot.length : Int) = N) (hdescs : (s.rx_base.length : Int) = N)
    (hc : 0 ≤ s.next_to_check ∧ s.next_to_check ≤ N - 1)
    (hnot : ∃ i, 0 ≤ i ∧ i < N ∧ ¬ rx_desc_done env s.rx_base i) :
    ∃ (n : Nat) (s' : RxState), (n : Int) + 1 ≤ N ∧
      (∀ fuel : Nat, n < fuel → rx_ingest env fuel s = Outcome.ok s') ∧
      (∀ fuel : Nat, fuel ≤ n → rx_ingest env fuel s = Outcome.out_of_fuel) ∧
      rx_ingest env N.toNat s = Outcome.ok s' ∧
      s'.nr_hwavail = s.nr_hwavail + n := by
  subst hN
  obtain ⟨n, hnN, hdone, hnd⟩ := done_run_exists env s.rx_base s.nkr_num_slots s.next_to_check
    hc hnot
  have hok := fun fuel => rx_ingest_ok env fuel s n hslots hdescs hc hdone hnd
  exact ⟨n, _, by omega, fun fuel hf => (hok fuel).1 hf, fun fuel hf => (hok fuel).2 hf,
    (hok _).1 (by omega), rfl⟩

/-- C8 amended, at the ring `rx4`, whose descriptors 2 and 3 are not done. -/
theorem rx_ingest_bounded_witness :
    ∃ (n : Nat) (s' : RxState), (n : Int) + 1 ≤ 4 ∧
      (∀ fuel : Nat, n < fuel → rx_ingest env0 fuel rx4 = Outcome.ok s') ∧
      (∀ fuel : Nat, fuel ≤ n → rx_ingest env0 fuel rx4 = Outcome.out_of_fuel) ∧
      rx_ingest env0 (4 : Int).toNat rx4 = Outcome.ok s' ∧
      s'.nr_hwavail = rx4.nr_hwavail + n :=
  rx_ingest_bounded env0 rx4 4 rfl rfl rfl (by decide) ⟨2, by decide, by decide, by decide⟩

/-! ## The recycle loop as a fold of its body -/

theorem rx_step_eq (env : Env) (s : RxState) (j : Int) (x : netmap_slot)
    (c : e1000_rx_desc) (hx : at? s.slot j = some x) (hc : at? s.rx_base j = some c) :
    rx_step env s j = rx_body env j x c s := by
  simp [rx_step, hx, hc]

theorem rx_step_frame (env : Env) (s : RxState) (j : Int) :
    (rx_step env s j).nkr_num_slots = s.nkr_num_slots ∧
    (rx_step env s j).nr_kflags = s.nr_kflags ∧
    (rx_step env s j).nr_hwcur = s.nr_hwcur ∧
    (rx_step env s j).nr_hwavail = s.nr_hwavail ∧
    (rx_step env s j).cur = s.cur ∧
    (rx_step env s j).avail = s.avail ∧
    (rx_step env s j).me = s.me ∧
    (rx_step env s j).next_to_check = s.next_to_check ∧
    (rx_step env s j).slot.length = s.slot.length ∧
    (rx_step env s j).rx_base.length = s.rx_base.length := by
  unfold rx_step
  split <;> simp [rx_body, length_put]

theorem rx_fold_frame (env : Env) : ∀ (js : List Int) (s : RxState),
    (js.foldl (rx_step env) s).nkr_num_slots = s.nkr_num_slots ∧
    (js.foldl (rx_step env) s).nr_kflags = s.nr_kflags ∧
    (js.foldl (rx_step env) s).nr_hwcur = s.nr_hwcur ∧
    (js.foldl (rx_step env) s).nr_hwavail = s.nr_hwavail ∧
    (js.foldl (rx_step env) s).cur = s.cur ∧
    (js.foldl (rx_step env) s).avail = s.avail ∧
    (js.foldl (rx_step env) s).me = s.me ∧
    (js.foldl (rx_step env) s).next_to_check = s.next_to_check ∧
    (js.foldl (rx_step env) s).slot.length = s.slot.length ∧
    (js.foldl (rx_step env) s).rx_base.length = s.rx_base.length
  | [], s => by simp
  | j :: js, s => by
    obtain ⟨a1, a2, a3, a4, a5, a6, a7, a8, a9, a10⟩ := rx_fold_frame env js (rx_step env s j)
    obtain ⟨b1, b2, b3, b4, b5, b6, b7, b8, b9, b10⟩ := rx_step_frame env s j
    simp only [List.foldl_cons]
    exact ⟨a1.trans b1, a2.trans b2, a3.trans b3, a4.trans b4, a5.trans b5, a6.trans b6,
      a7.trans b7, a8.trans b8, a9.trans b9, a10.trans b10⟩

theorem rx_fold_slot (env : Env) : ∀ (js : List Int) (s : RxState),
    js.Nodup → (∀ j ∈ js, 0 ≤ j ∧ j < s.slot.length ∧ j < s.rx_base.length) →
    ∀ i, at? (js.foldl (rx_step env) s).slot i =
      (at? s.slot i).map (fun x => if i ∈ js then rx_slot_after env x else x)
  | [], s, _, _, i => by simp
  | j :: js, s, hnd, hin, i => by
    obtain ⟨hj0, hj1, hj2⟩ := hin j (List.mem_cons_self _ _)
    obtain ⟨x, hx⟩ := at?_of_bounds _ hj0 hj1
    obtain ⟨c, hc⟩ := at?_of_bounds _ hj0 hj2
    have hnd2 := List.nodup_cons.mp hnd
    have hfr := rx_step_frame env s j
    have hin2 : ∀ j2 ∈ js, 0 ≤ j2 ∧ j2 < (rx_step env s j).slot.length ∧
        j2 < (rx_step env s j).rx_base.length := by
      intro j2 hj2
      have := hin j2 (List.mem_cons_of_mem _ hj2)
      rw [hfr.2.2.2.2.2.2.2.2.1, hfr.2.2.2.2.2.2.2.2.2]
      exact this
    rw [List.foldl_cons, rx_fold_slot env js _ hnd2.2 hin2 i]
    rw [rx_step_eq env s j x c hx hc]
    simp only [rx_body]
    rw [at?_put _ _ _ _ hj0]
    by_cases hij : i = j
    · subst hij
      simp [hj1, hx, hnd2.1]
    · simp [hij]

theorem rx_fold_desc (env : Env) : ∀ (js : List Int) (s : RxState),
    js.Nodup → (∀ j ∈ js, 0 ≤ j ∧ j < s.slot.length ∧ j < s.rx_base.length) →
    ∀ i, at? (js.foldl (rx_step env) s).rx_base i =
      if i ∈ js then
        (at? s.slot i).bind (fun x => (at? s.rx_base i).map (rx_desc_after env x))
      else at? s.rx_base i
  | [], s, _, _, i => by simp
  | j :: js, s, hnd, hin, i => by
    obtain ⟨hj0, hj1, hj2⟩ := hin j (List.mem_cons_self _ _)
    obtain ⟨x, hx⟩ := at?_of_bounds _ hj0 hj1
    obtain ⟨c, hc⟩ := at?_of_bounds _ hj0 hj2
    have hnd2 := List.nodup_cons.mp hnd
    have hfr := rx_step_frame env s j
    have hin2 : ∀ j2 ∈ js, 0 ≤ j2 ∧ j2 < (rx_step env s j).slot.length ∧
        j2 < (rx_step env s j).rx_base.length := by
      intro j2 hj2
      have := hin j2 (List.mem_cons_of_mem _ hj2)
      rw [hfr.2.2.2.2.2.2.2.2.1, hfr.2.2.2.2.2.2.2.2.2]
      exact this
    rw [List.foldl_cons, rx_fold_desc env js _ hnd2.2 hin2 i]
    rw [rx_step_eq env s j x c hx hc]
    simp only [rx_body]
    rw [at?_put _ _ _ _ hj0, at?_put _ _ _ _ hj0]
    by_cases hij : i = j
    · subst hij
      simp [hj2, hx, hc, hnd2.1]
    · simp [hij]

theorem rx_fold_trace (env : Env) : ∀ (js : List Int) (s : RxState),
    ∃ t, (js.foldl (rx_step env) s).trace = s.trace ++ t ∧ ∀ e ∈ t, e.is_buf_dma = true
  | [], s => ⟨[], by simp⟩
  | j :: js, s => by
    obtain ⟨t, ht, hdma⟩ := rx_fold_trace env js (rx_step env s j)
    have : ∃ t0, (rx_step env s j).trace = s.trace ++ t0 ∧ ∀ e ∈ t0, e.is_buf_dma = true := by
      unfold rx_step
      split
      · refine ⟨rx_slot_events env j _, rfl, ?_⟩
        intro e he
        unfold rx_slot_events at he
        split at he <;> simp at he <;> rcases he with rfl | rfl <;> rfl
      · exact ⟨[], by simp⟩
    obtain ⟨t0, ht0, hdma0⟩ := this
    refine ⟨t0 ++ t, ?_, ?_⟩
    · rw [List.foldl_cons, ht, ht0, List.append_assoc]
    · intro e he
      rcases List.mem_append.mp he with h | h
      · exact hdma0 e h
      · exact hdma e h

theorem rx_slot_after_fields (env : Env) (x : netmap_slot) :
    (rx_slot_after env x).buf_idx = x.buf_idx ∧ (rx_slot_after env x).len = x.len := by
  unfold rx_slot_after
  split <;> simp

theorem rx_slot_after_bad (env : Env) (x : netmap_slot) :
    rx_slot_bad env (rx_slot_after env x) ↔ rx_slot_bad env x := by
  unfold rx_slot_bad
  rw [(rx_slot_after_fields env x).1]

theorem rx_body_slot_bad (env : Env) (j : Int) (x : netmap_slot) (c : e1000_rx_desc)
    (s : RxState) (hx : at? s.slot j = some x) (i : Int) (y : netmap_slot)
    (hy : at? (rx_body env j x c s).slot i = some y) :
    ∃ z, at? s.slot i = some z ∧ (rx_slot_bad env y ↔ rx_slot_bad env z) := by
  have hj := at?_bounds hx
  simp only [rx_body] at hy
  rw [at?_put _ _ _ _ hj.1] at hy
  by_cases hij : i = j
  · subst hij
    simp [hj.2] at hy
    subst hy
    exact ⟨x, hx, rx_slot_after_bad env x⟩
  · simp [hij] at hy
    exact ⟨y, hy, Iff.rfl⟩

/-- With every slot of the span passing the test, the recycle loop runs its
body on exactly the span and returns the counter raised by its length. -/
theorem rx_recycle_ok (env : Env) (lim k : Int) (do_lock : Bool) :
    ∀ (d fuel : Nat) (j n : Int) (s : RxState),
    0 ≤ j → j ≤ lim → 0 ≤ k → k ≤ lim → (k - j) % (lim + 1) = d → d ≤ fuel →
    (s.slot.length : Int) = lim + 1 → (s.rx_base.length : Int) = lim + 1 →
    (∀ i ∈ span lim j d, ∀ x, at? s.slot i = some x → ¬ rx_slot_bad env x) →
    rx_recycle env lim k do_lock fuel j n s =
      Outcome.ok ((span lim j d).foldl (rx_step env) s, n + d)
  | 0, fuel, j, n, s, h0, h1, hk0, hk1, hd, _, _, _, _ => by
    have hjk : j = k := ring_dist_zero lim j k h0 h1 hk0 hk1 (by simpa using hd)
    unfold rx_recycle
    simp [hjk, span]
  | d + 1, 0, j, n, s, _, _, _, _, _, hf, _, _, _ => by omega
  | d + 1, fuel + 1, j, n, s, h0, h1, hk0, hk1, hd, hf, hs, hb, hv => by
    have hjk : j ≠ k := by
      intro h; subst h; simp at hd; omega
    have hn := ring_next_bounds lim j h0 h1
    have hd2 : (k - ring_next lim j) % (lim + 1) = d := by
      have := ring_next_dist lim j k h0 h1 hk0 hk1 hjk
      push_cast at hd; omega
    obtain ⟨x, hx⟩ := at?_of_bounds s.slot h0 (by omega)
    obtain ⟨c, hc⟩ := at?_of_bounds s.rx_base h0 (by omega)
    have hgood : ¬ rx_slot_bad env x := hv j (by simp [span]) x hx
    have hv2 : ∀ i ∈ span lim (ring_next lim j) d, ∀ y,
        at? (rx_body env j x c s).slot i = some y → ¬ rx_slot_bad env y := by
      intro i hi y hy
      obtain ⟨z, hz, hiff⟩ := rx_body_slot_bad env j x c s hx i y hy
      rw [hiff]
      exact hv i (by simp [span, hi]) z hz
    have ih := rx_recycle_ok env lim k do_lock d fuel (ring_next lim j) (n + 1)
      (rx_body env j x c s) hn.1 hn.2 hk0 hk1 hd2 (by omega)
      (by simp [rx_body, length_put, hs]) (by simp [rx_body, length_put, hb]) hv2
    unfold rx_recycle
    simp only [if_neg hjk, hx, hc, if_neg hgood]
    rw [ih]
    simp only [span, List.foldl_cons, rx_step_eq env s j x c hx hc]
    congr 2
    push_cast
    omega

/-- With the first `p` slots of the span passing the test and the next one
failing it, the recycle loop runs its body on exactly those `p` slots,
unlocks, and leaves through `netmap_ring_reinit`. -/
theorem rx_recycle_bad (env : Env) (lim k : Int) (do_lock : Bool) :
    ∀ (p fuel : Nat) (j n : Int) (s : RxState),
    0 ≤ j → j ≤ lim → 0 ≤ k → k ≤ lim → (p : Int) < (k - j) % (lim + 1) → p < fuel →
    (s.slot.length : Int) = lim + 1 → (s.rx_base.length : Int) = lim + 1 →
    (∀ i ∈ span lim j p, ∀ x, at? s.slot i = some x → ¬ rx_slot_bad env x) →
    (∀ x, at? s.slot ((j + p) % (lim + 1)) = some x → rx_slot_bad env x) →
    rx_recycle env lim k do_lock fuel j n s =
      Outcome.ring_reinit
        ({ (span lim j p).foldl (rx_step env) s with
            trace := ((span lim j p).foldl (rx_step env) s).trace
              ++ (if do_lock then [Event.EM_RX_UNLOCK] else []) }, n + p)
  | p, 0, j, n, s, _, _, _, _, _, hf, _, _, _, _ => by omega
  | 0, fuel + 1, j, n, s, h0, h1, hk0, hk1, hd, _, hs, hb, _, hbad => by
    have hjk : j ≠ k := by
      intro h; subst h; simp at hd
    obtain ⟨x, hx⟩ := at?_of_bounds s.slot h0 (by omega)
    obtain ⟨c, hc⟩ := at?_of_bounds s.rx_base h0 (by omega)
    have hjj : (j + ((0 : Nat) : Int)) % (lim + 1) = j := by
      simp; exact Int.emod_eq_of_lt h0 (by omega)
    rw [hjj] at hbad
    have hb2 := hbad x hx
    unfold rx_recycle
    simp [if_neg hjk, hx, hc, if_pos hb2, span]
  | p + 1, fuel + 1, j, n, s, h0, h1, hk0, hk1, hd, hf, hs, hb, hv, hbad => by
    have hjk : j ≠ k := by
      intro h; subst h; simp at hd; omega
    have hn := ring_next_bounds lim j h0 h1
    have hd2 : (p : Int) < (k - ring_next lim j) % (lim + 1) := by
      have := ring_next_dist lim j k h0 h1 hk0 hk1 hjk
      push_cast at hd; omega
    obtain ⟨x, hx⟩ := at?_of_bounds s.slot h0 (by omega)
    obtain ⟨c, hc⟩ := at?_of_bounds s.rx_base h0 (by omega)
    have hgood : ¬ rx_slot_bad env x := hv j (by simp [span]) x hx
    have hv2 : ∀ i ∈ span lim (ring_next lim j) p, ∀ y,
        at? (rx_body env j x c s).slot i = some y → ¬ rx_slot_bad env y := by
      intro i hi y hy
      obtain ⟨z, hz, hiff⟩ := rx_body_slot_bad env j x c s hx i y hy
      rw [hiff]
      exact hv i (by simp [span, hi]) z hz
    have hbad2 : ∀ y, at? (rx_body env j x c s).slot
        ((ring_next lim j + (p : Int)) % (lim + 1)) = some y → rx_slot_bad env y := by
      intro y hy
      obtain ⟨z, hz, hiff⟩ := rx_body_slot_bad env j x c s hx _ y hy
      rw [hiff]
      rw [ring_next_add lim j p] at hz
      exact hbad z hz
    have ih := rx_recycle_bad env lim k do_lock p fuel (ring_next lim j) (n + 1)
      (rx_body env j x c s) hn.1 hn.2 hk0 hk1 hd2 (by omega)
      (by simp [rx_body, length_put, hs]) (by simp [rx_body, length_put, hb]) hv2 hbad2
    unfold rx_recycle
    simp only [if_neg hjk, hx, hc, if_neg hgood]
    rw [ih]
    simp only [span, List.foldl_cons, rx_step_eq env s j x c hx hc]
    congr 2
    push_cast
    omega

/-! ## Receive: recycle -/

theorem ring_prev_eq (lim k : Int) (h0 : 0 ≤ k) (h1 : k ≤ lim) :
    ring_prev lim k = (k - 1) % (lim + 1) := by
  unfold ring_prev
  split
  · rename_i h
    subst h
    have : ((0 : Int) - 1) % (lim + 1) = (0 - 1 + (lim + 1)) % (lim + 1) := by
      rw [Int.add_emod_self]
    have e : (0 : Int) - 1 + (lim + 1) = lim := by omega
    rw [this, e]
    exact (Int.emod_eq_of_lt (by omega) (by omega)).symm
  · exact (Int.emod_eq_of_lt (by omega) (by omega)).symm

/-- The recycle phase on a ring whose span passes the test: success, with the
loop body run on exactly the span. -/
theorem rx_recycle_phase_ok (env : Env) (fuel : Nat) (do_lock : Bool) (s : RxState)
    (hslots : (s.slot.length : Int) = s.nkr_num_slots)
    (hdescs : (s.rx_base.length : Int) = s.nkr_num_slots)
    (hh : 0 ≤ s.nr_hwcur ∧ s.nr_hwcur ≤ s.nkr_num_slots - 1)
    (hk : 0 ≤ s.cur ∧ s.cur ≤ s.nkr_num_slots - 1)
    (hvalid : rx_slots_ok env s.slot (rx_span s))
    (hfuel : pending s.nkr_num_slots s.nr_hwcur s.cur ≤ fuel) :
    rx_recycle_phase env fuel do_lock s =
      Outcome.ok { (rx_span s).foldl (rx_step env) s with
        nr_hwavail := s.nr_hwavail - pending s.nkr_num_slots s.nr_hwcur s.cur
        nr_hwcur := s.cur
        avail := s.nr_hwavail - pending s.nkr_num_slots s.nr_hwcur s.cur
        trace := ((rx_span s).foldl (rx_step env) s).trace
          ++ (if s.cur ≠ s.nr_hwcur
              then [Event.bus_dmamap_sync_ring,
                    Event.E1000_WRITE_REG_RDT s.me (ring_prev (s.nkr_num_slots - 1) s.cur)]
              else [])
          ++ (if do_lock then [Event.EM_RX_UNLOCK] else []) } := by
  have hN1 : s.nkr_num_slots - 1 + 1 = s.nkr_num_slots := by omega
  have hpend := ring_dist s.nkr_num_slots s.nr_hwcur s.cur hh.1 (by omega) hk.1 (by omega)
  have hp0 : 0 ≤ pending s.nkr_num_slots s.nr_hwcur s.cur := by
    unfold pending; rw [hpend]; split <;> omega
  unfold rx_recycle_phase
  by_cases hjk : s.nr_hwcur = s.cur
  · have hzero : pending s.nkr_num_slots s.nr_hwcur s.cur = 0 := by
      unfold pending; rw [hpend]; simp [hjk]
    have hsp : rx_span s = [] := by unfold rx_span; rw [hzero]; rfl
    rw [hsp, hzero]
    simp [hjk]
  · have hne : s.cur ≠ s.nr_hwcur := fun h => hjk h.symm
    have hloop := rx_recycle_ok env (s.nkr_num_slots - 1) s.cur do_lock
      (pending s.nkr_num_slots s.nr_hwcur s.cur).toNat fuel s.nr_hwcur 0 s
      hh.1 hh.2 hk.1 hk.2 (by rw [hN1]; unfold pending; omega) (by omega)
      (by omega) (by omega)
      (by intro i hi x hx; exact hvalid i hi x hx)
    have hfr := rx_fold_frame env (rx_span s) s
    simp only [ne_eq, hjk, not_false_eq_true, if_true, hloop]
    unfold rx_span at hfr ⊢
    simp only [hfr.2.2.2.1, hfr.2.2.2.2.1, hfr.2.2.2.2.2.2.1, zero_add]
    rw [if_pos hne]
    have : ((pending s.nkr_num_slots s.nr_hwcur s.cur).toNat : Int)
        = pending s.nkr_num_slots s.nr_hwcur s.cur := by omega
    rw [this]

/-- The recycle phase on a span whose slot at position `p` fails the test,
the `p` slots before it passing: the loop body runs on those `p` slots only
and the routine leaves through `netmap_ring_reinit`. -/
theorem rx_recycle_phase_bad (env : Env) (fuel : Nat) (do_lock : Bool) (s : RxState) (p : Nat)
    (hslots : (s.slot.length : Int) = s.nkr_num_slots)
    (hdescs : (s.rx_base.length : Int) = s.nkr_num_slots)
    (hh : 0 ≤ s.nr_hwcur ∧ s.nr_hwcur ≤ s.nkr_num_slots - 1)
    (hk : 0 ≤ s.cur ∧ s.cur ≤ s.nkr_num_slots - 1)
    (hp : (p : Int) < pending s.nkr_num_slots s.nr_hwcur s.cur)
    (hvalid : rx_slots_ok env s.slot (span (s.nkr_num_slots - 1) s.nr_hwcur p))
    (hbad : ∀ x ∈ at? s.slot ((s.nr_hwcur + (p : Int)) % s.nkr_num_slots), rx_slot_bad env x)
    (hfuel : p < fuel) :
    rx_recycle_phase env fuel do_lock s =
      Outcome.ring_reinit
        { (span (s.nkr_num_slots - 1) s.nr_hwcur p).foldl (rx_step env) s
          with trace := ((span (s.nkr_num_slots - 1) s.nr_hwcur p).foldl (rx_step env) s).trace
            ++ (if do_lock then [Event.EM_RX_UNLOCK] else []) } := by
  have hN1 : s.nkr_num_slots - 1 + 1 = s.nkr_num_slots := by omega
  have hjk : s.nr_hwcur ≠ s.cur := by
    intro h
    unfold pending at hp
    rw [h] at hp
    simp at hp
    omega
  have hloop := rx_recycle_bad env (s.nkr_num_slots - 1) s.cur do_lock
    p fuel s.nr_hwcur 0 s hh.1 hh.2 hk.1 hk.2 (by rw [hN1]; exact hp) hfuel
    (by omega) (by omega) (by intro i hi x hx; exact hvalid i hi x hx)
    (by rw [hN1]; intro x hx; exact hbad x hx)
  unfold rx_recycle_phase
  simp only [ne_eq, hjk, not_false_eq_true, if_true, hloop]

/-- The ingest phase changes no buffer handle and no flag of a slot. -/
theorem rx_ingest_fold_slot_fields (js : List Int) (s : RxState)
    (hnd : js.Nodup) (hin : ∀ j ∈ js, 0 ≤ j ∧ j < s.slot.length ∧ j < s.rx_base.length)
    (i : Int) (y : netmap_slot) (hy : at? (js.foldl rx_ingest_step s).slot i = some y) :
    ∃ x, at? s.slot i = some x ∧ y.buf_idx = x.buf_idx ∧ y.flags = x.flags := by
  rw [rx_ingest_fold_slot js s hnd hin i] at hy
  split at hy
  · cases hx : at? s.slot i with
    | none => simp [hx] at hy
    | some x =>
      cases hc : at? s.rx_base i with
      | none => simp [hx, hc] at hy
      | some c =>
        simp [hx, hc] at hy
        subst hy
        exact ⟨x, rfl, rfl, rfl⟩
  · exact ⟨y, hy, rfl, rfl⟩

theorem rx_desc_after_status (env : Env) (x : netmap_slot) (c : e1000_rx_desc) :
    (rx_desc_after env x c).status = 0 := by
  unfold rx_desc_after
  dsimp only
  split <;> rfl

/-- On a ring all of whose descriptors are done, `em_netmap_rxsync` past its
guard never returns. -/
theorem rxsync_all_done (env : Env) (fuel : Nat) (do_lock : Bool) (s : RxState)
    (hguard : ¬ (s.nr_kflags &&& env.NR_REINIT ≠ 0 ∨ s.cur > s.nkr_num_slots - 1))
    (hslots : (s.slot.length : Int) = s.nkr_num_slots)
    (hdescs : (s.rx_base.length : Int) = s.nkr_num_slots)
    (hc : 0 ≤ s.next_to_check ∧ s.next_to_check ≤ s.nkr_num_slots - 1)
    (hall : ∀ i, 0 ≤ i → i ≤ s.nkr_num_slots - 1 → rx_desc_done env s.rx_base i) :
    em_netmap_rxsync env fuel do_lock s = Outcome.out_of_fuel := by
  unfold em_netmap_rxsync
  simp only [if_neg hguard]
  unfold rx_ingest
  have := rx_ingest_loop_all_done env (s.nkr_num_slots - 1) fuel s.next_to_check 0
    (rx_enter do_lock s) hc.1 hc.2
    (by show (s.slot.length : Int) = _; omega) (by show (s.rx_base.length : Int) = _; omega) hall
  have e1 : (rx_enter do_lock s).nkr_num_slots = s.nkr_num_slots := rfl
  have e2 : (rx_enter do_lock s).next_to_check = s.next_to_check := rfl
  rw [e1, e2, this]

/-- The state after the ingest phase of a call on a ring in which some
descriptor is not done, with what the recycle phase needs to know of it. -/
theorem rx_ingest_enter (env : Env) (do_lock : Bool) (s : RxState) (fuel : Nat)
    (hslots : (s.slot.length : Int) = s.nkr_num_slots)
    (hdescs : (s.rx_base.length : Int) = s.nkr_num_slots)
    (hc : 0 ≤ s.next_to_check ∧ s.next_to_check ≤ s.nkr_num_slots - 1)
    (hnot : ∃ i, 0 ≤ i ∧ i < s.nkr_num_slots ∧ ¬ rx_desc_done env s.rx_base i)
    (hfuel : s.nkr_num_slots ≤ fuel) :
    ∃ s1, rx_ingest env fuel (rx_enter do_lock s) = Outcome.ok s1 ∧
      s1.nkr_num_slots = s.nkr_num_slots ∧ s1.nr_hwcur = s.nr_hwcur ∧ s1.cur = s.cur ∧
      s1.me = s.me ∧ s1.rx_base = s.rx_base ∧ s1.slot.length = s.slot.length ∧
      (∀ i y, at? s1.slot i = some y →
        ∃ x, at? s.slot i = some x ∧ y.buf_idx = x.buf_idx ∧ y.flags = x.flags) := by
  obtain ⟨n, hnN, hdone, hnd⟩ := done_run_exists env s.rx_base s.nkr_num_slots s.next_to_check
    hc hnot
  have hok := (rx_ingest_ok env fuel (rx_enter do_lock s) n hslots hdescs hc hdone hnd).1
    (by omega)
  have hfr := rx_ingest_fold_frame (span (s.nkr_num_slots - 1) s.next_to_check n)
    (rx_enter do_lock s)
  refine ⟨_, hok, hfr.1, hfr.2.2.1, hfr.2.2.2.2.1, hfr.2.2.2.2.2.2.1, hfr.2.2.2.2.2.2.2.2.2,
    hfr.2.2.2.2.2.2.2.2.1, ?_⟩
  intro i y hy
  exact rx_ingest_fold_slot_fields (span (s.nkr_num_slots - 1) s.next_to_check n)
    (rx_enter do_lock s) (span_nodup _ _ _ hc.1 hc.2 (by omega))
    (by
      intro j hj
      have := span_mem_bounds _ _ _ hc.1 hc.2 j hj
      have e1 : (rx_enter do_lock s).slot = s.slot := rfl
      have e2 : (rx_enter do_lock s).rx_base = s.rx_base := rfl
      rw [e1, e2]
      omega) i y hy

/-- C6, amended. On a receive ring of `N` slots with no reinit flag, cursors
`h = nr_hwcur`, `k = cur` and `next_to_check` in `[0, N-1]`, `k ≠ h`, at least
one descriptor not done and every slot of the span with a mapped buffer,
`em_netmap_rxsync` returns success (given fuel `N`): the status of exactly
the `n = (k - h) mod N` descriptors at `h, ..., k-1` (wrapping at `N`) is set to
0, `nr_hwavail` and the returned `avail` are the count after ingest minus
`n`, `nr_hwcur` becomes `k`, and `(k - 1) mod N` is written to `RDT`. -/
theorem rxsync_recycles_span (env : Env) (do_lock : Bool) (s : RxState) (N : Int) (fuel : Nat)
    (hN : s.nkr_num_slots = N)
    (hslots : (s.slot.length : Int) = N) (hdescs : (s.rx_base.length : Int) = N)
    (hflag : s.nr_kflags &&& env.NR_REINIT = 0)
    (hh : 0 ≤ s.nr_hwcur ∧ s.nr_hwcur ≤ N - 1)
    (hk : 0 ≤ s.cur ∧ s.cur ≤ N - 1)
    (hkh : s.cur ≠ s.nr_hwcur)
    (hc : 0 ≤ s.next_to_check ∧ s.next_to_check ≤ N - 1)
    (hnot : ∃ i, 0 ≤ i ∧ i < N ∧ ¬ rx_desc_done env s.rx_base i)
    (hvalid : rx_slots_ok env s.slot (rx_span s))
    (hfuel : N ≤ fuel) :
    ∃ s1 s', rx_ingest env fuel (rx_enter do_lock s) = Outcome.ok s1 ∧
      em_netmap_rxsync env fuel do_lock s = Outcome.ok s' ∧
      rx_span s = (List.range (pending N s.nr_hwcur s.cur).toNat).map
        (fun t : Nat => (s.nr_hwcur + (t : Int)) % N) ∧
      ((rx_span s).length : Int) = pending N s.nr_hwcur s.cur ∧
      (∀ i, at? s'.rx_base i =
        if i ∈ rx_span s then
          (at? s1.slot i).bind (fun x => (at? s.rx_base i).map (rx_desc_after env x))
        else at? s.rx_base i) ∧
      (∀ i ∈ rx_span s, ∃ c ∈ at? s'.rx_base i, c.status = 0) ∧
      s'.nr_hwavail = s1.nr_hwavail - pending N s.nr_hwcur s.cur ∧
      s'.avail = s1.nr_hwavail - pending N s.nr_hwcur s.cur ∧
      s'.nr_hwcur = s.cur ∧
      ∃ t, (∀ e ∈ t, e.is_buf_dma = true) ∧
        s'.trace = s1.trace ++ t
          ++ [Event.bus_dmamap_sync_ring, Event.E1000_WRITE_REG_RDT s.me ((s.cur - 1) % N)]
          ++ (if do_lock then [Event.EM_RX_UNLOCK] else []) := by
  subst hN
  have hN1 : s.nkr_num_slots - 1 + 1 = s.nkr_num_slots := by omega
  have hspan : rx_span s = (List.range (pending s.nkr_num_slots s.nr_hwcur s.cur).toNat).map
        (fun t : Nat => (s.nr_hwcur + (t : Int)) % s.nkr_num_slots) := by
    unfold rx_span
    rw [span_eq_map _ _ _ hh.1 hh.2, hN1]
  have hpend := ring_dist s.nkr_num_slots s.nr_hwcur s.cur hh.1 (by omega) hk.1 (by omega)
  have hp0 : 0 ≤ pending s.nkr_num_slots s.nr_hwcur s.cur ∧
      pending s.nkr_num_slots s.nr_hwcur s.cur < s.nkr_num_slots := by
    unfold pending; rw [hpend]; split <;> omega
  have hguard : ¬ (s.nr_kflags &&& env.NR_REINIT ≠ 0 ∨ s.cur > s.nkr_num_slots - 1) := by
    rw [hflag]; simp; omega
  have hnd : (rx_span s).Nodup := by
    unfold rx_span
    exact span_nodup _ _ _ hh.1 hh.2 (by omega)
  have hin : ∀ j ∈ rx_span s, 0 ≤ j ∧ j < (s.slot.length : Int) ∧ j < (s.rx_base.length : Int) := by
    intro j hj
    have := span_mem_bounds _ _ _ hh.1 hh.2 j hj
    omega
  have hlen : ((rx_span s).length : Int) = pending s.nkr_num_slots s.nr_hwcur s.cur := by
    unfold rx_span; rw [span_length]; omega
  obtain ⟨s1, hs1, eN, ehw, ecur, eme, ebase, eslen, hfields⟩ :=
    rx_ingest_enter env do_lock s fuel hslots hdescs hc hnot hfuel
  have espan : rx_span s1 = rx_span s := by unfold rx_span; rw [eN, ehw, ecur]
  have hvalid1 : rx_slots_ok env s1.slot (rx_span s1) := by
    rw [espan]
    intro i hi y hy
    obtain ⟨x, hx, hb, _⟩ := hfields i y hy
    have := hvalid i hi x hx
    unfold rx_slot_bad at this ⊢
    rw [hb]
    exact this
  have hphase := rx_recycle_phase_ok env fuel do_lock s1
    (by rw [eslen, eN]; exact hslots) (by rw [ebase, eN]; exact hdescs)
    (by rw [ehw, eN]; exact hh) (by rw [ecur, eN]; exact hk)
    hvalid1 (by rw [eN, ehw, ecur]; omega)
  obtain ⟨t, ht, hdma⟩ := rx_fold_trace env (rx_span s1) s1
  have hdesc := rx_fold_desc env (rx_span s1) s1
    (by rw [espan]; exact hnd) (by rw [espan, eslen, ebase]; exact hin)
  have hcall : em_netmap_rxsync env fuel do_lock s = rx_recycle_phase env fuel do_lock s1 := by
    unfold em_netmap_rxsync
    simp only [if_neg hguard, hs1]
  rw [hcall, hphase]
  have hdescs' : ∀ i, at? ((rx_span s1).foldl (rx_step env) s1).rx_base i =
      if i ∈ rx_span s then
        (at? s1.slot i).bind (fun x => (at? s.rx_base i).map (rx_desc_after env x))
      else at? s.rx_base i := by
    intro i
    rw [hdesc i, espan, ebase]
  refine ⟨s1, _, hs1, rfl, hspan, hlen, hdescs', ?_, ?_, ?_, ecur, t, hdma, ?_⟩
  · intro i hi
    obtain ⟨hi0, hi1, hi2⟩ := hin i hi
    obtain ⟨x, hx⟩ := at?_of_bounds s1.slot hi0 (by omega)
    obtain ⟨c, hc2⟩ := at?_of_bounds s.rx_base hi0 hi2
    refine ⟨rx_desc_after env x c, ?_, rx_desc_after_status env x c⟩
    show at? ((rx_span s1).foldl (rx_step env) s1).rx_base i = some _
    rw [hdescs' i, if_pos hi, hx, hc2]
    rfl
  · dsimp only
    rw [eN, ehw, ecur]
  · dsimp only
    rw [eN, ehw, ecur]
  · dsimp only
    rw [ht, ecur, ehw, eme, eN, if_pos hkh, ring_prev_eq _ _ hk.1 hk.2, hN1]

/-- C6, as stated, fails: on the ring of capacity 4 with a valid span of two
slots, `k ≠ h`, and all 4 descriptors done, `em_netmap_rxsync` never returns
(the ingest scan has no bound). -/
theorem rxsync_valid_span_diverges :
    rx4_read_all_done.nr_kflags &&& env0.NR_REINIT = 0 ∧
    rx4_read_all_done.cur ≠ rx4_read_all_done.nr_hwcur ∧
    rx_slots_ok env0 rx4_read_all_done.slot (rx_span rx4_read_all_done) ∧
    ∀ fuel : Nat, em_netmap_rxsync env0 fuel true rx4_read_all_done = Outcome.out_of_fuel := by
  refine ⟨by decide, by decide, by decide, ?_⟩
  intro fuel
  apply rxsync_all_done env0 fuel true rx4_read_all_done (by decide) (by decide) (by decide)
    (by decide)
  intro i h0 h1
  have h1' : i ≤ 3 := h1
  have : i = 0 ∨ i = 1 ∨ i = 2 ∨ i = 3 := by omega
  rcases this with rfl | rfl | rfl | rfl <;> decide

/-- C6 amended, at the ring `rx4_read`: descriptors 0 and 1 are recycled,
`nr_hwcur` becomes 2 and 1 is written to `RDT`. -/
theorem rxsync_recycles_span_witness :
    ∃ s1 s', rx_ingest env0 4 (rx_enter true rx4_read) = Outcome.ok s1 ∧
      em_netmap_rxsync env0 4 true rx4_read = Outcome.ok s' ∧
      rx_span rx4_read = [0, 1] ∧
      (∀ i ∈ rx_span rx4_read, ∃ c ∈ at? s'.rx_base i, c.status = 0) ∧
      s'.nr_hwavail = s1.nr_hwavail - 2 ∧ s'.avail = s1.nr_hwavail - 2 ∧ s'.nr_hwcur = 2 ∧
      ∃ t, (∀ e ∈ t, e.is_buf_dma = true) ∧
        s'.trace = s1.trace ++ t
          ++ [Event.bus_dmamap_sync_ring, Event.E1000_WRITE_REG_RDT 0 1]
          ++ [Event.EM_RX_UNLOCK] := by
  obtain ⟨s1, s', h1, h2, _, _, _, h6, h7, h8, h9, h10⟩ :=
    rxsync_recycles_span env0 true rx4_read 4 4 rfl rfl rfl (by decide) (by decide) (by decide)
      (by decide) (by decide) ⟨2, by decide, by decide, by decide⟩ (by decide) (by decide)
  exact ⟨s1, s', h1, h2, by decide, h6, h7, h8, h9, h10⟩

/-! ## Receive: a bad slot in the span -/

/-- C9, amended. On a receive ring of `N` slots with no reinit flag, cursors
and `next_to_check` in `[0, N-1]`, at least one descriptor not done, and a
span whose first slot with an unmapped buffer is at position `p`,
`em_netmap_rxsync` (given fuel `N`) leaves through `netmap_ring_reinit` at
that slot: `nr_hwcur` is still `h`, `nr_hwavail` is the count after ingest,
`avail` is untouched, `RDT` is not written, and only the `p` descriptors at
`h, ..., h+p-1` before the bad slot are modified. -/
theorem rxsync_bad_slot (env : Env) (do_lock : Bool) (s : RxState) (N : Int) (fuel p : Nat)
    (hN : s.nkr_num_slots = N)
    (hslots : (s.slot.length : Int) = N) (hdescs : (s.rx_base.length : Int) = N)
    (hflag : s.nr_kflags &&& env.NR_REINIT = 0)
    (hh : 0 ≤ s.nr_hwcur ∧ s.nr_hwcur ≤ N - 1)
    (hk : 0 ≤ s.cur ∧ s.cur ≤ N - 1)
    (hc : 0 ≤ s.next_to_check ∧ s.next_to_check ≤ N - 1)
    (hnot : ∃ i, 0 ≤ i ∧ i < N ∧ ¬ rx_desc_done env s.rx_base i)
    (hp : (p : Int) < pending N s.nr_hwcur s.cur)
    (hvalid : rx_slots_ok env s.slot (span (N - 1) s.nr_hwcur p))
    (hbad : ∀ x ∈ at? s.slot ((s.nr_hwcur + (p : Int)) % N), rx_slot_bad env x)
    (hfuel : N ≤ fuel) :
    ∃ s1 s', rx_ingest env fuel (rx_enter do_lock s) = Outcome.ok s1 ∧
      em_netmap_rxsync env fuel do_lock s = Outcome.ring_reinit s' ∧
      span (N - 1) s.nr_hwcur p
        = (List.range p).map (fun t : Nat => (s.nr_hwcur + (t : Int)) % N) ∧
      (∀ i, at? s'.rx_base i =
        if i ∈ span (N - 1) s.nr_hwcur p then
          (at? s1.slot i).bind (fun x => (at? s.rx_base i).map (rx_desc_after env x))
        else at? s.rx_base i) ∧
      s'.nr_hwcur = s.nr_hwcur ∧
      s'.nr_hwavail = s1.nr_hwavail ∧
      s'.avail = s.avail ∧
      ∃ t, (∀ e ∈ t, e.is_buf_dma = true) ∧
        s'.trace = s1.trace ++ t ++ (if do_lock then [Event.EM_RX_UNLOCK] else []) := by
  subst hN
  have hN1 : s.nkr_num_slots - 1 + 1 = s.nkr_num_slots := by omega
  have hspan : span (s.nkr_num_slots - 1) s.nr_hwcur p
      = (List.range p).map (fun t : Nat => (s.nr_hwcur + (t : Int)) % s.nkr_num_slots) := by
    rw [span_eq_map _ _ _ hh.1 hh.2, hN1]
  have hpend := ring_dist s.nkr_num_slots s.nr_hwcur s.cur hh.1 (by omega) hk.1 (by omega)
  have hpN : (p : Int) < s.nkr_num_slots := by
    unfold pending at hp; rw [hpend] at hp; split at hp <;> omega
  have hguard : ¬ (s.nr_kflags &&& env.NR_REINIT ≠ 0 ∨ s.cur > s.nkr_num_slots - 1) := by
    rw [hflag]; simp; omega
  have hnd : (span (s.nkr_num_slots - 1) s.nr_hwcur p).Nodup :=
    span_nodup _ _ _ hh.1 hh.2 (by omega)
  have hin : ∀ j ∈ span (s.nkr_num_slots - 1) s.nr_hwcur p,
      0 ≤ j ∧ j < (s.slot.length : Int) ∧ j < (s.rx_base.length : Int) := by
    intro j hj
    have := span_mem_bounds _ _ _ hh.1 hh.2 j hj
    omega
  obtain ⟨s1, hs1, eN, ehw, ecur, eme, ebase, eslen, hfields⟩ :=
    rx_ingest_enter env do_lock s fuel hslots hdescs hc hnot hfuel
  have eav : s1.avail = s.avail := by
    obtain ⟨n, hnN, hdone, hnd2⟩ := done_run_exists env s.rx_base s.nkr_num_slots
      s.next_to_check hc hnot
    have hok := (rx_ingest_ok env fuel (rx_enter do_lock s) n hslots hdescs hc hdone hnd2).1
      (by omega)
    rw [hs1] at hok
    have hfr := rx_ingest_fold_frame (span (s.nkr_num_slots - 1) s.next_to_check n)
      (rx_enter do_lock s)
    rw [Outcome.ok.injEq] at hok
    rw [hok]
    exact hfr.2.2.2.2.2.1
  have hvalid1 : rx_slots_ok env s1.slot (span (s1.nkr_num_slots - 1) s1.nr_hwcur p) := by
    rw [eN, ehw]
    intro i hi y hy
    obtain ⟨x, hx, hb, _⟩ := hfields i y hy
    have := hvalid i hi x hx
    unfold rx_slot_bad at this ⊢
    rw [hb]
    exact this
  have hbad1 : ∀ y ∈ at? s1.slot ((s1.nr_hwcur + (p : Int)) % s1.nkr_num_slots),
      rx_slot_bad env y := by
    rw [eN, ehw]
    intro y hy
    obtain ⟨x, hx, hb, _⟩ := hfields _ y hy
    have := hbad x hx
    unfold rx_slot_bad at this ⊢
    rw [hb]
    exact this
  have hphase := rx_recycle_phase_bad env fuel do_lock s1 p
    (by rw [eslen, eN]; exact hslots) (by rw [ebase, eN]; exact hdescs)
    (by rw [ehw, eN]; exact hh) (by rw [ecur, eN]; exact hk)
    (by rw [eN, ehw, ecur]; exact hp) hvalid1 hbad1 (by omega)
  rw [eN, ehw] at hphase
  obtain ⟨t, ht, hdma⟩ := rx_fold_trace env (span (s.nkr_num_slots - 1) s.nr_hwcur p) s1
  have hdesc := rx_fold_desc env (span (s.nkr_num_slots - 1) s.nr_hwcur p) s1 hnd
    (by rw [eslen, ebase]; exact hin)
  have hfr := rx_fold_frame env (span (s.nkr_num_slots - 1) s.nr_hwcur p) s1
  have hcall : em_netmap_rxsync env fuel do_lock s = rx_recycle_phase env fuel do_lock s1 := by
    unfold em_netmap_rxsync
    simp only [if_neg hguard, hs1]
  rw [hcall, hphase]
  refine ⟨s1, _, hs1, rfl, hspan, ?_, ?_, ?_, ?_, t, hdma, ?_⟩
  · intro i
    dsimp only
    rw [hdesc i, ebase]
  · dsimp only
    exact hfr.2.2.1.trans ehw
  · dsimp only
    exact hfr.2.2.2.1
  · dsimp only
    exact hfr.2.2.2.2.2.1.trans eav
  · dsimp only
    rw [ht]

/-- C9, as stated, fails: on the ring of capacity 4 whose span holds a slot
with an unmapped buffer and all of whose descriptors are done,
`em_netmap_rxsync` does not leave through `netmap_ring_reinit`; it never
returns (the ingest scan has no bound). -/
theorem rxsync_bad_span_diverges :
    rx4_read_bad_all_done.nr_kflags &&& env0.NR_REINIT = 0 ∧
    (1 : Int) ∈ rx_span rx4_read_bad_all_done ∧
    (∀ x ∈ at? rx4_read_bad_all_done.slot 1, rx_slot_bad env0 x) ∧
    ∀ fuel : Nat, em_netmap_rxsync env0 fuel true rx4_read_bad_all_done
      = Outcome.out_of_fuel := by
  refine ⟨by decide, by decide, by decide, ?_⟩
  intro fuel
  apply rxsync_all_done env0 fuel true rx4_read_bad_all_done (by decide) (by decide) (by decide)
    (by decide)
  intro i h0 h1
  have h1' : i ≤ 3 := h1
  have : i = 0 ∨ i = 1 ∨ i = 2 ∨ i = 3 := by omega
  rcases this with rfl | rfl | rfl | rfl <;> decide

/-- C9 amended, at the ring `rx4_read_bad` (span 0, 1 with slot 1 unmapped):
descriptor 0 is recycled, descriptor 1 is not, and the call leaves through
`netmap_ring_reinit` with `nr_hwcur = 0`. -/
theorem rxsync_bad_slot_witness :
    ∃ s1 s', rx_ingest env0 4 (rx_enter true rx4_read_bad) = Outcome.ok s1 ∧
      em_netmap_rxsync env0 4 true rx4_read_bad = Outcome.ring_reinit s' ∧
      span (4 - 1) rx4_read_bad.nr_hwcur 1 = [0] ∧
      at? s'.rx_base 1 = at? rx4_read_bad.rx_base 1 ∧
      s'.nr_hwcur = 0 ∧ s'.nr_hwavail = s1.nr_hwavail ∧ s'.avail = 2 ∧
      ∃ t, (∀ e ∈ t, e.is_buf_dma = true) ∧ s'.trace = s1.trace ++ t ++ [Event.EM_RX_UNLOCK] := by
  obtain ⟨s1, s', h1, h2, _, h4, h5, h6, h7, h8⟩ :=
    rxsync_bad_slot env0 true rx4_read_bad 4 4 1 rfl rfl rfl (by decide) (by decide) (by decide)
      (by decide) ⟨2, by decide, by decide, by decide⟩ (by decide) (by decide) (by decide)
      (by decide)
  exact ⟨s1, s', h1, h2, by decide, (h4 1).trans (if_neg (by decide)), h5, h6, h7, h8⟩

/-! ## Transmit: what a call does to the slots -/

theorem and_not_testBit (x m b : Nat) :
    (and_not x m).testBit b = (x.testBit b && !m.testBit b) := by
  unfold and_not
  rw [Nat.testBit_xor, Nat.testBit_and]
  cases x.testBit b <;> cases m.testBit b <;> rfl

/-- The loop body keeps the buffer handle and the length of a slot and clears
exactly the bits of `NS_REPORT` and `NS_BUF_CHANGED` in its flags. -/
theorem tx_slot_after_spec (env : Env) (x : netmap_slot) :
    (tx_slot_after env x).buf_idx = x.buf_idx ∧ (tx_slot_after env x).len = x.len ∧
    ∀ b, (tx_slot_after env x).flags.testBit b =
      (x.flags.testBit b && !env.NS_REPORT.testBit b && !env.NS_BUF_CHANGED.testBit b) := by
  refine ⟨(tx_slot_after_fields env x).1, (tx_slot_after_fields env x).2, ?_⟩
  intro b
  unfold tx_slot_after
  dsimp only
  split
  · dsimp only
    rw [and_not_testBit, and_not_testBit]
  · rename_i h
    have h0 : and_not x.flags env.NS_REPORT &&& env.NS_BUF_CHANGED = 0 := by
      by_contra hcon
      exact h hcon
    have hb : ((and_not x.flags env.NS_REPORT) &&& env.NS_BUF_CHANGED).testBit b = false := by
      rw [h0]; exact Nat.zero_testBit b
    rw [Nat.testBit_and, and_not_testBit] at hb
    dsimp only
    rw [and_not_testBit]
    cases h1 : x.flags.testBit b <;> cases h2 : env.NS_REPORT.testBit b <;>
      cases h3 : env.NS_BUF_CHANGED.testBit b <;> simp [h1, h2, h3] at hb ⊢

/-- The slots after a successful call: the loop body applied on exactly the
span. -/
theorem txsync_ok_slots (env : Env) (fuel ring_nr : Nat) (do_lock : Bool) (tdh : Int)
    (s s' : TxState)
    (hslots : (s.slot.length : Int) = s.nkr_num_slots)
    (hdescs : (s.tx_base.length : Int) = s.nkr_num_slots)
    (hh : 0 ≤ s.nr_hwcur ∧ s.nr_hwcur ≤ s.nkr_num_slots - 1)
    (hk0 : 0 ≤ s.cur)
    (h : em_netmap_txsync env fuel ring_nr do_lock tdh s = Outcome.ok s') :
    s'.nkr_num_slots = s.nkr_num_slots ∧ s'.nr_hwcur = s.cur ∧ s'.cur = s.cur ∧
      s'.cur ≤ s.nkr_num_slots - 1 ∧
      s'.slot.length = s.slot.length ∧ s'.tx_base.length = s.tx_base.length ∧
      ∀ i, at? s'.slot i =
        (at? s.slot i).map (fun x => if i ∈ tx_span s then tx_slot_after env x else x) := by
  unfold em_netmap_txsync at h
  dsimp only at h
  split at h
  · cases h
  · rename_i hguard
    have hk1 : s.cur ≤ s.nkr_num_slots - 1 := by
      by_contra hcon
      exact hguard (Or.inr (by omega))
    obtain ⟨s2, hs2⟩ : ∃ s2 : TxState, s2 = tx_reclaim ring_nr tdh { s with trace := s.trace
        ++ (if do_lock then [Event.EM_TX_LOCK] else []) ++ [Event.bus_dmamap_sync_ring] } :=
      ⟨_, rfl⟩
    rw [← hs2] at h
    have eN : s2.nkr_num_slots = s.nkr_num_slots := by rw [hs2]; rfl
    have eslot : s2.slot = s.slot := by rw [hs2]; rfl
    have ebase : s2.tx_base = s.tx_base := by rw [hs2]; rfl
    have ecur : s2.cur = s.cur := by rw [hs2]; rfl
    have ehw : s2.nr_hwcur = s.nr_hwcur := by rw [hs2]; rfl
    have eav : s2.avail = s2.nr_hwavail := by rw [hs2]; rfl
    have espan : tx_span s2 = tx_span s := by unfold tx_span; rw [eN, ehw, ecur]
    have hfin := tx_publish_phase_ok_inv env fuel do_lock s2 s'
      (by rw [ehw, eN]; exact hh) (by rw [ecur, eN]; exact ⟨hk0, hk1⟩) eav h
    have hfr := tx_fold_frame env (s2.nkr_num_slots >>> 1) (tx_span s2) s2
    have hpend := ring_dist s.nkr_num_slots s.nr_hwcur s.cur hh.1 (by omega) hk0 (by omega)
    have hnd : (tx_span s).Nodup := by
      unfold tx_span
      apply span_nodup _ _ _ hh.1 hh.2
      unfold pending
      rw [hpend]
      split <;> omega
    have hin : ∀ j ∈ tx_span s,
        0 ≤ j ∧ j < (s.slot.length : Int) ∧ j < (s.tx_base.length : Int) := by
      intro j hj
      have := span_mem_bounds _ _ _ hh.1 hh.2 j hj
      omega
    have hslot := tx_fold_slot env (s2.nkr_num_slots >>> 1) (tx_span s2) s2
      (by rw [espan]; exact hnd) (by rw [espan, eslot, ebase]; exact hin)
    rw [hfin]
    dsimp only
    refine ⟨hfr.1.trans eN, ecur, hfr.2.2.2.2.1.trans ecur, ?_, ?_, ?_, ?_⟩
    · rw [hfr.2.2.2.2.1, ecur]; exact hk1
    · rw [hfr.2.2.2.2.2.2.2.2.1, eslot]
    · rw [hfr.2.2.2.2.2.2.2.2.2, ebase]
    · intro i
      rw [hslot i, espan, eslot]

/-- C10. On a transmit ring of `N` slots with cursors in range, after a
successful `em_netmap_txsync` call that publishes the span and a later
successful call that reclaims (cursor unchanged, any device index), every slot
holds the buffer handle and the length the consumer set; a slot of the
published span has exactly the bits of `NS_REPORT` and `NS_BUF_CHANGED` cleared
in its flags, and a slot outside the span is unchanged. -/
theorem txsync_slot_round_trip (env : Env) (fuel1 fuel2 ring_nr : Nat) (do_lock : Bool)
    (tdh1 tdh2 : Int) (s s1 s2 : TxState) (N : Int)
    (hN : s.nkr_num_slots = N)
    (hslots : (s.slot.length : Int) = N) (hdescs : (s.tx_base.length : Int) = N)
    (hh : 0 ≤ s.nr_hwcur ∧ s.nr_hwcur ≤ N - 1)
    (hk0 : 0 ≤ s.cur)
    (h1 : em_netmap_txsync env fuel1 ring_nr do_lock tdh1 s = Outcome.ok s1)
    (h2 : em_netmap_txsync env fuel2 ring_nr do_lock tdh2 s1 = Outcome.ok s2) :
    s2.slot = s1.slot ∧ s2.slot.length = s.slot.length ∧
    ∀ i x, at? s.slot i = some x → ∃ y, at? s2.slot i = some y ∧
      y.buf_idx = x.buf_idx ∧ y.len = x.len ∧
      (i ∈ tx_span s → ∀ b, y.flags.testBit b =
        (x.flags.testBit b && !env.NS_REPORT.testBit b && !env.NS_BUF_CHANGED.testBit b)) ∧
      (i ∉ tx_span s → y = x) := by
  subst hN
  obtain ⟨a1, a2, a3, a4, a5, a6, a7⟩ :=
    txsync_ok_slots env fuel1 ring_nr do_lock tdh1 s s1 hslots hdescs hh hk0 h1
  obtain ⟨b1, b2, b3, b4, b5, b6, b7⟩ :=
    txsync_ok_slots env fuel2 ring_nr do_lock tdh2 s1 s2
      (by rw [a5, a1]; exact hslots) (by rw [a6, a1]; exact hdescs)
      (by rw [a2, a1]; rw [a3] at a4; exact ⟨hk0, a4⟩) (by rw [a3]; exact hk0) h2
  have hempty : tx_span s1 = [] := by
    unfold tx_span pending
    rw [a2, a3]
    simp [span]
  have hsame : ∀ i, at? s2.slot i = at? s1.slot i := by
    intro i
    rw [b7 i, hempty]
    cases at? s1.slot i <;> simp
  have hlist : s2.slot = s1.slot := by
    apply List.ext_getElem?
    intro n
    have := hsame (n : Int)
    simpa [at?] using this
  refine ⟨hlist, by rw [b5, a5], ?_⟩
  intro i x hx
  rw [hsame i, a7 i, hx]
  by_cases hi : i ∈ tx_span s
  · refine ⟨tx_slot_after env x, by simp [hi], (tx_slot_after_spec env x).1,
      (tx_slot_after_spec env x).2.1, fun _ => (tx_slot_after_spec env x).2.2, ?_⟩
    intro hni
    exact absurd hi hni
  · refine ⟨x, by simp [hi], rfl, rfl, ?_, fun _ => rfl⟩
    intro hi2
    exact absurd hi2 hi

/-- C10 at the ring `tx8`: slots 0, 1, 2 published, then reclaimed when the
device reports index 3. -/
theorem txsync_slot_round_trip_witness :
    em_netmap_txsync env0 3 0 false 0 tx8 = Outcome.ok tx8_published ∧
    em_netmap_txsync env0 0 0 false 3 tx8_published = Outcome.ok tx8_reclaimed ∧
    tx8_reclaimed.slot = tx8_published.slot ∧ tx8_reclaimed.slot.length = tx8.slot.length ∧
    ∀ i x, at? tx8.slot i = some x → ∃ y, at? tx8_reclaimed.slot i = some y ∧
      y.buf_idx = x.buf_idx ∧ y.len = x.len ∧
      (i ∈ tx_span tx8 → ∀ b, y.flags.testBit b =
        (x.flags.testBit b && !env0.NS_REPORT.testBit b && !env0.NS_BUF_CHANGED.testBit b)) ∧
      (i ∉ tx_span tx8 → y = x) := by
  have h1 : em_netmap_txsync env0 3 0 false 0 tx8 = Outcome.ok tx8_published := by
    simp [em_netmap_txsync, tx_publish_phase, env0, tx_reclaim, tx_publish, at?, put,
      tx_slot_bad, tx_body, ring_next, tx8, tx8_published,
      tx_slot_after, tx_desc_after, tx_slot_events, tx_report_flags, and_not, List.replicate]
    decide
  have h2 : em_netmap_txsync env0 0 0 false 3 tx8_published = Outcome.ok tx8_reclaimed := by
    simp [em_netmap_txsync, tx_publish_phase, env0, tx_reclaim, tx8, tx8_published,
      tx8_reclaimed]
  exact ⟨h1, h2, txsync_slot_round_trip env0 3 0 0 false 0 3 tx8 tx8_published tx8_reclaimed 8
    rfl rfl rfl (by decide) (by decide) h1 h2⟩

/-! ## Transmit: a second call with nothing new -/

/-- Whenever the publish loop leaves normally, the cursors and counts are those
it started with. -/
theorem tx_publish_ok_frame (env : Env) (lim k rf : Int) (do_lock : Bool) :
    ∀ (fuel : Nat) (j n : Int) (s : TxState) (r : TxState × Int),
    tx_publish env lim k rf do_lock fuel j n s = Outcome.ok r →
    r.1.nkr_num_slots = s.nkr_num_slots ∧ r.1.nr_kflags = s.nr_kflags ∧
    r.1.nr_hwcur = s.nr_hwcur ∧ r.1.nr_hwavail = s.nr_hwavail ∧ r.1.cur = s.cur ∧
    r.1.avail = s.avail ∧ r.1.me = s.me ∧ r.1.next_to_clean = s.next_to_clean := by
  intro fuel
  induction fuel with
  | zero =>
    intro j n s r h
    unfold tx_publish at h
    by_cases hjk : j = k
    · simp [hjk] at h
      subst h
      simp
    · simp [hjk] at h
  | succ fuel ih =>
    intro j n s r h
    unfold tx_publish at h
    by_cases hjk : j = k
    · simp [hjk] at h
      subst h
      simp
    · simp only [if_neg hjk] at h
      split at h
      · split at h
        · cases h
        · have h2 := ih _ _ _ r h
          simpa [tx_body] using h2
      · cases h

/-- A successful call leaves `nr_hwcur = cur`, `avail = nr_hwavail`, and
`next_to_clean` at the index the reclaim phase computed. -/
theorem txsync_ok_settled (env : Env) (fuel ring_nr : Nat) (do_lock : Bool) (tdh : Int)
    (s s1 : TxState)
    (h : em_netmap_txsync env fuel ring_nr do_lock tdh s = Outcome.ok s1) :
    ¬ (s1.nr_kflags &&& env.NR_REINIT ≠ 0 ∨ s1.cur > s1.nkr_num_slots - 1) ∧
    s1.nr_hwcur = s1.cur ∧ s1.avail = s1.nr_hwavail ∧
    (if tdh ≥ s1.nkr_num_slots then tdh - s1.nkr_num_slots else tdh) - s1.next_to_clean = 0 := by
  unfold em_netmap_txsync at h
  dsimp only at h
  split at h
  · cases h
  · rename_i hguard
    obtain ⟨s2, hs2⟩ : ∃ s2 : TxState, s2 = tx_reclaim ring_nr tdh { s with trace := s.trace
        ++ (if do_lock then [Event.EM_TX_LOCK] else []) ++ [Event.bus_dmamap_sync_ring] } :=
      ⟨_, rfl⟩
    rw [← hs2] at h
    have eN : s2.nkr_num_slots = s.nkr_num_slots := by rw [hs2]; rfl
    have ek : s2.nr_kflags = s.nr_kflags := by rw [hs2]; rfl
    have ecur : s2.cur = s.cur := by rw [hs2]; rfl
    have eav : s2.avail = s2.nr_hwavail := by rw [hs2]; rfl
    have entc : (if tdh ≥ s.nkr_num_slots then tdh - s.nkr_num_slots else tdh)
        - s2.next_to_clean = 0 := by
      rw [hs2]
      unfold tx_reclaim
      dsimp only
      split_ifs <;> omega
    unfold tx_publish_phase at h
    dsimp only at h
    split at h
    · generalize hr : tx_publish env (s2.nkr_num_slots - 1) s2.cur (s2.nkr_num_slots >>> 1)
        do_lock fuel s2.nr_hwcur 0 s2 = r at h
      cases r with
      | ok p =>
        obtain ⟨f1, f2, _, _, f5, _, _, f8⟩ :=
          tx_publish_ok_frame env _ _ _ do_lock fuel _ _ s2 p hr
        simp only [Outcome.ok.injEq] at h
        rw [← h]
        dsimp only
        rw [f1, f2, f5, f8, eN, ek, ecur]
        exact ⟨hguard, rfl, rfl, entc⟩
      | ring_reinit p => simp at h
      | fault => simp at h
      | out_of_fuel => simp at h
    · rename_i hjk
      have hjk2 : s2.nr_hwcur = s2.cur := by
        by_contra hcon
        exact hjk hcon
      simp only [Outcome.ok.injEq] at h
      rw [← h]
      dsimp only
      rw [eN, ek, ecur]
      exact ⟨hguard, hjk2.trans ecur, eav, entc⟩

/-- The reclaim phase run a second time with the same device index finds
`delta = 0` and changes nothing but the log of register reads. -/
theorem tx_reclaim_twice (ring_nr : Nat) (d : Int) (s : TxState) :
    tx_reclaim ring_nr d (tx_reclaim ring_nr d s) =
      { tx_reclaim ring_nr d s with
        trace := (tx_reclaim ring_nr d s).trace ++ [Event.E1000_READ_REG_TDH ring_nr] } ∧
    (if d ≥ (tx_reclaim ring_nr d s).nkr_num_slots
      then d - (tx_reclaim ring_nr d s).nkr_num_slots else d)
      - (tx_reclaim ring_nr d s).next_to_clean = 0 := by
  have hd : (if d ≥ s.nkr_num_slots then d - s.nkr_num_slots else d)
      - (tx_reclaim ring_nr d s).next_to_clean = 0 := by
    unfold tx_reclaim
    dsimp only
    split_ifs <;> omega
  refine ⟨?_, hd⟩
  obtain ⟨s1, hs1⟩ : ∃ s1 : TxState, s1 = tx_reclaim ring_nr d s := ⟨_, rfl⟩
  have eN : s1.nkr_num_slots = s.nkr_num_slots := by rw [hs1]; rfl
  have eav : s1.avail = s1.nr_hwavail := by rw [hs1]; rfl
  rw [← hs1] at hd ⊢
  rw [← eN] at hd
  unfold tx_reclaim
  dsimp only
  rw [hd]
  simp [eav]

/-- After a successful call, a further call with the same device index and the
same consumer cursor returns normally with any fuel and only extends the log. -/
theorem txsync_second_call (env : Env) (fuel fuel2 ring_nr : Nat) (do_lock : Bool) (d : Int)
    (s s1 : TxState) (h : em_netmap_txsync env fuel ring_nr do_lock d s = Outcome.ok s1) :
    em_netmap_txsync env fuel2 ring_nr do_lock d s1 = Outcome.ok
      { s1 with trace := s1.trace ++ (if do_lock then [Event.EM_TX_LOCK] else [])
          ++ [Event.bus_dmamap_sync_ring, Event.E1000_READ_REG_TDH ring_nr]
          ++ (if do_lock then [Event.EM_TX_UNLOCK] else []) } := by
  obtain ⟨hg, hcur, hav, hd⟩ := txsync_ok_settled env fuel ring_nr do_lock d s s1 h
  unfold em_netmap_txsync
  dsimp only
  rw [if_neg hg]
  unfold tx_publish_phase tx_reclaim
  dsimp only
  rw [hd]
  simp [hcur, hav]

/-- C11: the reclaim phase of `em_netmap_txsync` is idempotent. For every
ring state and device index `d`, running the phase a second time with the same
`d` finds `delta = 0` and gives the state of the first run again, only the
log of register reads growing: `avail`, `nr_hwavail`, `nr_hwcur`,
`next_to_clean`, the slots and the descriptors are those the first run left.
For whole calls: after a call that returned normally, a second call with the
same `d` and the consumer cursor untouched returns normally with any fuel and
changes no field but the log, to which it adds the lock pair (when asked), the
ring dma sync and the register read. -/
theorem txsync_reclaim_idempotent (env : Env) (fuel fuel2 ring_nr : Nat) (do_lock : Bool)
    (d : Int) (s : TxState) :
    (tx_reclaim ring_nr d (tx_reclaim ring_nr d s) =
        { tx_reclaim ring_nr d s with
          trace := (tx_reclaim ring_nr d s).trace ++ [Event.E1000_READ_REG_TDH ring_nr] } ∧
      (if d ≥ (tx_reclaim ring_nr d s).nkr_num_slots
        then d - (tx_reclaim ring_nr d s).nkr_num_slots else d)
        - (tx_reclaim ring_nr d s).next_to_clean = 0 ∧
      (tx_reclaim ring_nr d (tx_reclaim ring_nr d s)).avail = (tx_reclaim ring_nr d s).avail ∧
      (tx_reclaim ring_nr d (tx_reclaim ring_nr d s)).nr_hwavail
        = (tx_reclaim ring_nr d s).nr_hwavail ∧
      (tx_reclaim ring_nr d (tx_reclaim ring_nr d s)).nr_hwcur
        = (tx_reclaim ring_nr d s).nr_hwcur ∧
      (tx_reclaim ring_nr d (tx_reclaim ring_nr d s)).next_to_clean
        = (tx_reclaim ring_nr d s).next_to_clean ∧
      (tx_reclaim ring_nr d (tx_reclaim ring_nr d s)).tx_base
        = (tx_reclaim ring_nr d s).tx_base) ∧
    ∀ s1, em_netmap_txsync env fuel ring_nr do_lock d s = Outcome.ok s1 →
      em_netmap_txsync env fuel2 ring_nr do_lock d s1 = Outcome.ok
        { s1 with trace := s1.trace ++ (if do_lock then [Event.EM_TX_LOCK] else [])
            ++ [Event.bus_dmamap_sync_ring, Event.E1000_READ_REG_TDH ring_nr]
            ++ (if do_lock then [Event.EM_TX_UNLOCK] else []) } := by
  obtain ⟨h1, h2⟩ := tx_reclaim_twice ring_nr d s
  refine ⟨⟨h1, h2, ?_, ?_, ?_, ?_, ?_⟩, fun s1 h =>
    txsync_second_call env fuel fuel2 ring_nr do_lock d s s1 h⟩ <;> rw [h1]

/-- C11 on the ring `tx8_published`: the call in which the device reports index 3
gives `tx8_reclaimed`, and the call repeated with the same index changes only
the log. -/
theorem txsync_reclaim_idempotent_witness :
    em_netmap_txsync env0 0 0 false 3 tx8_published = Outcome.ok tx8_reclaimed ∧
    em_netmap_txsync env0 0 0 false 3 tx8_reclaimed = Outcome.ok
      { tx8_reclaimed with trace := tx8_reclaimed.trace ++ (if false then [Event.EM_TX_LOCK] else [])
          ++ [Event.bus_dmamap_sync_ring, Event.E1000_READ_REG_TDH 0]
          ++ (if false then [Event.EM_TX_UNLOCK] else []) } := by
  have h : em_netmap_txsync env0 0 0 false 3 tx8_published = Outcome.ok tx8_reclaimed := by
    simp [em_netmap_txsync, tx_publish_phase, env0, tx_reclaim, tx8, tx8_published,
      tx8_reclaimed]
  exact ⟨h, (txsync_reclaim_idempotent env0 0 0 0 false 3 tx8_published).2 tx8_reclaimed h⟩

/-! ## The ring lock -/

theorem lock_ops_append (a b : List Event) : lock_ops (a ++ b) = lock_ops a ++ lock_ops b := by
  simp [lock_ops]

theorem tx_slot_events_no_lock (env : Env) (j : Int) (x : netmap_slot) :
    lock_ops (tx_slot_events env j x) = [] := by
  unfold tx_slot_events lock_ops
  split_ifs <;> simp [Event.is_lock]

theorem rx_slot_events_no_lock (env : Env) (j : Int) (x : netmap_slot) :
    lock_ops (rx_slot_events env j x) = [] := by
  unfold rx_slot_events lock_ops
  split_ifs <;> simp [Event.is_lock]

/-- The transmit loop makes no lock call while it runs; when it leaves at a
bad slot it unlocks once if the lock was taken. -/
theorem tx_publish_locks (env : Env) (lim k rf : Int) (do_lock : Bool) :
    ∀ (fuel : Nat) (j n : Int) (s : TxState) (r : TxState × Int),
    (tx_publish env lim k rf do_lock fuel j n s = Outcome.ok r →
      ∃ t, r.1.trace = s.trace ++ t ∧ lock_ops t = []) ∧
    (tx_publish env lim k rf do_lock fuel j n s = Outcome.ring_reinit r →
      ∃ t, r.1.trace = s.trace ++ t ∧
        lock_ops t = if do_lock then [Event.EM_TX_UNLOCK] else []) := by
  intro fuel
  induction fuel with
  | zero =>
    intro j n s r
    unfold tx_publish
    by_cases hjk : j = k
    · simp only [if_pos hjk]
      refine ⟨fun h => ?_, fun h => by cases h⟩
      cases h
      exact ⟨[], by simp, rfl⟩
    · simp only [if_neg hjk]
      exact ⟨fun h => (by cases h), fun h => by cases h⟩
  | succ fuel ih =>
    intro j n s r
    unfold tx_publish
    by_cases hjk : j = k
    · simp only [if_pos hjk]
      refine ⟨fun h => ?_, fun h => by cases h⟩
      cases h
      exact ⟨[], by simp, rfl⟩
    · simp only [if_neg hjk]
      split
      · rename_i x c hx hc
        split
        · refine ⟨fun h => (by cases h), fun h => ?_⟩
          cases h
          refine ⟨_, rfl, ?_⟩
          cases do_lock <;> simp [lock_ops, Event.is_lock]
        · obtain ⟨h1, h2⟩ := ih (ring_next lim j) (n + 1) (tx_body env rf j x c s) r
          constructor
          · intro h
            obtain ⟨t, ht, hl⟩ := h1 h
            refine ⟨tx_slot_events env j x ++ t, ?_, ?_⟩
            · rw [ht]; simp [tx_body]
            · rw [lock_ops_append, tx_slot_events_no_lock, hl]; rfl
          · intro h
            obtain ⟨t, ht, hl⟩ := h2 h
            refine ⟨tx_slot_events env j x ++ t, ?_, ?_⟩
            · rw [ht]; simp [tx_body]
            · rw [lock_ops_append, tx_slot_events_no_lock, hl]; rfl
      · exact ⟨fun h => (by cases h), fun h => by cases h⟩

/-- The recycle loop makes no lock call while it runs; when it leaves at a bad
slot it unlocks once if the lock was taken. -/
theorem rx_recycle_locks (env : Env) (lim k : Int) (do_lock : Bool) :
    ∀ (fuel : Nat) (j n : Int) (s : RxState) (r : RxState × Int),
    (rx_recycle env lim k do_lock fuel j n s = Outcome.ok r →
      ∃ t, r.1.trace = s.trace ++ t ∧ lock_ops t = []) ∧
    (rx_recycle env lim k do_lock fuel j n s = Outcome.ring_reinit r →
      ∃ t, r.1.trace = s.trace ++ t ∧
        lock_ops t = if do_lock then [Event.EM_RX_UNLOCK] else []) := by
  intro fuel
  induction fuel with
  | zero =>
    intro j n s r
    unfold rx_recycle
    by_cases hjk : j = k
    · simp only [if_pos hjk]
      refine ⟨fun h => ?_, fun h => by cases h⟩
      cases h
      exact ⟨[], by simp, rfl⟩
    · simp only [if_neg hjk]
      exact ⟨fun h => (by cases h), fun h => by cases h⟩
  | succ fuel ih =>
    intro j n s r
    unfold rx_recycle
    by_cases hjk : j = k
    · simp only [if_pos hjk]
      refine ⟨fun h => ?_, fun h => by cases h⟩
      cases h
      exact ⟨[], by simp, rfl⟩
    · simp only [if_neg hjk]
      split
      · rename_i x c hx hc
        split
        · refine ⟨fun h => (by cases h), fun h => ?_⟩
          cases h
          refine ⟨_, rfl, ?_⟩
          cases do_lock <;> simp [lock_ops, Event.is_lock]
        · obtain ⟨h1, h2⟩ := ih (ring_next lim j) (n + 1) (rx_body env j x c s) r
          constructor
          · intro h
            obtain ⟨t, ht, hl⟩ := h1 h
            refine ⟨rx_slot_events env j x ++ t, ?_, ?_⟩
            · rw [ht]; simp [rx_body]
            · rw [lock_ops_append, rx_slot_events_no_lock, hl]; rfl
          · intro h
            obtain ⟨t, ht, hl⟩ := h2 h
            refine ⟨rx_slot_events env j x ++ t, ?_, ?_⟩
            · rw [ht]; simp [rx_body]
            · rw [lock_ops_append, rx_slot_events_no_lock, hl]; rfl
      · exact ⟨fun h => (by cases h), fun h => by cases h⟩

/-- The ingest loop makes no lock call and never leaves through
`netmap_ring_reinit`. -/
theorem rx_ingest_loop_locks (env : Env) (lim : Int) :
    ∀ (fuel : Nat) (j n : Int) (s : RxState) (r : RxState × Int × Int),
    (rx_ingest_loop env lim fuel j n s = Outcome.ok r →
      ∃ t, r.1.trace = s.trace ++ t ∧ lock_ops t = []) ∧
    rx_ingest_loop env lim fuel j n s ≠ Outcome.ring_reinit r := by
  intro fuel
  induction fuel with
  | zero =>
    intro j n s r
    unfold rx_ingest_loop
    exact ⟨fun h => (by cases h), fun h => by cases h⟩
  | succ fuel ih =>
    intro j n s r
    unfold rx_ingest_loop
    split
    · exact ⟨fun h => (by cases h), fun h => by cases h⟩
    · rename_i c hc
      split
      · refine ⟨fun h => ?_, fun h => by cases h⟩
        cases h
        exact ⟨[], by simp, rfl⟩
      · split
        · exact ⟨fun h => (by cases h), fun h => by cases h⟩
        · rename_i x hx
          obtain ⟨h1, h2⟩ := ih (ring_next lim j) (n + 1)
            { s with
              slot := put s.slot j { x with len := c.length }
              trace := s.trace ++ [Event.bus_dmamap_sync_buf j] } r
          refine ⟨fun h => ?_, h2⟩
          obtain ⟨t, ht, hl⟩ := h1 h
          refine ⟨[Event.bus_dmamap_sync_buf j] ++ t, ?_, ?_⟩
          · rw [ht]; simp
          · rw [lock_ops_append, hl]; rfl

/-- Lock calls of `em_netmap_txsync` on any path on which it leaves: none when
the guard rejects the ring or `do_lock` is clear, otherwise one `EM_TX_LOCK`
followed by one `EM_TX_UNLOCK`. -/
theorem txsync_locks (env : Env) (fuel ring_nr : Nat) (do_lock : Bool) (tdh : Int)
    (s s' : TxState)
    (h : (em_netmap_txsync env fuel ring_nr do_lock tdh s).state? = some s') :
    ∃ t, s'.trace = s.trace ++ t ∧
      lock_ops t = if do_lock = true ∧
          ¬ (s.nr_kflags &&& env.NR_REINIT ≠ 0 ∨ s.cur > s.nkr_num_slots - 1)
        then [Event.EM_TX_LOCK, Event.EM_TX_UNLOCK] else [] := by
  unfold em_netmap_txsync at h
  dsimp only at h
  by_cases hg : s.nr_kflags &&& env.NR_REINIT ≠ 0 ∨ s.cur > s.nkr_num_slots - 1
  · rw [if_pos hg] at h
    simp only [Outcome.state?, Option.some.injEq] at h
    subst h
    refine ⟨[], by simp, ?_⟩
    rw [if_neg (fun hc => hc.2 hg)]
    rfl
  · rw [if_neg hg] at h
    obtain ⟨s2, hs2⟩ : ∃ s2 : TxState, s2 = tx_reclaim ring_nr tdh { s with trace := s.trace
        ++ (if do_lock then [Event.EM_TX_LOCK] else []) ++ [Event.bus_dmamap_sync_ring] } :=
      ⟨_, rfl⟩
    rw [← hs2] at h
    have etr : s2.trace = s.trace ++ ((if do_lock then [Event.EM_TX_LOCK] else [])
        ++ [Event.bus_dmamap_sync_ring, Event.E1000_READ_REG_TDH ring_nr]) := by
      rw [hs2]; simp [tx_reclaim]
    unfold tx_publish_phase at h
    dsimp only at h
    split at h
    · generalize hr : tx_publish env (s2.nkr_num_slots - 1) s2.cur (s2.nkr_num_slots >>> 1)
        do_lock fuel s2.nr_hwcur 0 s2 = r at h
      cases r with
      | ok p =>
        obtain ⟨t, ht, hl⟩ := (tx_publish_locks env _ _ _ do_lock fuel _ _ s2 p).1 hr
        simp only [Outcome.state?, Option.some.injEq] at h
        subst h
        refine ⟨_, by dsimp only; rw [ht, etr]; simp only [List.append_assoc]; rfl, ?_⟩
        simp only [lock_ops_append, hl]
        cases do_lock <;> simp [lock_ops, Event.is_lock, hg]
      | ring_reinit p =>
        obtain ⟨t, ht, hl⟩ := (tx_publish_locks env _ _ _ do_lock fuel _ _ s2 p).2 hr
        simp only [Outcome.state?, Option.some.injEq] at h
        subst h
        refine ⟨_, by rw [ht, etr]; simp only [List.append_assoc]; rfl, ?_⟩
        simp only [lock_ops_append, hl]
        cases do_lock <;> simp [lock_ops, Event.is_lock, hg]
      | fault => simp [Outcome.state?] at h
      | out_of_fuel => simp [Outcome.state?] at h
    · simp only [Outcome.state?, Option.some.injEq] at h
      subst h
      refine ⟨_, by dsimp only; rw [etr]; simp only [List.append_assoc]; rfl, ?_⟩
      simp only [lock_ops_append]
      cases do_lock <;> simp [lock_ops, Event.is_lock, hg]

/-- Lock calls of `em_netmap_rxsync` on any path on which it leaves: none when
the guard rejects the ring or `do_lock` is clear, otherwise one `EM_RX_LOCK`
followed by one `EM_RX_UNLOCK`. -/
theorem rxsync_locks (env : Env) (fuel : Nat) (do_lock : Bool) (s s' : RxState)
    (h : (em_netmap_rxsync env fuel do_lock s).state? = some s') :
    ∃ t, s'.trace = s.trace ++ t ∧
      lock_ops t = if do_lock = true ∧
          ¬ (s.nr_kflags &&& env.NR_REINIT ≠ 0 ∨ s.cur > s.nkr_num_slots - 1)
        then [Event.EM_RX_LOCK, Event.EM_RX_UNLOCK] else [] := by
  unfold em_netmap_rxsync at h
  dsimp only at h
  by_cases hg : s.nr_kflags &&& env.NR_REINIT ≠ 0 ∨ s.cur > s.nkr_num_slots - 1
  · rw [if_pos hg] at h
    simp only [Outcome.state?, Option.some.injEq] at h
    subst h
    refine ⟨[], by simp, ?_⟩
    rw [if_neg (fun hc => hc.2 hg)]
    rfl
  · rw [if_neg hg] at h
    have etr0 : (rx_enter do_lock s).trace = s.trace
        ++ ((if do_lock then [Event.EM_RX_LOCK] else []) ++ [Event.bus_dmamap_sync_ring]) := by
      simp [rx_enter]
    generalize hi : rx_ingest env fuel (rx_enter do_lock s) = ri at h
    unfold rx_ingest at hi
    generalize hl : rx_ingest_loop env ((rx_enter do_lock s).nkr_num_slots - 1) fuel
      (rx_enter do_lock s).next_to_check 0 (rx_enter do_lock s) = rl at hi
    cases rl with
    | ring_reinit q => exact absurd hl (rx_ingest_loop_locks env _ fuel _ _ _ q).2
    | fault => subst hi; simp [Outcome.state?] at h
    | out_of_fuel => subst hi; simp [Outcome.state?] at h
    | ok q =>
      obtain ⟨t1, ht1, hl1⟩ := (rx_ingest_loop_locks env _ fuel _ _ _ q).1 hl
      obtain ⟨s1, j, n⟩ := q
      dsimp only at hi ht1
      subst hi
      dsimp only at h
      obtain ⟨s2, hs2⟩ : ∃ s2 : RxState, s2 = (if n ≠ 0 then
          { s1 with next_to_check := j, nr_hwavail := s1.nr_hwavail + n } else s1) := ⟨_, rfl⟩
      rw [← hs2] at h
      have etr : s2.trace = s.trace ++ ((if do_lock then [Event.EM_RX_LOCK] else [])
          ++ [Event.bus_dmamap_sync_ring] ++ t1) := by
        have : s2.trace = s1.trace := by rw [hs2]; split_ifs <;> rfl
        rw [this, ht1, etr0]; simp only [List.append_assoc]
      unfold rx_recycle_phase at h
      dsimp only at h
      split at h
      · generalize hr : rx_recycle env (s2.nkr_num_slots - 1) s2.cur do_lock fuel s2.nr_hwcur 0
          s2 = r at h
        cases r with
        | ok p =>
          obtain ⟨t, ht, hl⟩ := (rx_recycle_locks env _ _ do_lock fuel _ _ s2 p).1 hr
          simp only [Outcome.state?, Option.some.injEq] at h
          subst h
          refine ⟨_, by dsimp only; rw [ht, etr]; simp only [List.append_assoc]; rfl, ?_⟩
          simp only [lock_ops_append, hl, hl1]
          cases do_lock <;> simp [lock_ops, Event.is_lock, hg]
        | ring_reinit p =>
          obtain ⟨t, ht, hl⟩ := (rx_recycle_locks env _ _ do_lock fuel _ _ s2 p).2 hr
          simp only [Outcome.state?, Option.some.injEq] at h
          subst h
          refine ⟨_, by rw [ht, etr]; simp only [List.append_assoc]; rfl, ?_⟩
          simp only [lock_ops_append, hl, hl1]
          cases do_lock <;> simp [lock_ops, Event.is_lock, hg]
        | fault => simp [Outcome.state?] at h
        | out_of_fuel => simp [Outcome.state?] at h
      · simp only [Outcome.state?, Option.some.injEq] at h
        subst h
        refine ⟨_, by dsimp only; rw [etr]; simp only [List.append_assoc]; rfl, ?_⟩
        simp only [lock_ops_append, hl1]
        cases do_lock <;> simp [lock_ops, Event.is_lock, hg]

/-- C12: lock balance of the sync routines. On every path on which
`em_netmap_txsync` or `em_netmap_rxsync` leaves (by `return 0`, or by
`return netmap_ring_reinit(kring)` at the guard or at a bad slot inside the
loop), the calls it added to the log contain, as lock calls, exactly one
acquire followed by one release when `do_lock` is set and the guard let the
ring through (the only paths on which the lock is taken), and no lock call at
all otherwise, in particular none when `do_lock` is clear. -/
theorem sync_lock_balanced (env : Env) (fuel ring_nr : Nat) (do_lock : Bool) (tdh : Int)
    (s : TxState) (r : RxState) :
    (∀ s', (em_netmap_txsync env fuel ring_nr do_lock tdh s).state? = some s' →
      ∃ t, s'.trace = s.trace ++ t ∧
        lock_ops t = if do_lock = true ∧
            ¬ (s.nr_kflags &&& env.NR_REINIT ≠ 0 ∨ s.cur > s.nkr_num_slots - 1)
          then [Event.EM_TX_LOCK, Event.EM_TX_UNLOCK] else []) ∧
    (∀ r', (em_netmap_rxsync env fuel do_lock r).state? = some r' →
      ∃ t, r'.trace = r.trace ++ t ∧
        lock_ops t = if do_lock = true ∧
            ¬ (r.nr_kflags &&& env.NR_REINIT ≠ 0 ∨ r.cur > r.nkr_num_slots - 1)
          then [Event.EM_RX_LOCK, Event.EM_RX_UNLOCK] else []) :=
  ⟨fun s' h => txsync_locks env fuel ring_nr do_lock tdh s s' h,
    fun r' h => rxsync_locks env fuel do_lock r r' h⟩

/-- C12 on concrete rings, with the lock asked for: the transmit ring
`tx8_bad3` leaves at its bad slot and the receive ring `rx4_read` returns
normally, each with one acquire and one release in its log. -/
theorem sync_lock_balanced_witness :
    (∃ s', em_netmap_txsync env0 8 0 true 0 tx8_bad3 = Outcome.ring_reinit s' ∧
      ∃ t, s'.trace = tx8_bad3.trace ++ t ∧
        lock_ops t = [Event.EM_TX_LOCK, Event.EM_TX_UNLOCK]) ∧
    (∃ r', em_netmap_rxsync env0 4 true rx4_read = Outcome.ok r' ∧
      ∃ t, r'.trace = rx4_read.trace ++ t ∧
        lock_ops t = [Event.EM_RX_LOCK, Event.EM_RX_UNLOCK]) := by
  have h1 : ∃ s', em_netmap_txsync env0 8 0 true 0 tx8_bad3 = Outcome.ring_reinit s' := by
    simp [em_netmap_txsync, tx_publish_phase, env0, tx_reclaim, tx_publish, at?, put,
      tx_slot_bad, tx_body, ring_next, tx8_bad3, descs8,
      tx_slot_after, tx_desc_after, tx_slot_events, tx_report_flags, and_not, List.replicate]
  have h2 : ∃ r', em_netmap_rxsync env0 4 true rx4_read = Outcome.ok r' := by
    simp [em_netmap_rxsync, rx_ingest, rx_ingest_loop, rx_enter, rx_recycle_phase, rx_recycle,
      env0, at?, put, rx_slot_bad, rx_body, ring_next, ring_prev, rx4_read, rx4,
      rx_slot_after, rx_desc_after, rx_slot_events, and_not, List.replicate]
  obtain ⟨s', hs'⟩ := h1
  obtain ⟨r', hr'⟩ := h2
  obtain ⟨t, ht, hl⟩ := (sync_lock_balanced env0 8 0 true 0 tx8_bad3 rx4_read).1 s'
    (by rw [hs']; rfl)
  obtain ⟨u, hu, hm⟩ := (sync_lock_balanced env0 4 0 true 0 tx8_bad3 rx4_read).2 r'
    (by rw [hr']; rfl)
  exact ⟨⟨s', hs', t, ht, hl.trans (if_pos (by decide))⟩,
    ⟨r', hr', u, hu, hm.trans (if_pos (by decide))⟩⟩

/-! ## Blocking and unblocking the task queues -/

/-- C14, code: in MSIX mode with two queues, `em_netmap_block_tasks` blocks
and drains the task queues of both queues (handles 10, 20, 11, 21), but the
loop of `em_netmap_unblock_tasks` never advances `txr` and `rxr`: it unblocks
the task queues of queue 0 twice and those of queue 1 not at all, so after a
block followed by an unblock the block count of the queues 11 and 21 is one
higher than before and that of the queues 10 and 20 one lower. With a single
queue the unblock does undo the block. -/
theorem unblock_tasks_skips_queues :
    em_netmap_block_tasks adapter2 [] = some
      [TaskEvent.taskqueue_block 10, TaskEvent.taskqueue_drain 10 100,
        TaskEvent.taskqueue_block 20, TaskEvent.taskqueue_drain 20 200,
        TaskEvent.taskqueue_block 11, TaskEvent.taskqueue_drain 11 101,
        TaskEvent.taskqueue_block 21, TaskEvent.taskqueue_drain 21 201] ∧
    em_netmap_unblock_tasks adapter2 [] = some
      [TaskEvent.taskqueue_unblock 10, TaskEvent.taskqueue_unblock 20,
        TaskEvent.taskqueue_unblock 10, TaskEvent.taskqueue_unblock 20] ∧
    (∃ log, (em_netmap_block_tasks adapter2 []).bind (em_netmap_unblock_tasks adapter2)
        = some log ∧
      block_count log 11 = 1 ∧ block_count log 21 = 1 ∧
      block_count log 10 = -1 ∧ block_count log 20 = -1) ∧
    (∃ log, (em_netmap_block_tasks adapter1 []).bind (em_netmap_unblock_tasks adapter1)
        = some log ∧
      block_count log 10 = 0 ∧ block_count log 20 = 0) := by
  refine ⟨by decide, by decide, ⟨_, rfl, ?_⟩, ⟨_, rfl, ?_⟩⟩ <;> decide

end EmNetmap

namespace PktGen

/-! ## The body of the packet -/

theorem default_payload_length : (default_payload.length : Int) = 84 := by decide

theorem min_spec (a b : Int) : min a b = a ∧ a ≤ b ∨ min a b = b ∧ b ≤ a := by
  unfold min
  split_ifs <;> omega

/-- With a payload text that is not empty the fill loop ends with `i = paylen`
after at most `paylen - i` passes; its copies are not empty, lie in
`[i, paylen)`, and the last one ends at `paylen`. -/
theorem fill_body_run (l0 paylen : Int) (hl0 : 0 < l0) :
    ∀ (fuel : Nat) (i : Int) (copies : List (Int × Int)),
    0 ≤ i → i ≤ paylen → (paylen - i).toNat ≤ fuel →
    ∃ w, fill_body l0 paylen fuel i copies = some (paylen, copies ++ w) ∧
      (∀ c ∈ w, i ≤ c.1 ∧ 0 < c.2 ∧ c.1 + c.2 ≤ paylen) ∧
      (i < paylen → ∃ c ∈ w, c.1 + c.2 = paylen) := by
  intro fuel
  induction fuel with
  | zero =>
    intro i copies h0 hi hf
    have : i = paylen := by omega
    subst this
    refine ⟨[], ?_, by simp, fun h => absurd h (lt_irrefl _)⟩
    unfold fill_body
    simp
  | succ fuel ih =>
    intro i copies h0 hi hf
    unfold fill_body
    by_cases hlt : i < paylen
    · rw [if_pos hlt]
      dsimp only
      obtain ⟨l, hl⟩ : ∃ l, l = min l0 (paylen - i) := ⟨_, rfl⟩
      rw [← hl]
      have hl1 : 0 < l ∧ l ≤ paylen - i := by
        rcases min_spec l0 (paylen - i) with ⟨e, h⟩ | ⟨e, h⟩ <;> omega
      obtain ⟨w, hw, hall, hlast⟩ := ih (i + l) (copies ++ [(i, l)]) (by omega) (by omega)
        (by omega)
      refine ⟨(i, l) :: w, ?_, ?_, ?_⟩
      · rw [hw]; simp
      · intro c hc
        rcases List.mem_cons.1 hc with rfl | hc
        · dsimp only; omega
        · have := hall c hc
          omega
      · intro _
        by_cases he : i + l = paylen
        · exact ⟨(i, l), List.mem_cons_self _ _, he⟩
        · obtain ⟨c, hc, hce⟩ := hlast (by omega)
          exact ⟨c, List.mem_cons_of_mem _ hc, hce⟩
    · have : i = paylen := by omega
      subst this
      refine ⟨[], ?_, by simp, fun h => absurd h (lt_irrefl _)⟩
      simp

/-- For the sizes 35 to 1536 the payload length is `pkt_size - 34`, in
`[1, 1502]`, and every write of `initialize_packet` into `body` is in range. -/
theorem body_writes_in_body (pkt_size : Int) (fuel : Nat) (h1 : 35 ≤ pkt_size)
    (h2 : pkt_size ≤ 1536) (hf : (pkt_size - 34).toNat ≤ fuel) :
    paylen pkt_size = pkt_size - 34 ∧
    ∃ w, initialize_packet_body fuel pkt_size = some w ∧ w.in_body ∧
      w.terminator = pkt_size - 35 := by
  have hp : paylen pkt_size = pkt_size - 34 := by
    unfold paylen sizeof_ether_header sizeof_ip
    omega
  refine ⟨hp, ?_⟩
  unfold initialize_packet_body
  dsimp only
  rw [default_payload_length, hp]
  obtain ⟨w, hw, hall, _⟩ := fill_body_run 84 (pkt_size - 34) (by decide) fuel 0 [] le_rfl
    (by omega) (by simpa using hf)
  rw [hw]
  refine ⟨_, rfl, ⟨?_, ?_, ?_⟩, ?_⟩
  · intro c hc
    have := hall c (by simpa using hc)
    unfold NM_BUF_SIZE
    omega
  · dsimp only; omega
  · dsimp only; unfold NM_BUF_SIZE; omega
  · dsimp only; omega

/-- C15, code: the test of `main` accepts the packet sizes 16 to 34, for which
the writes of `initialize_packet` leave `body`. At `pkt_size = 34` the payload
length is 0, the loop copies nothing and the terminator is written at index
`-1`. At `pkt_size = 16` the subtraction wraps in the `uint16_t`: the payload
length is 65518, the loop runs to `i = 65518` with a copy ending at byte
65518 of the 2048-byte body, and the terminator is written at index 65517.
So the payload length is not in `[1, NM_BUF_SIZE]` for these sizes. -/
theorem initialize_packet_body_out_of_range :
    pkt_size_accepted 34 ∧ paylen 34 = 0 ∧
    initialize_packet_body 0 34 = some { copies := [], terminator := -1 } ∧
    (∀ w, initialize_packet_body 0 34 = some w → ¬ w.in_body) ∧
    pkt_size_accepted 16 ∧ paylen 16 = 65518 ∧ ¬ (paylen 16 ≤ NM_BUF_SIZE) ∧
    ∃ w, initialize_packet_body 65518 16 = some w ∧ w.terminator = 65517 ∧
      (∃ c ∈ w.copies, c.1 + c.2 = 65518) ∧ ¬ w.in_body := by
  have e34 : initialize_packet_body 0 34 = some { copies := [], terminator := -1 } := by
    decide
  have p16 : paylen 16 = 65518 := by decide
  refine ⟨by decide, by decide, e34, ?_, by decide, p16, by decide, ?_⟩
  · intro w hw
    rw [e34] at hw
    cases hw
    decide
  · obtain ⟨w, hw, _, hlast⟩ := fill_body_run 84 65518 (by decide) 65518 0 [] le_rfl
      (by decide) (by decide)
    obtain ⟨c, hc, hce⟩ := hlast (by decide)
    refine ⟨{ copies := w, terminator := 65518 - 1 }, ?_, rfl, ⟨c, hc, hce⟩, ?_⟩
    · unfold initialize_packet_body
      dsimp only
      rw [default_payload_length, p16, hw]
      rfl
    · intro hin
      have h3 : (65518 - 1 : Int) < NM_BUF_SIZE := hin.2.2
      exact absurd h3 (by decide)

/-! ## Destination addresses -/

/-- The range count `targ->dst_ip_range` is taken from the source argument:
it is the number after the first `-` of `g.src_ip` when there is one and is
left as it was otherwise, whatever the destination argument is. -/
theorem initialize_packet_addr_range (libc : Libc) (g : glob_arg) (t : targ) :
    (initialize_packet_addr libc g t).dst_ip_range =
      match libc.index g.src_ip '-' with
      | some p => (libc.atoi (str_next p) % 2 ^ 32).toNat
      | none => t.dst_ip_range := by
  unfold initialize_packet_addr
  dsimp only
  cases libc.index g.src_ip '-' <;> rfl

/-- The C library instance on the texts used: the address `10.0.0.1` is
accepted, the same text followed by `-50` is rejected, the source argument
holds no `-`, and the text after the `-` of the destination argument reads
as 50. -/
theorem libc0_eval :
    libc0.inet_aton "10.0.0.1" = some 16777226 ∧ libc0.inet_aton "10.0.0.1-50" = none ∧
    libc0.index "10.0.0.1" '-' = none ∧ libc0.index "10.0.0.1-50" '-' = some "-50" ∧
    libc0.atoi (str_next "-50") = 50 := by
  decide

end PktGen
